import Mathlib

/-!
# Compartment manager and static ELF loader: shallow embedding

Lean model of `src/utils/elf_util.{h,cpp}`, `src/compartment-manager/compartment_manager.cpp`,
`compartment_config.h`, `compartment_manager_asm.h` and `compartment_interface.h`.

Conventions:
* 64-bit unsigned machine integers (`ptraddr_t`, `size_t`, `Elf64_Addr`, ...) are `Nat`; every
  arithmetic result that the C++ stores in such a type goes through `u64`.
* Code that terminates the process (`exit(1)`, failed `assert`) returns `none`.
* The operating system and the code running inside a compartment are oracles collected in
  structures (`ElfFile`, `Host`).
-/

namespace Mcc

/-! ## Machine integers -/

/-- Value of an expression stored in a 64-bit unsigned integer. -/
def u64 (x : Nat) : Nat := x % 2 ^ 64

/-- The macro `align_down(x, align)` of `utils/align.h` (`__builtin_align_down`), for a non-zero
power-of-two alignment. -/
def align_down (x align : Nat) : Nat := x - x % align

/-- The macro `align_up(x, align)` of `utils/align.h` (`__builtin_align_up`). -/
def align_up (x align : Nat) : Nat := u64 (align_down (x + (align - 1)) align)

/-! ## `struct Range` (elf_util.h) -/

/-- A range of addresses: `base` inclusive, `top` exclusive. -/
structure Range where
  base : Nat
  top : Nat
deriving DecidableEq, Repr

namespace Range

/-- Embeds `Range::kEmpty = {std::numeric_limits<ptraddr_t>::max(), 0}`. -/
def kEmpty : Range := ⟨2 ^ 64 - 1, 0⟩

/-- Embeds `Range::Size()`. -/
def Size (r : Range) : Nat := if r.top > r.base then r.top - r.base else 0

/-- Embeds `Range::Intersects(const Range&)`. -/
def Intersects (r other : Range) : Bool :=
  decide (r.base < other.top) && decide (other.base < r.top)

/-- Embeds `Range::Contains(const Range&)`. -/
def Contains (r other : Range) : Bool :=
  decide (r.base ≤ other.base) && decide (other.top ≤ r.top)

/-- Embeds `Range::Contains(ptraddr_t)`. -/
def ContainsAddr (r : Range) (addr : Nat) : Bool :=
  decide (r.base ≤ addr) && decide (addr < r.top)

/-- Embeds `Range::Enlarge(const Range&)`: the new value of `*this`. -/
def Enlarge (r other : Range) : Range :=
  ⟨min r.base other.base, max r.top other.top⟩

end Range

/-! ## Capabilities (`archcap.h`, not part of the sources) -/

/-- Modelled from the spec: the permission bits `ARCHCAP_PERM_*` of `archcap.h`, which is not
among the sources. One constructor per architectural permission; a permission mask
(`archcap_perms_t`) is a finite set of them, `|` is union. -/
inductive Perm where
  | LOAD
  | STORE
  | EXECUTE
  | LOAD_CAP
  | STORE_CAP
  | STORE_LOCAL_CAP
  | SEAL
  | UNSEAL
  | SYSTEM
  | BRANCH_SEALED_PAIR
  | COMPARTMENT_ID
  | MORELLO_MUTABLE_LOAD
  | MORELLO_EXECUTIVE
  | GLOBAL
deriving DecidableEq, Repr

/-- Modelled from the spec: a capability value (`void* __capability`, `uintcap_t`), "an
unforgeable value bundling an address, an access bound, and a permission set", with its
validity tag. Bounds are `[base, limit)`; `limit` may be `2 ^ 64`. -/
structure Cap where
  tag : Bool
  base : Nat
  limit : Nat
  address : Nat
  perms : Finset Perm
deriving DecidableEq

/-- Modelled from the spec: the null capability (`nullptr`): untagged, address 0, no permission. -/
def nullCap : Cap := ⟨false, 0, 2 ^ 64, 0, ∅⟩

/-- Modelled from the spec: `archcap_c_address_set`, "set address". -/
def archcap_c_address_set (c : Cap) (addr : Nat) : Cap :=
  { c with address := addr }

/-- Modelled from the spec: `archcap_c_bounds_set`: the new bounds start at the current address
and span `length` bytes; bounds "can only shrink, never grow", so a request that is not within
the old bounds yields an untagged value. -/
def archcap_c_bounds_set (c : Cap) (length : Nat) : Cap :=
  { c with
    base := c.address
    limit := c.address + length
    tag := c.tag && decide (c.base ≤ c.address) && decide (c.address + length ≤ c.limit) }

/-- Modelled from the spec: `archcap_c_perms_set`: the permissions are "intersected against,
never unioned with, whatever the root already allowed". -/
def archcap_c_perms_set (c : Cap) (perms : Finset Perm) : Cap :=
  { c with perms := c.perms ∩ perms }

/-- Modelled from the spec: `archcap_c_tag_get`. -/
def archcap_c_tag_get (c : Cap) : Bool := c.tag

/-- Modelled from the spec: `archcap_c_base_get`. -/
def archcap_c_base_get (c : Cap) : Nat := c.base

/-- Modelled from the spec: `archcap_c_limit_get`, a `ptraddr_t`: saturates at the largest
address. -/
def archcap_c_limit_get (c : Cap) : Nat := min c.limit (2 ^ 64 - 1)

/-- Modelled from the spec: `archcap_c_address_get`. -/
def archcap_c_address_get (c : Cap) : Nat := c.address

/-! ### `class Capability` (compartment_manager.cpp): the capability builder -/

namespace Capability

/-- Embeds `Capability::SetAddress`. -/
def SetAddress (cap_ : Cap) (addr : Nat) : Cap :=
  archcap_c_address_set cap_ addr

/-- Embeds `Capability::SetBounds`: sets the address to the base, then the bounds. -/
def SetBounds (cap_ : Cap) (base length : Nat) : Cap :=
  archcap_c_bounds_set (archcap_c_address_set cap_ base) length

/-- Embeds `Capability::SetPerms`. -/
def SetPerms (cap_ : Cap) (perms : Finset Perm) : Cap :=
  archcap_c_perms_set cap_ perms

end Capability

/-! ## Configuration constants -/

/-- Embeds `kCompartmentMemoryRangeLength` (compartment_config.h). -/
def kCompartmentMemoryRangeLength : Nat := 256 * 1024 * 1024

/-- Embeds `kCompartmentStackSize` (compartment_config.h). -/
def kCompartmentStackSize : Nat := 1024 * 1024

/-- Embeds `kCompartmentDataPerms` (compartment_config.h). -/
def kCompartmentDataPerms : Finset Perm :=
  {Perm.LOAD, Perm.LOAD_CAP, Perm.MORELLO_MUTABLE_LOAD,
   Perm.STORE, Perm.STORE_CAP, Perm.STORE_LOCAL_CAP,
   Perm.GLOBAL}

/-- Embeds `kCompartmentExecPerms` (compartment_config.h). -/
def kCompartmentExecPerms : Finset Perm :=
  {Perm.EXECUTE, Perm.GLOBAL}

/-- Embeds `kCompartmentManagerEntryPointPerms` (compartment_manager.cpp). -/
def kCompartmentManagerEntryPointPerms : Finset Perm :=
  {Perm.EXECUTE, Perm.GLOBAL, Perm.SYSTEM, Perm.MORELLO_EXECUTIVE}

/-- Embeds `MAX_COMPARTMENTS` (compartment_manager_asm.h). -/
def MAX_COMPARTMENTS : Nat := 2

/-- Embeds `kClientCompartmentId` (compartment_interface.h). -/
def kClientCompartmentId : Nat := 0
/-- Embeds `kServerCompartmentId` (compartment_interface.h). -/
def kServerCompartmentId : Nat := 1
/-- Embeds `kComputeNodeACompartmentId` (compartment_interface.h). -/
def kComputeNodeACompartmentId : Nat := 3
/-- Embeds `kComputeNodeBCompartmentId` (compartment_interface.h). -/
def kComputeNodeBCompartmentId : Nat := 4
/-- Embeds `kComputeNodeCCompartmentId` (compartment_interface.h). -/
def kComputeNodeCCompartmentId : Nat := 5

/-- The identifiers `main` passes to `CompartmentAdd`, in call order (main.cpp). -/
def mainCompartmentIds : List Nat :=
  [kClientCompartmentId, kServerCompartmentId, kComputeNodeACompartmentId,
   kComputeNodeBCompartmentId, kComputeNodeCCompartmentId]

/-! ## The compartment registry -/

/-- Embeds `struct Compartment` (compartment_manager_asm.h). -/
structure Compartment where
  csp : Cap
  ddc : Cap
  ctpidr : Cap
  entry_point : Cap
  update_on_return : Bool
deriving DecidableEq

/-- A zero-initialised descriptor: the initial value of every slot of `cm_compartments`. -/
def Compartment.zero : Compartment := ⟨nullCap, nullCap, nullCap, nullCap, false⟩

/-- The initial value of the global `cm_compartments[MAX_COMPARTMENTS]`. -/
def emptyRegistry : List Compartment := List.replicate MAX_COMPARTMENTS Compartment.zero

/-- The range `IsRangeFree` infers from a descriptor's DDC. -/
def Compartment.range (comp : Compartment) : Range :=
  ⟨archcap_c_base_get comp.ddc, archcap_c_limit_get comp.ddc⟩

/-- The loop of `IsRangeFree` over `cm_compartments`. -/
def IsRangeFree.loop (range : Range) : List Compartment → Bool
  | [] => true
  | comp :: rest =>
    if !archcap_c_tag_get comp.entry_point then IsRangeFree.loop range rest
    else if comp.range.Intersects range then false
    else IsRangeFree.loop range rest

/-- Embeds `IsRangeFree(Range range)` with the globals `cm_lowest_address` and `cm_compartments`. -/
def IsRangeFree (cm_lowest_address : Nat) (cm_compartments : List Compartment)
    (range : Range) : Bool :=
  if range.top > cm_lowest_address then false
  else IsRangeFree.loop range cm_compartments

/-! ## ELF structures and constants (`<elf.h>`, `<sys/mman.h>`) -/

/-- Embeds `Elf64_Ehdr`. -/
structure Elf64_Ehdr where
  e_ident : List Nat
  e_type : Nat
  e_machine : Nat
  e_version : Nat
  e_entry : Nat
  e_phoff : Nat
  e_shoff : Nat
  e_flags : Nat
  e_ehsize : Nat
  e_phentsize : Nat
  e_phnum : Nat
  e_shentsize : Nat
  e_shnum : Nat
  e_shstrndx : Nat
deriving DecidableEq, Repr

/-- Embeds `Elf64_Phdr`. -/
structure Elf64_Phdr where
  p_type : Nat
  p_flags : Nat
  p_offset : Nat
  p_vaddr : Nat
  p_paddr : Nat
  p_filesz : Nat
  p_memsz : Nat
  p_align : Nat
deriving DecidableEq, Repr

/-- Embeds `Elf64_Shdr`. -/
structure Elf64_Shdr where
  sh_name : Nat
  sh_type : Nat
  sh_flags : Nat
  sh_addr : Nat
  sh_offset : Nat
  sh_size : Nat
  sh_link : Nat
  sh_info : Nat
  sh_addralign : Nat
  sh_entsize : Nat
deriving DecidableEq, Repr

/-- Embeds `Elf64_Sym`. -/
structure Elf64_Sym where
  st_name : Nat
  st_info : Nat
  st_other : Nat
  st_shndx : Nat
  st_value : Nat
  st_size : Nat
deriving DecidableEq, Repr

def EI_MAG0 : Nat := 0
def EI_CLASS : Nat := 4
def ELFCLASS64 : Nat := 2
def ET_EXEC : Nat := 2
def EM_AARCH64 : Nat := 183
def PT_LOAD : Nat := 1
def PT_DYNAMIC : Nat := 2
def PT_INTERP : Nat := 3
def PF_X : Nat := 1
def PF_W : Nat := 2
def PF_R : Nat := 4
def PROT_READ : Nat := 1
def PROT_WRITE : Nat := 2
def PROT_EXEC : Nat := 4
def SHT_SYMTAB : Nat := 2
def SHT_STRTAB : Nat := 3
def SHN_UNDEF : Nat := 0
def STT_OBJECT : Nat := 1
def STT_FUNC : Nat := 2
def sizeof_Elf64_Phdr : Nat := 56
def sizeof_Elf64_Shdr : Nat := 64
def sizeof_Elf64_Sym : Nat := 24

/-- The string literal `"\x7f""ELF"` (its terminating NUL is implicit). -/
def ELFMAG : List Nat := [0x7f, 0x45, 0x4c, 0x46]

/-- C `strncmp(s1, s2, n)` on byte strings; the end of a list reads as the terminating NUL.
The result is zero exactly when the strings compare equal. -/
def strncmp : List Nat → List Nat → Nat → Int
  | _, _, 0 => 0
  | s1, s2, n + 1 =>
    if s1.headD 0 ≠ s2.headD 0 then (s1.headD 0 : Int) - (s2.headD 0 : Int)
    else if s1.headD 0 = 0 then 0
    else strncmp s1.tail s2.tail n

/-- Embeds `sizeof(void* __capability)`. -/
def sizeof_capability : Nat := 16
/-- Embeds `sizeof(ptraddr_t)`. -/
def sizeof_ptraddr_t : Nat := 8

def AT_NULL : Nat := 0
def AT_PHDR : Nat := 3
def AT_PHENT : Nat := 4
def AT_PHNUM : Nat := 5
def AT_PAGESZ : Nat := 6
def AT_SECURE : Nat := 23
def AT_RANDOM : Nat := 25
def PROT_NONE : Nat := 0
def MAP_PRIVATE : Nat := 0x02
def MAP_FIXED : Nat := 0x10
def MAP_ANONYMOUS : Nat := 0x20
def MAP_STACK : Nat := 0x20000

/-- Difference of two 64-bit unsigned values (or of a pointer and an offset), wrapping. -/
def sub64 (a b : Nat) : Nat := u64 (a + (2 ^ 64 - b % 2 ^ 64))

/-- A 64-bit value read as an `off_t` (a signed 64-bit integer, two's complement). -/
def off_t (x : Nat) : Int :=
  if u64 x < 2 ^ 63 then (u64 x : Int) else (u64 x : Int) - 2 ^ 64

/-- The arguments of one `mmap` call; `file` tells whether the call passes `fd_` (otherwise -1). -/
structure MmapCall where
  addr : Nat
  length : Nat
  prot : Nat
  flags : Nat
  file : Bool
  offset : Nat
deriving DecidableEq, Repr

/-! ## The file behind `fd_` -/

/-- What the system calls on the executable's file descriptor return. `read_*` are
`ReadHeader<T>(fd, offset, &header)` (`none`: `pread` failed or was short), `map_*` are
`MapSection` for the symbol table and the string table (`none`: `MAP_FAILED`), viewed as the
array the code reads through the returned pointer. -/
structure ElfFile where
  read_ehdr : Option Elf64_Ehdr
  read_phdr : Nat → Option Elf64_Phdr
  read_shdr : Nat → Option Elf64_Shdr
  map_symtab : Elf64_Shdr → Option (List Elf64_Sym)
  map_strtab : Elf64_Shdr → Option (List Nat)

/-! ## `class StaticElfExecutable` (elf_util.h, elf_util.cpp) -/

/-- Embeds `StaticElfExecutable::LoadSegmentInfo`. -/
structure LoadSegmentInfo where
  mem_range : Range
  file_offset : Nat
  file_mapped_size : Nat
  prot : Nat
deriving DecidableEq, Repr

/-- The data members of `StaticElfExecutable`; `fd_` is the file the descriptor refers to. -/
structure StaticElfExecutable where
  fd_ : ElfFile
  initialized_ : Bool
  load_segments_ : List LoadSegmentInfo
  total_range_ : Range
  executable_range_ : Range
  ehdr_ : Elf64_Ehdr
  symtab_ : List Elf64_Sym
  symtab_num_ : Nat
  symtab_global_index_ : Nat
  strtab_ : List Nat
  strtab_size_ : Nat
  page_size_ : Nat

namespace StaticElfExecutable

/-- The constructor `StaticElfExecutable(int fd)`: `initialized_` is false, the segment vector
is empty, `page_size_` is `sysconf(_SC_PAGESIZE)`; the members the constructor leaves
indeterminate are given zero values. -/
def create (fd : ElfFile) (page_size : Nat) : StaticElfExecutable where
  fd_ := fd
  initialized_ := false
  load_segments_ := []
  total_range_ := ⟨0, 0⟩
  executable_range_ := ⟨0, 0⟩
  ehdr_ := ⟨[], 0, 0, 0, 0, 0, 0, 0, 0, 0, 0, 0, 0, 0⟩
  symtab_ := []
  symtab_num_ := 0
  symtab_global_index_ := 0
  strtab_ := []
  strtab_size_ := 0
  page_size_ := page_size

/-- Embeds `total_range()`. -/
def total_range (s : StaticElfExecutable) : Range := s.total_range_
/-- Embeds `executable_range()`. -/
def executable_range (s : StaticElfExecutable) : Range := s.executable_range_
/-- Embeds `entry_point()`. -/
def entry_point (s : StaticElfExecutable) : Nat := s.ehdr_.e_entry

/-- The `LoadSegmentInfo` that `ReadProgramHeaders` builds from a `PT_LOAD` header. -/
def segmentInfo (page_size_ : Nat) (phdr : Elf64_Phdr) : LoadSegmentInfo where
  mem_range := ⟨u64 (align_down phdr.p_vaddr page_size_), u64 (phdr.p_vaddr + phdr.p_memsz)⟩
  file_offset := align_down phdr.p_offset page_size_
  file_mapped_size := u64 (phdr.p_filesz + (phdr.p_offset &&& (page_size_ - 1)))
  prot := (if phdr.p_flags &&& PF_R ≠ 0 then PROT_READ else 0) |||
          (if phdr.p_flags &&& PF_W ≠ 0 then PROT_WRITE else 0) |||
          (if phdr.p_flags &&& PF_X ≠ 0 then PROT_EXEC else 0)

/-- The body of the `for` loop of `ReadProgramHeaders`, over the remaining indices `i`. -/
def ReadProgramHeaders.loop : List Nat → StaticElfExecutable → Bool × StaticElfExecutable
  | [], s => (true, s)
  | i :: rest, s =>
    match s.fd_.read_phdr (u64 (s.ehdr_.e_phoff + i * sizeof_Elf64_Phdr)) with
    | none => (false, s)
    | some phdr =>
      if phdr.p_type ≠ PT_LOAD then
        if phdr.p_type = PT_DYNAMIC ∨ phdr.p_type = PT_INTERP then (false, s)
        else ReadProgramHeaders.loop rest s
      else if phdr.p_filesz > phdr.p_memsz then (false, s)
      else if phdr.p_filesz < phdr.p_memsz ∧ phdr.p_flags &&& PF_W = 0 then (false, s)
      else
        let info := segmentInfo s.page_size_ phdr
        if s.total_range_.Intersects info.mem_range then (false, s)
        else
          let s1 := { s with total_range_ := s.total_range_.Enlarge info.mem_range }
          let s2 := if phdr.p_flags &&& PF_X ≠ 0 then
              { s1 with executable_range_ := s1.executable_range_.Enlarge info.mem_range }
            else s1
          ReadProgramHeaders.loop rest { s2 with load_segments_ := s2.load_segments_ ++ [info] }

/-- Embeds `StaticElfExecutable::ReadProgramHeaders()`; `none` is the failed `assert`. -/
def ReadProgramHeaders (s : StaticElfExecutable) : Option (Bool × StaticElfExecutable) :=
  let s0 := { s with total_range_ := Range.kEmpty, executable_range_ := Range.kEmpty }
  if s0.ehdr_.e_phentsize ≠ sizeof_Elf64_Phdr then none
  else some (ReadProgramHeaders.loop (List.range s0.ehdr_.e_phnum) s0)

/-- The loop of `CheckEntryPoint` over `load_segments_`. -/
def CheckEntryPoint.loop (entry_point_range : Range) : List LoadSegmentInfo → Bool
  | [] => false
  | segment :: rest =>
    if !segment.mem_range.Contains entry_point_range then CheckEntryPoint.loop entry_point_range rest
    else if segment.prot &&& PROT_EXEC ≠ 0 then true
    else false

/-- The one-instruction window `entry_point_range` of `CheckEntryPoint`. -/
def entry_point_range (s : StaticElfExecutable) : Range :=
  ⟨s.ehdr_.e_entry, u64 (s.ehdr_.e_entry + 4)⟩

/-- Embeds `StaticElfExecutable::CheckEntryPoint()`. -/
def CheckEntryPoint (s : StaticElfExecutable) : Bool :=
  CheckEntryPoint.loop s.entry_point_range s.load_segments_

/-- The search loop of `LoadSymbolTable`, over the remaining values of `i`: `none` when a header
cannot be read, otherwise the value of `i` at loop exit and the last header read. -/
def LoadSymbolTable.find (fd : ElfFile) (ehdr : Elf64_Ehdr) :
    List Nat → Elf64_Shdr → Option (Nat × Elf64_Shdr)
  | [], last => some (ehdr.e_shnum, last)
  | i :: rest, _ =>
    match fd.read_shdr (u64 (ehdr.e_shoff + (ehdr.e_shnum - 1 - i) * sizeof_Elf64_Shdr)) with
    | none => none
    | some symtabhdr =>
      if symtabhdr.sh_type = SHT_SYMTAB then some (i, symtabhdr)
      else LoadSymbolTable.find fd ehdr rest symtabhdr

/-- Embeds `StaticElfExecutable::LoadSymbolTable()`; `none` is a failed `assert`. -/
def LoadSymbolTable (s : StaticElfExecutable) : Option (Bool × StaticElfExecutable) :=
  if s.ehdr_.e_shentsize ≠ sizeof_Elf64_Shdr then none
  else
    match LoadSymbolTable.find s.fd_ s.ehdr_ (List.range s.ehdr_.e_shnum)
        ⟨0, 0, 0, 0, 0, 0, 0, 0, 0, 0⟩ with
    | none => some (false, s)
    | some (i, symtabhdr) =>
      if i = s.ehdr_.e_shnum then some (false, s)
      else if symtabhdr.sh_entsize ≠ sizeof_Elf64_Sym then none
      else if symtabhdr.sh_link = SHN_UNDEF ∨ symtabhdr.sh_link ≥ s.ehdr_.e_shnum ∨
          symtabhdr.sh_info * sizeof_Elf64_Sym ≥ symtabhdr.sh_size ∨
          symtabhdr.sh_size = 0 ∨ symtabhdr.sh_size % sizeof_Elf64_Sym ≠ 0 then some (false, s)
      else
        match s.fd_.read_shdr (u64 (s.ehdr_.e_shoff + symtabhdr.sh_link * sizeof_Elf64_Shdr)) with
        | none => some (false, s)
        | some strtabhdr =>
          if strtabhdr.sh_type ≠ SHT_STRTAB then some (false, s)
          else
            match s.fd_.map_symtab symtabhdr with
            | none => some (false, s)
            | some symtab =>
              let s1 := { s with
                symtab_ := symtab
                symtab_num_ := (symtabhdr.sh_size / sizeof_Elf64_Sym) % 2 ^ 32
                symtab_global_index_ := symtabhdr.sh_info }
              match s.fd_.map_strtab strtabhdr with
              | none => some (false, s1)
              | some strtab =>
                some (true, { s1 with strtab_ := strtab, strtab_size_ := strtabhdr.sh_size })

/-- Embeds `StaticElfExecutable::Read()`: the returned flag and the object afterwards; `none` is a
failed `assert`. -/
def Read (s : StaticElfExecutable) : Option (Bool × StaticElfExecutable) :=
  if s.initialized_ then some (false, s)
  else
    match s.fd_.read_ehdr with
    | none => some (false, s)
    | some ehdr =>
      let s := { s with ehdr_ := ehdr }
      if ¬ (strncmp (s.ehdr_.e_ident.drop EI_MAG0) ELFMAG 4 = 0 ∧
            s.ehdr_.e_ident.getD EI_CLASS 0 = ELFCLASS64 ∧
            s.ehdr_.e_type = ET_EXEC ∧
            s.ehdr_.e_machine = EM_AARCH64) then some (false, s)
      else
        match ReadProgramHeaders s with
        | none => none
        | some (false, s) => some (false, s)
        | some (true, s) =>
          if s.executable_range_.Size = 0 then some (false, s)
          else if ¬ (s.total_range_.Size > 0) then none
          else if !CheckEntryPoint s then some (false, s)
          else
            match LoadSymbolTable s with
            | none => none
            | some (false, s) => some (false, s)
            | some (true, s) => some (true, { s with initialized_ := true })

/-- The loop of `FindSymbol` over `load_segments_`, for a symbol whose name and size matched:
the returned address, 0 standing for `nullptr`. -/
def FindSymbol.segments (sym : Elf64_Sym) (prot : Nat) : List LoadSegmentInfo → Nat
  | [] => 0
  | segment :: rest =>
    if !segment.mem_range.Contains ⟨sym.st_value, u64 (sym.st_value + sym.st_size)⟩ then
      FindSymbol.segments sym prot rest
    else if segment.prot &&& prot = prot then sym.st_value
    else 0

/-- The loop of `FindSymbol` over the symbol indices `i`; `none` is a read outside the mapped
symbol table. -/
def FindSymbol.loop (s : StaticElfExecutable) (name : List Nat) (size prot : Nat) :
    List Nat → Option Nat
  | [] => some 0
  | i :: rest =>
    match s.symtab_.get? i with
    | none => none
    | some sym =>
      if ¬ (sym.st_info &&& 0xf = STT_OBJECT ∨ sym.st_info &&& 0xf = STT_FUNC) then
        FindSymbol.loop s name size prot rest
      else if sym.st_name ≥ s.strtab_size_ then FindSymbol.loop s name size prot rest
      else if strncmp (s.strtab_.drop sym.st_name) name (s.strtab_size_ - sym.st_name) ≠ 0 then
        FindSymbol.loop s name size prot rest
      else if size = 0 ∨ sym.st_size = size then
        some (FindSymbol.segments sym prot s.load_segments_)
      else some 0

/-- Embeds `StaticElfExecutable::FindSymbol(name, size, prot)`: the returned address, 0 standing for
`nullptr`. -/
def FindSymbol (s : StaticElfExecutable) (name : List Nat) (size prot : Nat) : Option Nat :=
  if !s.initialized_ then some 0
  else FindSymbol.loop s name size prot
    (List.range' s.symtab_global_index_ (s.symtab_num_ - s.symtab_global_index_))

/-- The loop of `GetAuxval(AT_PHDR)` over `load_segments_`. The offsets `phdr_base_off`,
`phdr_top_off`, `segment.file_offset` and `segment_top_offset` are of type `off_t` and compared
as signed values; `e_phoff` is the 64-bit pattern of `phdr_base_off`, with which the returned
`unsigned long` is computed. -/
def GetAuxval.phdr (e_phoff : Nat) (phdr_base_off phdr_top_off : Int) :
    List LoadSegmentInfo → Nat
  | [] => 0
  | segment :: rest =>
    let segment_top_offset := off_t (segment.file_offset + segment.file_mapped_size)
    if off_t segment.file_offset ≤ phdr_base_off ∧ phdr_top_off ≤ segment_top_offset then
      sub64 (u64 (segment.mem_range.base + e_phoff)) segment.file_offset
    else GetAuxval.phdr e_phoff phdr_base_off phdr_top_off rest

/-- Embeds `StaticElfExecutable::GetAuxval(type)`. The product `e_phnum * e_phentsize` (an `int`) and
the signed sum `phdr_base_off + ...` are taken exactly: C leaves their overflow undefined. -/
def GetAuxval (s : StaticElfExecutable) (type : Nat) : Nat :=
  if type = AT_PHDR then
    GetAuxval.phdr s.ehdr_.e_phoff (off_t s.ehdr_.e_phoff)
      (off_t s.ehdr_.e_phoff + ((s.ehdr_.e_phnum * s.ehdr_.e_phentsize : Nat) : Int))
      s.load_segments_
  else if type = AT_PHENT then s.ehdr_.e_phentsize
  else if type = AT_PHNUM then s.ehdr_.e_phnum
  else 0

end StaticElfExecutable

/-! ## The host and the observable operations -/

/-- The operations the manager issues on the process, in program order. -/
inductive Event where
  /-- One `mmap` call. -/
  | mmap (call : MmapCall)
  /-- The call `memset(addr, 0, size)`. -/
  | memset (addr size : Nat)
  /-- The call `memcpy(addr, src, size)`, with the bytes copied. -/
  | memcpy (addr : Nat) (bytes : List Nat)
  /-- A store of an address word through a `ptraddr_t*`. -/
  | store_word (addr value : Nat)
  /-- A store of a capability through a `void* __capability*`. -/
  | store_cap (addr : Nat) (value : Cap)
  /-- The call `CompartmentCall(id)`, with the registry as it is at that moment. -/
  | compartment_call (id : Nat) (registry : List Compartment)

/-- Everything outside the manager that its code consults. -/
structure Host where
  /-- Embeds `sysconf(_SC_PAGESIZE)`. -/
  page_size : Nat
  /-- Embeds `open(path, O_RDONLY)`: the file, or `none` for -1. -/
  open_file : List Nat → Option ElfFile
  /-- Whether an `mmap` call succeeds (all calls are `MAP_FIXED`). -/
  mmap_ok : MmapCall → Bool
  /-- Embeds `getrandom(buf, 16, 0)`: the bytes written to `buf` (the first 16 are used, a
  shorter list is padded with zeros), or `none` when the call does not return 16. -/
  getrandom : Option (List Nat)
  /-- The entries of `environ`, without the terminating null pointer. -/
  environ : List (List Nat)
  /-- Embeds `getauxval(AT_PAGESZ)`. -/
  at_pagesz : Nat
  /-- Embeds `archcap_c_ddc_get()`: the manager's own DDC, the root of every derived capability. -/
  cm_ddc : Cap
  /-- Embeds `&CompartmentSwitch`. -/
  CompartmentSwitch : Nat
  /-- Embeds `&CompartmentSwitchReturn`. -/
  CompartmentSwitchReturn : Nat
  /-- The code of the compartment entered through a descriptor: the stack-pointer and
  thread-pointer capabilities it holds when it returns, `none` if it never returns. -/
  run_compartment : Nat → Compartment → Option (Cap × Cap)
  /-- The first integer of `/proc/self/maps`, `none` when the stream goes bad. -/
  proc_self_maps : Option Nat

/-- The globals of compartment_manager.cpp, with the operations issued so far. -/
structure Manager where
  cm_compartments : List Compartment
  cm_lowest_address : Nat
  trace : List Event

namespace StaticElfExecutable

/-- The body of the loop of `Map()` for one segment, with the operations issued: `some true`
when the loop goes on to the next segment, `some false` when `Map()` returns false (an `mmap`
failed), and `none` when the process is killed inside `memset` (SIGSEGV). The bytes `memset`
writes lie between `zero_fill_start` and the next page boundary, that is, in the last page of
the mapping just made with `segment.prot`: writing them faults when that protection lacks
`PROT_WRITE`. The faulting call is then the last operation. -/
def Map.segment (host : Host) (page_size_ : Nat) (segment : LoadSegmentInfo) :
    Option Bool × List Event :=
  let m1 : MmapCall := ⟨segment.mem_range.base, segment.file_mapped_size, segment.prot,
    MAP_PRIVATE ||| MAP_FIXED, true, segment.file_offset⟩
  if !host.mmap_ok m1 then (some false, [Event.mmap m1])
  else
    let zero_fill_size := sub64 segment.mem_range.Size segment.file_mapped_size
    if zero_fill_size ≠ 0 then
      let zero_fill_start := u64 (segment.mem_range.base + segment.file_mapped_size)
      let zero_pages_start := align_up zero_fill_start page_size_
      let memset_size := min (sub64 zero_pages_start zero_fill_start) zero_fill_size
      if memset_size ≠ 0 ∧ segment.prot &&& PROT_WRITE = 0 then
        (none, [Event.mmap m1, Event.memset zero_fill_start memset_size])
      else
        let zero_fill_size := sub64 zero_fill_size memset_size
        if zero_fill_size ≠ 0 then
          let m2 : MmapCall := ⟨zero_pages_start, zero_fill_size, segment.prot,
            MAP_PRIVATE ||| MAP_FIXED ||| MAP_ANONYMOUS, false, 0⟩
          if !host.mmap_ok m2 then
            (some false,
              [Event.mmap m1, Event.memset zero_fill_start memset_size, Event.mmap m2])
          else
            (some true,
              [Event.mmap m1, Event.memset zero_fill_start memset_size, Event.mmap m2])
        else (some true, [Event.mmap m1, Event.memset zero_fill_start memset_size])
    else (some true, [Event.mmap m1])

/-- The loop of `Map()` over `load_segments_`: `some b` when `Map()` returns `b`, `none` when
the process is killed inside it. -/
def Map.loop (host : Host) (page_size_ : Nat) :
    List LoadSegmentInfo → Option Bool × List Event
  | [] => (some true, [])
  | segment :: rest =>
    match Map.segment host page_size_ segment with
    | (none, evs) => (none, evs)
    | (some false, evs) => (some false, evs)
    | (some true, evs) =>
      match Map.loop host page_size_ rest with
      | (res, evs2) => (res, evs ++ evs2)

/-- Embeds `StaticElfExecutable::Map()`: the returned flag (`none` when the process is killed
inside the call) and the operations issued. -/
def Map (host : Host) (s : StaticElfExecutable) : Option Bool × List Event :=
  if !s.initialized_ then (some false, [])
  else Map.loop host s.page_size_ s.load_segments_

end StaticElfExecutable

/-! ## The compartment manager (compartment_manager.cpp) -/

/-- The bytes of a string literal, without the terminating NUL. -/
def cstr (s : String) : List Nat := s.toList.map Char.toNat

/-- C `strlen`. -/
def strlen (s : List Nat) : Nat := (s.takeWhile (fun c => c ≠ 0)).length

/-- The 8 bytes of a 64-bit value in memory (little-endian). -/
def le64 (v : Nat) : List Nat := (List.range 8).map (fun i => v / 256 ^ i % 256)

/-- Embeds `COMPARTMENT_ENTRY_SYMBOL` (compartment_interface.h), stringified. -/
def COMPARTMENT_ENTRY_SYMBOL : List Nat := cstr "__compartment_entry"
/-- Embeds `COMPARTMENT_MANAGER_CALL_CAPABILITY_SYMBOL`, stringified. -/
def COMPARTMENT_MANAGER_CALL_CAPABILITY_SYMBOL : List Nat := cstr "__compartment_manager_call"
/-- Embeds `COMPARTMENT_MANAGER_RETURN_CAPABILITY_SYMBOL`, stringified. -/
def COMPARTMENT_MANAGER_RETURN_CAPABILITY_SYMBOL : List Nat :=
  cstr "__compartment_manager_return"
/-- Embeds `COMPARTMENT_MMAP_RANGE_BASE_SYMBOL`, stringified. -/
def COMPARTMENT_MMAP_RANGE_BASE_SYMBOL : List Nat := cstr "__compartment_mmap_range_base"
/-- Embeds `COMPARTMENT_MMAP_RANGE_TOP_SYMBOL`, stringified. -/
def COMPARTMENT_MMAP_RANGE_TOP_SYMBOL : List Nat := cstr "__compartment_mmap_range_top"

/-- Embeds `kCompartmentPropagatedEnv` (compartment_config.h). -/
def kCompartmentPropagatedEnv : List (List Nat) := [cstr "PATH"]

/-- Embeds `GetFullEnvString(name)` over the entries of `environ`. The loop tests `env != nullptr`, not
`*env != nullptr`: when no entry matches it reaches the terminating null entry and passes it to
`strncmp`, a fault (`none`). `some none` stands for a returned `nullptr`. -/
def GetFullEnvString (name : List Nat) : List (List Nat) → Option (Option (List Nat))
  | [] => none
  | str :: rest =>
    if strncmp str name (strlen name) = 0 ∧ str.getD (strlen name) 0 = 0x3d then some (some str)
    else GetFullEnvString name rest

/-- The result of `SetupMappings`: the returned flag, the out-parameters and the operations
issued; `fault` tells that the process was killed inside `Map()`, so that the call did not
return (`ok` is false then). -/
structure Mappings where
  ok : Bool
  stack_top : Nat
  mmap_range : Range
  events : List Event
  fault : Bool

/-- Embeds `SetupMappings(elf, memory_range_length, stack_size, &stack_top, &mmap_range)`. -/
def SetupMappings (host : Host) (m : Manager) (elf : StaticElfExecutable)
    (memory_range_length stack_size : Nat) : Mappings :=
  let page_size := host.page_size
  if !IsRangeFree m.cm_lowest_address m.cm_compartments
      ⟨elf.total_range.base, u64 (elf.total_range.base + memory_range_length)⟩ then
    ⟨false, 0, ⟨0, 0⟩, [], false⟩
  else
    let required_range_length := u64 (elf.total_range.Size + kCompartmentStackSize + 2 * page_size)
    if required_range_length > memory_range_length then ⟨false, 0, ⟨0, 0⟩, [], false⟩
    else
      let reserve : MmapCall := ⟨elf.total_range.base, memory_range_length, PROT_NONE,
        MAP_PRIVATE ||| MAP_ANONYMOUS ||| MAP_FIXED, false, 0⟩
      if !host.mmap_ok reserve then ⟨false, 0, ⟨0, 0⟩, [Event.mmap reserve], false⟩
      else
        match elf.Map host with
        | (none, evs) => ⟨false, 0, ⟨0, 0⟩, Event.mmap reserve :: evs, true⟩
        | (some false, evs) => ⟨false, 0, ⟨0, 0⟩, Event.mmap reserve :: evs, false⟩
        | (some true, evs) =>
          let stack_base :=
            sub64 (sub64 (u64 (elf.total_range.base + memory_range_length)) stack_size) page_size
          let stack : MmapCall := ⟨stack_base, stack_size, PROT_READ ||| PROT_WRITE,
            MAP_PRIVATE ||| MAP_ANONYMOUS ||| MAP_STACK ||| MAP_FIXED, false, 0⟩
          if !host.mmap_ok stack then
            ⟨false, 0, ⟨0, 0⟩, Event.mmap reserve :: evs ++ [Event.mmap stack], false⟩
          else
            ⟨true, u64 (stack_base + stack_size),
              ⟨elf.total_range.top, sub64 stack_base page_size⟩,
              Event.mmap reserve :: evs ++ [Event.mmap stack], false⟩

/-- The local state of `SetupCompartmentStack`: `sp`, `overflow`, and the copies made. -/
structure StackBuilder where
  sp : Nat
  overflow : Bool
  events : List Event

/-- The lambda `push(src, size)` of `SetupCompartmentStack`, `size` being the number of bytes
given. -/
def StackBuilder.push (lower_limit : Nat) (b : StackBuilder) (src : List Nat) : StackBuilder :=
  if sub64 b.sp src.length < lower_limit then { b with overflow := true }
  else { b with sp := sub64 b.sp src.length
                events := b.events ++ [Event.memcpy (sub64 b.sp src.length) src] }

/-- The lambda `set_auxval(type, val)`: pushes one 16-byte `Elf64_auxv_t`. -/
def StackBuilder.set_auxval (lower_limit : Nat) (b : StackBuilder) (type val : Nat) :
    StackBuilder :=
  b.push lower_limit (le64 type ++ le64 val)

/-- The first loop of `SetupCompartmentStack`: copies each argument string and records the
stack pointer after the copy in `argv_str`. -/
def SetupCompartmentStack.args (lower_limit : Nat) :
    List (List Nat) → StackBuilder → List Nat → StackBuilder × List Nat
  | [], b, argv_str => (b, argv_str)
  | arg :: rest, b, argv_str =>
    let b := b.push lower_limit (arg ++ [0])
    SetupCompartmentStack.args lower_limit rest b (argv_str ++ [b.sp])

/-- The second loop of `SetupCompartmentStack`, over `kCompartmentPropagatedEnv`; an error is a
fault inside `GetFullEnvString`, with the copies made until then. -/
def SetupCompartmentStack.envs (lower_limit : Nat) (environ : List (List Nat)) :
    List (List Nat) → StackBuilder → List Nat → Except (List Event) (StackBuilder × List Nat)
  | [], b, envp_str => .ok (b, envp_str)
  | env_name :: rest, b, envp_str =>
    match GetFullEnvString env_name environ with
    | none => .error b.events
    | some none => SetupCompartmentStack.envs lower_limit environ rest b envp_str
    | some (some env) =>
      let b := b.push lower_limit (env.takeWhile (fun c => c ≠ 0) ++ [0])
      SetupCompartmentStack.envs lower_limit environ rest b (envp_str ++ [b.sp])

/-- Pushes one pointer-sized word per element of a list, in list order. -/
def StackBuilder.push_words (lower_limit : Nat) : List Nat → StackBuilder → StackBuilder
  | [], b => b
  | w :: rest, b => StackBuilder.push_words lower_limit rest (b.push lower_limit (le64 w))

/-- Embeds `SetupCompartmentStack(&stack_top, stack_size, args, exec)`: the returned flag, the final
`*stack_top` and the copies made; an error when the process exits or faults, with the copies
made until then. -/
def SetupCompartmentStack (host : Host) (stack_top stack_size : Nat) (args : List (List Nat))
    (exec : StaticElfExecutable) : Except (List Event) (Bool × Nat × List Event) :=
  let lower_limit := sub64 stack_top (stack_size / 2)
  let b : StackBuilder := ⟨stack_top, false, []⟩
  let (b, argv_str) := SetupCompartmentStack.args lower_limit args b []
  match SetupCompartmentStack.envs lower_limit host.environ kCompartmentPropagatedEnv b [] with
  | .error evs => .error evs
  | .ok (b, envp_str) =>
    match host.getrandom with
    | none => .error b.events
    | some buf =>
      let b := b.push lower_limit ((buf ++ List.replicate 16 0).take 16)
      let at_random := b.sp
      let args_env_size := u64 ((envp_str.length + 1 + argv_str.length + 1 + 1) * 8)
      let b := { b with sp := sub64 b.sp (sub64 b.sp args_env_size &&& 0xf) }
      let b := b.set_auxval lower_limit AT_NULL 0
      let b := b.set_auxval lower_limit AT_RANDOM at_random
      let b := b.set_auxval lower_limit AT_SECURE 0
      let b := b.set_auxval lower_limit AT_PHNUM (exec.GetAuxval AT_PHNUM)
      let b := b.set_auxval lower_limit AT_PHENT (exec.GetAuxval AT_PHENT)
      let b := b.set_auxval lower_limit AT_PHDR (exec.GetAuxval AT_PHDR)
      let b := b.set_auxval lower_limit AT_PAGESZ host.at_pagesz
      let b := b.push lower_limit (le64 0)
      let b := StackBuilder.push_words lower_limit envp_str b
      let b := b.push lower_limit (le64 0)
      let b := StackBuilder.push_words lower_limit argv_str.reverse b
      let b := b.push lower_limit (le64 args.length)
      .ok (!b.overflow, b.sp, b.events)

/-- Embeds `CheckSpWithinStackBounds(sp, stack_top, stack_size)`: true when it returns, false when it
calls `exit(1)`. -/
def CheckSpWithinStackBounds (sp stack_top stack_size : Nat) : Bool :=
  (Range.mk (sub64 stack_top stack_size) stack_top).ContainsAddr sp

/-- Embeds `GetElfDataSymbol<T>(elf, name)` with `size = sizeof(T)`: `none` when the process exits or
faults. -/
def GetElfDataSymbol (elf : StaticElfExecutable) (size : Nat) (name : List Nat) : Option Nat :=
  match elf.FindSymbol name size (PROT_READ ||| PROT_WRITE) with
  | none => none
  | some sym => if sym = 0 then none else some sym

/-- Embeds `GetElfFunctionSymbol(elf, name)`: `none` when the process exits or faults. -/
def GetElfFunctionSymbol (elf : StaticElfExecutable) (name : List Nat) : Option Nat :=
  match elf.FindSymbol name 0 PROT_EXEC with
  | none => none
  | some sym => if sym = 0 then none else some sym

/-- Embeds `CompartmentManagerInit()`: `none` when the process exits. -/
def CompartmentManagerInit (host : Host) (m : Manager) : Option Manager :=
  match host.proc_self_maps with
  | none => none
  | some lowest => some { m with cm_lowest_address := lowest }

/-- The state of the manager's globals when the program starts. -/
def Manager.start : Manager := ⟨emptyRegistry, 0, []⟩

/-- Modelled from the spec: `CompartmentCall(id)` as issued by the manager, through the
assembly routine `CompartmentSwitch` that is not among the sources. The call enters the
compartment through its descriptor and blocks until it returns; only when the descriptor's
flag requests it, the protocol "captures the callee's final stack-pointer and thread-pointer
values back into the descriptor". `none`: the compartment never returns. -/
def CompartmentCall (host : Host) (cm_compartments : List Compartment) (id : Nat) :
    Option (List Compartment) :=
  match cm_compartments.get? id with
  | none => none
  | some desc =>
    match host.run_compartment id desc with
    | none => none
    | some (csp, ctpidr) =>
      if desc.update_on_return then
        some (cm_compartments.set id { desc with csp := csp, ctpidr := ctpidr })
      else some cm_compartments

/-- The capability `ddc` computed in step 3 of `CompartmentAdd`. -/
def CompartmentAdd.ddc (host : Host) (elf : StaticElfExecutable) (memory_range_length : Nat) :
    Cap :=
  Capability.SetPerms
    (Capability.SetBounds host.cm_ddc elf.total_range.base memory_range_length)
    kCompartmentDataPerms

/-- The capability `c_entry_point` computed in step 3 of `CompartmentAdd`. -/
def CompartmentAdd.c_entry_point (host : Host) (elf : StaticElfExecutable)
    (entry_point_sym : Nat) : Cap :=
  Capability.SetPerms
    (Capability.SetAddress
      (Capability.SetBounds host.cm_ddc elf.executable_range.base elf.executable_range.Size)
      entry_point_sym)
    kCompartmentExecPerms

/-- The capability `init_entry_point` computed in step 3 of `CompartmentAdd`. -/
def CompartmentAdd.init_entry_point (host : Host) (elf : StaticElfExecutable)
    (entry_point_sym : Nat) : Cap :=
  Capability.SetAddress (CompartmentAdd.c_entry_point host elf entry_point_sym) elf.entry_point

/-- The capability stored in the return and call slots: `Capability(cm_ddc).SetAddress(fn)
.SetPerms(kCompartmentManagerEntryPointPerms)`. -/
def CompartmentAdd.manager_entry (host : Host) (fn : Nat) : Cap :=
  Capability.SetPerms (Capability.SetAddress host.cm_ddc fn) kCompartmentManagerEntryPointPerms

/-- Steps 3 to 5 of `CompartmentAdd`, after the mappings and the stack are set up. -/
def CompartmentAdd.finish (host : Host) (m : Manager) (id : Nat) (elf : StaticElfExecutable)
    (memory_range_length entry_point_sym cm_call_cap_sym cm_return_cap_sym stack_top : Nat)
    (trace : List Event) : Except (List Event) Manager :=
  let ddc := CompartmentAdd.ddc host elf memory_range_length
  let c_entry_point := CompartmentAdd.c_entry_point host elf entry_point_sym
  let init_entry_point := CompartmentAdd.init_entry_point host elf entry_point_sym
  let csp := archcap_c_address_set nullCap stack_top
  let trace := trace ++
    [Event.store_cap cm_return_cap_sym
      (CompartmentAdd.manager_entry host host.CompartmentSwitchReturn)]
  let registry := m.cm_compartments.set id
    { csp := csp, ddc := ddc, ctpidr := nullCap, entry_point := init_entry_point,
      update_on_return := true }
  let trace := trace ++ [Event.compartment_call id registry]
  match CompartmentCall host registry id with
  | none => .error trace
  | some registry =>
    match registry.get? id with
    | none => .error trace
    | some desc =>
      if !CheckSpWithinStackBounds (archcap_c_address_get desc.csp) stack_top
          kCompartmentStackSize then .error trace
      else
        .ok { cm_compartments := registry.set id
                { desc with entry_point := c_entry_point, update_on_return := false }
              cm_lowest_address := m.cm_lowest_address
              trace := trace ++
                [Event.store_cap cm_call_cap_sym
                  (CompartmentAdd.manager_entry host host.CompartmentSwitch)] }

/-- Step 2 of `CompartmentAdd` followed by the rest, once the executable is read and its symbols
are found. -/
def CompartmentAdd.setup (host : Host) (m : Manager) (id : Nat) (path : List Nat)
    (args : List (List Nat)) (memory_range_length : Nat) (elf : StaticElfExecutable)
    (entry_point_sym cm_call_cap_sym cm_return_cap_sym mmap_range_base_sym
      mmap_range_top_sym : Nat) : Except (List Event) Manager :=
  let maps := SetupMappings host m elf memory_range_length kCompartmentStackSize
  if !maps.ok then .error (m.trace ++ maps.events)
  else
    match SetupCompartmentStack host maps.stack_top kCompartmentStackSize (path :: args) elf with
    | .error evs => .error (m.trace ++ maps.events ++ evs)
    | .ok (false, _, evs) => .error (m.trace ++ maps.events ++ evs)
    | .ok (true, stack_top, evs) =>
      CompartmentAdd.finish host m id elf memory_range_length entry_point_sym cm_call_cap_sym
        cm_return_cap_sym stack_top
        (m.trace ++ maps.events ++ evs ++
          [Event.store_word mmap_range_base_sym maps.mmap_range.base,
           Event.store_word mmap_range_top_sym maps.mmap_range.top])

/-- Embeds `CompartmentAdd(id, path, args, memory_range_length)`. The result is the manager's globals
when the function returns; an error is the process not getting there (`exit(1)`, a failed
`assert`, a fault, or a compartment that never returns), with the operations issued until
then. -/
def CompartmentAdd (host : Host) (m : Manager) (id : Nat) (path : List Nat)
    (args : List (List Nat)) (memory_range_length : Nat) : Except (List Event) Manager :=
  if ¬ id < MAX_COMPARTMENTS then .error m.trace
  else
    match host.open_file path with
    | none => .error m.trace
    | some fd =>
      match (StaticElfExecutable.create fd host.page_size).Read with
      | none => .error m.trace
      | some (false, _) => .error m.trace
      | some (true, elf) =>
        match GetElfFunctionSymbol elf COMPARTMENT_ENTRY_SYMBOL with
        | none => .error m.trace
        | some entry_point_sym =>
        match GetElfDataSymbol elf sizeof_capability
            COMPARTMENT_MANAGER_CALL_CAPABILITY_SYMBOL with
        | none => .error m.trace
        | some cm_call_cap_sym =>
        match GetElfDataSymbol elf sizeof_capability
            COMPARTMENT_MANAGER_RETURN_CAPABILITY_SYMBOL with
        | none => .error m.trace
        | some cm_return_cap_sym =>
        match GetElfDataSymbol elf sizeof_ptraddr_t COMPARTMENT_MMAP_RANGE_BASE_SYMBOL with
        | none => .error m.trace
        | some mmap_range_base_sym =>
        match GetElfDataSymbol elf sizeof_ptraddr_t COMPARTMENT_MMAP_RANGE_TOP_SYMBOL with
        | none => .error m.trace
        | some mmap_range_top_sym =>
          CompartmentAdd.setup host m id path args memory_range_length elf entry_point_sym
            cm_call_cap_sym cm_return_cap_sym mmap_range_base_sym mmap_range_top_sym

/-- The arguments of one call of `CompartmentAdd`. -/
structure AddCall where
  id : Nat
  path : List Nat
  args : List (List Nat)
  memory_range_length : Nat

/-- A sequence of `CompartmentAdd` calls, as in `main`: each call starts from the globals the
previous one left; the sequence stops at the first call that does not return. -/
def CompartmentAddAll (host : Host) : Manager → List AddCall → Except (List Event) Manager
  | m, [] => .ok m
  | m, call :: rest =>
    match CompartmentAdd host m call.id call.path call.args call.memory_range_length with
    | .error trace => .error trace
    | .ok m' => CompartmentAddAll host m' rest

/-! ## A concrete host and concrete executables -/

namespace Sample

/-- Every architectural permission. -/
def allPerms : Finset Perm :=
  {Perm.LOAD, Perm.STORE, Perm.EXECUTE, Perm.LOAD_CAP, Perm.STORE_CAP, Perm.STORE_LOCAL_CAP,
   Perm.SEAL, Perm.UNSEAL, Perm.SYSTEM, Perm.BRANCH_SEALED_PAIR, Perm.COMPARTMENT_ID,
   Perm.MORELLO_MUTABLE_LOAD, Perm.MORELLO_EXECUTIVE, Perm.GLOBAL}

/-- A root capability: tagged, the whole address space, every permission. -/
def rootCap : Cap := ⟨true, 0, 2 ^ 64, 0, allPerms⟩

/-- The header of a static AArch64 executable linked at `base`, with `phnum` program headers. -/
def ehdr (base phnum : Nat) : Elf64_Ehdr where
  e_ident := [0x7f, 0x45, 0x4c, 0x46, 2, 1, 1, 0, 0, 0, 0, 0, 0, 0, 0, 0]
  e_type := 2
  e_machine := 183
  e_version := 1
  e_entry := base + 0x100
  e_phoff := 64
  e_shoff := 0x3000
  e_flags := 0
  e_ehsize := 64
  e_phentsize := 56
  e_phnum := phnum
  e_shentsize := 64
  e_shnum := 3
  e_shstrndx := 0

/-- Its program headers: a text segment, a data segment with a zero-filled tail, and a second
text segment above the data. -/
def phdrs (base : Nat) : List Elf64_Phdr :=
  [⟨PT_LOAD, PF_R ||| PF_X, 0, base, base, 0x1000, 0x1000, 0x1000⟩,
   ⟨PT_LOAD, PF_R ||| PF_W, 0x1000, base + 0x10000, base + 0x10000, 0x100, 0x1000, 0x1000⟩,
   ⟨PT_LOAD, PF_R ||| PF_X, 0x2000, base + 0x20000, base + 0x20000, 0x1000, 0x1000, 0x1000⟩]

/-- Its section headers: the null section, the string table, the symbol table. -/
def shdrs : List Elf64_Shdr :=
  [⟨0, 0, 0, 0, 0, 0, 0, 0, 0, 0⟩,
   ⟨0, SHT_STRTAB, 0, 0, 0x4000, 136, 0, 0, 1, 0⟩,
   ⟨0, SHT_SYMTAB, 0, 0, 0x5000, 144, 1, 1, 8, 24⟩]

/-- Its string table. -/
def strtab : List Nat :=
  [0] ++ COMPARTMENT_ENTRY_SYMBOL ++ [0] ++ COMPARTMENT_MANAGER_CALL_CAPABILITY_SYMBOL ++ [0] ++
  COMPARTMENT_MANAGER_RETURN_CAPABILITY_SYMBOL ++ [0] ++ COMPARTMENT_MMAP_RANGE_BASE_SYMBOL ++
  [0] ++ COMPARTMENT_MMAP_RANGE_TOP_SYMBOL ++ [0]

/-- Its symbol table: one local entry, then the five global symbols the manager looks up. -/
def symtab (base : Nat) : List Elf64_Sym :=
  [⟨0, 0, 0, 0, 0, 0⟩,
   ⟨1, 0x12, 0, 1, base + 0x200, 4⟩,
   ⟨21, 0x11, 0, 2, base + 0x10000, 16⟩,
   ⟨48, 0x11, 0, 2, base + 0x10010, 16⟩,
   ⟨77, 0x11, 0, 2, base + 0x10020, 8⟩,
   ⟨107, 0x11, 0, 2, base + 0x10028, 8⟩]

/-- The file of the executable linked at `base` with `phnum` program headers. -/
def file (base phnum : Nat) : ElfFile where
  read_ehdr := some (ehdr base phnum)
  read_phdr := fun off =>
    if 64 ≤ off ∧ (off - 64) % 56 = 0 then (phdrs base).get? ((off - 64) / 56) else none
  read_shdr := fun off =>
    if 0x3000 ≤ off ∧ (off - 0x3000) % 64 = 0 then shdrs.get? ((off - 0x3000) / 64) else none
  map_symtab := fun _ => some (symtab base)
  map_strtab := fun _ => some strtab

/-- A compartment that returns from its initialisation `depth` bytes below the stack pointer it
was entered with. -/
def run_below (depth : Nat) : Nat → Compartment → Option (Cap × Cap) :=
  fun _ desc =>
    some (archcap_c_address_set desc.csp (desc.csp.address - depth),
          archcap_c_address_set nullCap 0x1010)

/-- A compartment that returns from its initialisation with its stack pointer 16 bytes below
the base of the stack mapping, `limit(ddc) - page_size - kCompartmentStackSize`, that is, inside
the guard page under the stack. -/
def run_into_guard : Nat → Compartment → Option (Cap × Cap) :=
  fun _ desc =>
    some (archcap_c_address_set desc.csp (desc.ddc.limit - 4096 - kCompartmentStackSize - 16),
          archcap_c_address_set nullCap 0x1010)

/-- A host with 4 KiB pages, a 48-bit user address space, two executables (`"a"` linked at
0x10000 with two segments, `"b"` linked at 0x20000000 with three), and `PATH` set. -/
def host (run : Nat → Compartment → Option (Cap × Cap)) : Host where
  page_size := 4096
  open_file := fun path =>
    if path = [0x61] then some (file 0x10000 2)
    else if path = [0x62] then some (file 0x20000000 3)
    else none
  mmap_ok := fun call => decide (call.addr + call.length ≤ 2 ^ 48)
  getrandom := some (List.replicate 16 0x2a)
  environ := [cstr "HOME=/root", cstr "PATH=/usr/bin"]
  at_pagesz := 4096
  cm_ddc := rootCap
  CompartmentSwitch := 0x555555560000
  CompartmentSwitchReturn := 0x555555560100
  run_compartment := run
  proc_self_maps := some 0x555555550000

/-- The file of a position-independent executable: as `file 0x10000 2`, but of type `ET_DYN`. -/
def pieFile : ElfFile :=
  { file 0x10000 2 with read_ehdr := some { ehdr 0x10000 2 with e_type := 3 } }

/-- The file of an executable whose program header table lists the data segment before the
text segment, that is, in decreasing address order: as `file 0x10000 2` otherwise. -/
def swappedFile : ElfFile :=
  { file 0x10000 2 with
    read_phdr := fun off =>
      if 64 ≤ off ∧ (off - 64) % 56 = 0 then
        ((phdrs 0x10000).take 2).reverse.get? ((off - 64) / 56)
      else none }

/-- The executable of `swappedFile` after `Read`. -/
def elfSwapped : StaticElfExecutable :=
  match (StaticElfExecutable.create swappedFile 4096).Read with
  | some (_, s) => s
  | none => StaticElfExecutable.create swappedFile 4096

/-- The file of an executable whose data segment needs zero-fill (`p_filesz < p_memsz`) but is
not writable: as `file 0x10000 2` otherwise. -/
def readOnlyDataFile : ElfFile :=
  { file 0x10000 2 with
    read_phdr := fun off =>
      if off = 120 then some ⟨PT_LOAD, PF_R, 0x1000, 0x20000, 0x20000, 0x100, 0x1000, 0x1000⟩
      else (file 0x10000 2).read_phdr off }

/-- The file of an executable whose `__compartment_entry` symbol has size 0 and value 0x11000,
the first address after the text segment `[0x10000, 0x11000)`: as `file 0x10000 2` otherwise. -/
def edgeSymbolFile : ElfFile :=
  { file 0x10000 2 with
    map_symtab := fun _ => some ((symtab 0x10000).set 1 ⟨1, 0x12, 0, 1, 0x11000, 0⟩) }

/-- The executable of `edgeSymbolFile` after `Read`. -/
def elfEdge : StaticElfExecutable :=
  match (StaticElfExecutable.create edgeSymbolFile 4096).Read with
  | some (_, s) => s
  | none => StaticElfExecutable.create edgeSymbolFile 4096

/-- The file of an executable whose string table section is one byte shorter, so that its last
string, `__compartment_mmap_range_top`, runs to the end of the table without a terminating
NUL: as `file 0x10000 2` otherwise. -/
def truncatedStrtabFile : ElfFile :=
  { file 0x10000 2 with
    read_shdr := fun off =>
      if off = 0x3040 then some ⟨0, SHT_STRTAB, 0, 0, 0x4000, 135, 0, 0, 1, 0⟩
      else (file 0x10000 2).read_shdr off
    map_strtab := fun _ => some (strtab.take 135) }

/-- The executable of `truncatedStrtabFile` after `Read`. -/
def elfTruncated : StaticElfExecutable :=
  match (StaticElfExecutable.create truncatedStrtabFile 4096).Read with
  | some (_, s) => s
  | none => StaticElfExecutable.create truncatedStrtabFile 4096

/-- The file of an executable whose symbol table section header declares
`sh_size = 2 ^ 32 * sizeof(Elf64_Sym)` with `sh_info = 1`: as `file 0x10000 2` otherwise. -/
def hugeSymtabFile : ElfFile :=
  { file 0x10000 2 with
    read_shdr := fun off =>
      if off = 0x3080 then
        some ⟨0, SHT_SYMTAB, 0, 0, 0x5000, 2 ^ 32 * sizeof_Elf64_Sym, 1, 1, 8, 24⟩
      else (file 0x10000 2).read_shdr off }

/-- The executable of `hugeSymtabFile` after `Read`. -/
def elfHuge : StaticElfExecutable :=
  match (StaticElfExecutable.create hugeSymtabFile 4096).Read with
  | some (_, s) => s
  | none => StaticElfExecutable.create hugeSymtabFile 4096

/-- The manager of that host after `CompartmentManagerInit`. -/
def manager0 : Manager := ⟨emptyRegistry, 0x555555550000, []⟩

/-- The executable `"a"` after `Read`. -/
def elfA : StaticElfExecutable :=
  match (StaticElfExecutable.create (file 0x10000 2) 4096).Read with
  | some (_, s) => s
  | none => StaticElfExecutable.create (file 0x10000 2) 4096

/-- The executable `"b"` after `Read`. -/
def elfB : StaticElfExecutable :=
  match (StaticElfExecutable.create (file 0x20000000 3) 4096).Read with
  | some (_, s) => s
  | none => StaticElfExecutable.create (file 0x20000000 3) 4096

/-- The manager after adding `"a"` as compartment 0. -/
def manager1 (run : Nat → Compartment → Option (Cap × Cap)) : Manager :=
  match CompartmentAdd (host run) manager0 0 [0x61] [] kCompartmentMemoryRangeLength with
  | .ok m => m
  | .error _ => manager0

/-- The manager after adding `"b"` as compartment 1 as well. -/
def manager2 (run : Nat → Compartment → Option (Cap × Cap)) : Manager :=
  match CompartmentAdd (host run) (manager1 run) 1 [0x62] [] kCompartmentMemoryRangeLength with
  | .ok m => m
  | .error _ => manager1 run

end Sample

namespace Sample

/-- The manager after a second attempt to add `"a"`, as compartment 1, on top of `manager1`:
the requested range is the one compartment 0 already holds. -/
def clash (run : Nat → Compartment → Option (Cap × Cap)) : Except (List Event) Manager :=
  CompartmentAdd (host run) (manager1 run) 1 [0x61] [] kCompartmentMemoryRangeLength

end Sample

/-! ## Auxiliary predicates -/

/-- What `ReadProgramHeaders` maintains between the segment list and the two aggregate ranges:
the executable range contains every executable segment, lies within the total range, and is
either still empty or starts and ends where some executable segment does. -/
def StaticElfExecutable.RangesInv (s : StaticElfExecutable) : Prop :=
  (∀ seg ∈ s.load_segments_, seg.prot &&& PROT_EXEC ≠ 0 →
      s.executable_range_.Contains seg.mem_range = true) ∧
  s.total_range_.Contains s.executable_range_ = true ∧
  (s.executable_range_ = Range.kEmpty ∨
    ((∃ seg ∈ s.load_segments_, seg.prot &&& PROT_EXEC ≠ 0 ∧
        seg.mem_range.base = s.executable_range_.base) ∧
     (∃ seg ∈ s.load_segments_, seg.prot &&& PROT_EXEC ≠ 0 ∧
        seg.mem_range.top = s.executable_range_.top)))

/-- The registry invariant: the ranges inferred from the DDC of any two populated descriptors
(tagged entry point) do not intersect, and each of them ends at or below the ambient limit. -/
def RegistryInv (cm_lowest_address : Nat) (cm_compartments : List Compartment) : Prop :=
  (∀ i j ci cj, i ≠ j → cm_compartments.get? i = some ci → cm_compartments.get? j = some cj →
    archcap_c_tag_get ci.entry_point = true → archcap_c_tag_get cj.entry_point = true →
    ci.range.Intersects cj.range = false) ∧
  (∀ i ci, cm_compartments.get? i = some ci → archcap_c_tag_get ci.entry_point = true →
    ci.range.top ≤ cm_lowest_address)

/-- An operation that is neither a capability store nor a compartment call. -/
def Event.plain : Event → Bool
  | .store_cap _ _ => false
  | .compartment_call _ _ => false
  | _ => true

/-- The overlap check of `ReadProgramHeaders` replayed on a list of segments in the order they
were recorded, starting from the bounding range `r`: each segment does not intersect the
bounding range of `r` and the segments before it. -/
def NoOverlapFrom (r : Range) : List LoadSegmentInfo → Prop
  | [] => True
  | t :: rest => r.Intersects t.mem_range = false ∧ NoOverlapFrom (r.Enlarge t.mem_range) rest

/-- The two size checks `ReadProgramHeaders` applies to a `PT_LOAD` header. -/
def Elf64_Phdr.sizesOk (phdr : Elf64_Phdr) : Prop :=
  phdr.p_filesz ≤ phdr.p_memsz ∧ (phdr.p_filesz < phdr.p_memsz → phdr.p_flags &&& PF_W ≠ 0)

/-- The name of a symbol as the string table holds it: the bytes from offset `st_name` up to
the first NUL, or up to the end of the string table if there is none. -/
def StaticElfExecutable.symbolName (s : StaticElfExecutable) (sym : Elf64_Sym) : List Nat :=
  ((s.strtab_.drop sym.st_name).take (s.strtab_size_ - sym.st_name)).takeWhile
    (fun c => c ≠ 0)

/-! ## The call interface (compartment_interface.h, compartment_interface_impl.h) -/

/-- Embeds `AsUintcap(arg)` for a scalar that fits an X register: the capability register that
holds the scalar, that is, a null capability whose value is the scalar. -/
def AsUintcap (arg : Nat) : Cap := archcap_c_address_set nullCap arg

/-- The capability registers `c0` to `c6`, which `CompartmentCallImpl` binds its register
variables to. -/
structure CallRegisters where
  c0 : Cap
  c1 : Cap
  c2 : Cap
  c3 : Cap
  c4 : Cap
  c5 : Cap
  c6 : Cap
deriving DecidableEq

/-- Embeds `CompartmentCallImpl(id, arg0, ..., arg5, comp_switch_c_ptr)`. The branch target is given
by what it does with the registers it is entered with: the registers it leaves when it returns
to the caller, `none` if it never does. The function returns the variable bound to `c0`. -/
def CompartmentCallImpl (id : Nat) (arg0 arg1 arg2 arg3 arg4 arg5 : Cap)
    (comp_switch_c_ptr : CallRegisters → Option CallRegisters) : Option Cap :=
  let c0 := AsUintcap id
  let c1 := arg0
  let c2 := arg1
  let c3 := arg2
  let c4 := arg3
  let c5 := arg4
  let c6 := arg5
  match comp_switch_c_ptr ⟨c0, c1, c2, c3, c4, c5, c6⟩ with
  | none => none
  | some regs => some regs.c0

namespace Interface

/-- The value of the default argument `uintcap_t argN = 0` in the declaration of
`CompartmentCall`. -/
def default_arg : Cap := AsUintcap 0

/-- Embeds `CompartmentCall(id, arg0 = 0, ..., arg5 = 0)` of compartment_interface.h, as defined in
both compartment-manager/compartment_interface.cpp and compartments/compartment_interface.cpp:
each hands its arguments to `CompartmentCallImpl` with a capability to the switch entry
(`archcap_c_from_pcc(&CompartmentSwitch)` in the manager, the `__compartment_manager_call` slot
in a compartment). `given` is the list of arguments written at the call site, at most six; the
declaration's defaults stand for the omitted ones. -/
def CompartmentCall (comp_switch : CallRegisters → Option CallRegisters) (id : Nat)
    (given : List Cap) : Option Cap :=
  CompartmentCallImpl id (given.getD 0 default_arg) (given.getD 1 default_arg)
    (given.getD 2 default_arg) (given.getD 3 default_arg) (given.getD 4 default_arg)
    (given.getD 5 default_arg) comp_switch

end Interface

/-! ## The allocation wrappers of a compartment (compartments/compartment_mmap.cpp) -/

/-- Embeds `MAP_FAILED`, that is `(void*) -1`. -/
def MAP_FAILED : Nat := 2 ^ 64 - 1
def EINVAL : Nat := 22
def ENOMEM : Nat := 12

/-- The arguments of one call of `__real_mmap`. -/
structure RealMmapCall where
  addr : Nat
  length : Nat
  prot : Nat
  flags : Nat
  fd : Int
  offset : Int
deriving DecidableEq, Repr

/-- Everything outside the wrappers that their code consults inside a compartment. -/
structure CompartmentHost where
  /-- Embeds `sysconf(_SC_PAGE_SIZE)`. -/
  page_size : Nat
  /-- Embeds `archcap_c_ddc_get()`: the DDC the compartment runs with. -/
  ddc : Cap
  /-- Embeds `__real_mmap`: the value it returns (`MAP_FAILED` when it fails), given the calls
  made to it before. -/
  real_mmap : List RealMmapCall → RealMmapCall → Nat
  /-- The value a failing `__real_mmap` leaves in `errno`. -/
  real_errno : List RealMmapCall → RealMmapCall → Nat

/-- The globals of a compartment that the wrappers read and write, with the calls made to
`__real_mmap` so far. -/
structure CompartmentGlobals where
  /-- The word behind `COMPARTMENT_MMAP_RANGE_BASE_SYMBOL`. -/
  __compartment_mmap_range_base : Nat
  /-- The word behind `COMPARTMENT_MMAP_RANGE_TOP_SYMBOL`. -/
  __compartment_mmap_range_top : Nat
  errno : Nat
  real_calls : List RealMmapCall
deriving DecidableEq

/-- One call of `__real_mmap`: the returned value and the globals after it. -/
def __real_mmap (host : CompartmentHost) (g : CompartmentGlobals) (call : RealMmapCall) :
    Nat × CompartmentGlobals :=
  let res := host.real_mmap g.real_calls call
  (res, { g with
    real_calls := g.real_calls ++ [call]
    errno := if res = MAP_FAILED then host.real_errno g.real_calls call else g.errno })

/-- Embeds `__wrap_mmap(addr, length, prot, flags, fd, offset)`: the returned address and the globals
after the call. -/
def __wrap_mmap (host : CompartmentHost) (g : CompartmentGlobals) (addr length prot flags : Nat)
    (fd offset : Int) : Nat × CompartmentGlobals :=
  if flags &&& MAP_FIXED ≠ 0 then
    let ddc := host.ddc
    let ddc_base := archcap_c_base_get ddc
    let ddc_limit := archcap_c_limit_get ddc
    let map_base := addr
    if u64 (map_base + length) ≥ map_base ∧
        ddc_base < map_base ∧ u64 (map_base + length) < ddc_limit then
      __real_mmap host g ⟨addr, length, prot, flags, fd, offset⟩
    else (MAP_FAILED, { g with errno := EINVAL })
  else
    let aligned_length := align_up length host.page_size
    if aligned_length > sub64 g.__compartment_mmap_range_top g.__compartment_mmap_range_base then
      (MAP_FAILED, { g with errno := ENOMEM })
    else
      let map_addr := sub64 g.__compartment_mmap_range_top aligned_length
      match __real_mmap host g ⟨map_addr, length, prot, flags ||| MAP_FIXED, fd, offset⟩ with
      | (res, g) =>
        if res ≠ MAP_FAILED then (res, { g with __compartment_mmap_range_top := map_addr })
        else (res, g)

/-- Embeds `__wrap_munmap(addr, length)`: the returned value and the globals after the call. -/
def __wrap_munmap (host : CompartmentHost) (g : CompartmentGlobals) (addr length : Nat) :
    Int × CompartmentGlobals :=
  match __wrap_mmap host g addr length PROT_NONE (MAP_PRIVATE ||| MAP_ANONYMOUS ||| MAP_FIXED)
      (-1) 0 with
  | (ret, g) => (if ret = MAP_FAILED then -1 else 0, g)

/-- One call a compartment makes to the wrappers. -/
inductive WrapCall where
  /-- A call `mmap(addr, length, prot, flags, fd, offset)`. -/
  | mmap (addr length prot flags : Nat) (fd offset : Int)
  /-- A call `munmap(addr, length)`. -/
  | munmap (addr length : Nat)
deriving DecidableEq

/-- The address a call returned, `none` for a call of `munmap`. -/
def WrapCall.run (host : CompartmentHost) (g : CompartmentGlobals) :
    WrapCall → Option Nat × CompartmentGlobals
  | .mmap addr length prot flags fd offset =>
    match __wrap_mmap host g addr length prot flags fd offset with
    | (res, g) => (some res, g)
  | .munmap addr length =>
    match __wrap_munmap host g addr length with
    | (_, g) => (none, g)

/-- A sequence of calls to the wrappers, each starting from the globals the previous one left:
the values returned, in order, and the globals at the end. -/
def WrapCall.runAll (host : CompartmentHost) :
    CompartmentGlobals → List WrapCall → List (Option Nat) × CompartmentGlobals
  | g, [] => ([], g)
  | g, call :: rest =>
    match call.run host g with
    | (res, g1) =>
      match WrapCall.runAll host g1 rest with
      | (ress, g2) => (res :: ress, g2)

/-- The range `[result, result + length)` a floating (not `MAP_FIXED`) call of `mmap` handed out:
`none` for any other call and for a call that failed. -/
def WrapCall.handedOut (call : WrapCall) (res : Option Nat) : Option Range :=
  match call, res with
  | .mmap _ length _ flags _ _, some r =>
    if flags &&& MAP_FIXED = 0 ∧ r ≠ MAP_FAILED then some ⟨r, r + length⟩ else none
  | _, _ => none

namespace Sample

/-- A compartment host with 4 KiB pages and the DDC of the compartment `"a"` of `host`: the
256 MiB from 0x10000. Its `__real_mmap` maps what it is asked to when the length is not zero,
the address is page-aligned and the range ends within the 48-bit user address space. -/
def compartmentHost : CompartmentHost where
  page_size := 4096
  ddc := ⟨true, 0x10000, 0x10010000, 0x10000, kCompartmentDataPerms⟩
  real_mmap := fun _ call =>
    if 0 < call.length ∧ call.addr % 4096 = 0 ∧ call.addr + call.length ≤ 2 ^ 48 then call.addr
    else MAP_FAILED
  real_errno := fun _ _ => EINVAL

/-- The globals of that compartment as the manager initialised them: the arena is
`[0x21000, 0xFF0E000)`. -/
def globals : CompartmentGlobals := ⟨0x21000, 0xFF0E000, 0, []⟩

end Sample

/-- The first entry of an environment that has the form `name=value`, if there is one. -/
def envEntry (environ : List (List Nat)) (name : List Nat) : Option (List Nat) :=
  environ.find? (fun str => (name ++ [0x3d]).isPrefixOf str)

/-- The length a call of `mmap` or `munmap` asks for. -/
def WrapCall.length : WrapCall → Nat
  | .mmap _ length _ _ _ _ => length
  | .munmap _ length => length

/-- A call of `mmap` without `MAP_FIXED`. -/
def WrapCall.floating : WrapCall → Bool
  | .mmap _ _ _ flags _ _ => decide (flags &&& MAP_FIXED = 0)
  | .munmap _ _ => false

/-! ## The memory a trace of copies leaves -/

/-- The effect of one operation on the bytes that the copies wrote: byte `i` of a copy to `addr`
goes to the address `addr + i`, modulo `2 ^ 64`; the other operations are not copies. -/
def Event.store (mem : Nat → Option Nat) : Event → Nat → Option Nat
  | .memcpy addr bytes => fun a =>
    if sub64 a addr < bytes.length then bytes.get? (sub64 a addr) else mem a
  | _ => mem

/-- The byte that the copies of a trace left at an address, the last copy deciding; `none` where
no copy wrote. -/
def copied (evs : List Event) : Nat → Option Nat :=
  evs.foldl Event.store (fun _ => none)

/-- The memory holds the given bytes from the address `a` on. -/
def MemAt (mem : Nat → Option Nat) (a : Nat) (bytes : List Nat) : Prop :=
  ∀ i, i < bytes.length → mem (a + i) = bytes.get? i

/-- The 64-bit little-endian word at an address, `none` if one of its bytes was not written. -/
def readWord (mem : Nat → Option Nat) (a : Nat) : Option Nat :=
  (mem a).bind fun b0 => (mem (a + 1)).bind fun b1 => (mem (a + 2)).bind fun b2 =>
  (mem (a + 3)).bind fun b3 => (mem (a + 4)).bind fun b4 => (mem (a + 5)).bind fun b5 =>
  (mem (a + 6)).bind fun b6 => (mem (a + 7)).bind fun b7 =>
    some (b0 + 256 * (b1 + 256 * (b2 + 256 * (b3 + 256 * (b4 + 256 * (b5 + 256 *
      (b6 + 256 * b7)))))))

/-- The `n` consecutive 64-bit words from an address on. -/
def readWords (mem : Nat → Option Nat) : Nat → Nat → Option (List Nat)
  | _, 0 => some []
  | a, n + 1 =>
    match readWord mem a, readWords mem (a + 8) n with
    | some w, some ws => some (w :: ws)
    | _, _ => none

/-- The bytes of a sequence of 64-bit words in memory. -/
def words : List Nat → List Nat
  | [] => []
  | w :: rest => le64 w ++ words rest

/-- A sequence of calls of the lambda `push`, in order. -/
def StackBuilder.pushAll (lower_limit : Nat) : List (List Nat) → StackBuilder → StackBuilder
  | [], b => b
  | src :: rest, b => StackBuilder.pushAll lower_limit rest (b.push lower_limit src)

/-- The value of `sp` after each call of a sequence of calls of `push`. -/
def StackBuilder.spAfter (lower_limit : Nat) : List (List Nat) → StackBuilder → List Nat
  | [], _ => []
  | src :: rest, b =>
    (b.push lower_limit src).sp :: StackBuilder.spAfter lower_limit rest (b.push lower_limit src)

/-- The bytes a sequence of pushes leaves from the final `sp` on when each one is accepted: what
was pushed last comes first. -/
def StackBuilder.image : List (List Nat) → List Nat
  | [] => []
  | src :: rest => StackBuilder.image rest ++ src

/-- No address computed while the start-up image is built wraps around: the lower limit
`stack_top - stack_size / 2` is an address of at least 31, and every argument and environment
string, with its terminator and the 15 bytes the alignment may take, is no longer than it. -/
def StackRoom (host : Host) (stack_top stack_size : Nat) (args : List (List Nat)) : Prop :=
  stack_top < 2 ^ 64 ∧ stack_size / 2 + 31 ≤ stack_top ∧
  (∀ arg ∈ args, arg.length + 16 + stack_size / 2 ≤ stack_top) ∧
  (∀ str ∈ host.environ, str.length + 16 + stack_size / 2 ≤ stack_top)

/-- The blocks `SetupCompartmentStack` pushes after it has aligned `sp`, in the order of the
pushes: the seven auxiliary entries, the null pointer and the pointers of `envp`, the null
pointer and the pointers of `argv` (last to first), and `argc`. -/
def SetupCompartmentStack.blocks (host : Host) (exec : StaticElfExecutable)
    (args : List (List Nat)) (argv_str envp_str : List Nat) (at_random : Nat) :
    List (List Nat) :=
  [le64 AT_NULL ++ le64 0, le64 AT_RANDOM ++ le64 at_random, le64 AT_SECURE ++ le64 0,
   le64 AT_PHNUM ++ le64 (exec.GetAuxval AT_PHNUM),
   le64 AT_PHENT ++ le64 (exec.GetAuxval AT_PHENT),
   le64 AT_PHDR ++ le64 (exec.GetAuxval AT_PHDR),
   le64 AT_PAGESZ ++ le64 host.at_pagesz, le64 0] ++
  envp_str.map le64 ++ [le64 0] ++ argv_str.reverse.map le64 ++ [le64 args.length]

/-- The same blocks as 64-bit words in the order of increasing addresses: `argc`, `argv` and its
null pointer, `envp` and its null pointer, the auxiliary vector. -/
def SetupCompartmentStack.startupWords (host : Host) (exec : StaticElfExecutable)
    (args : List (List Nat)) (argv_str envp_str : List Nat) (at_random : Nat) : List Nat :=
  ([args.length] ++ argv_str ++ [0]) ++ (envp_str.reverse ++ [0]) ++
  [AT_PAGESZ, host.at_pagesz, AT_PHDR, exec.GetAuxval AT_PHDR,
   AT_PHENT, exec.GetAuxval AT_PHENT, AT_PHNUM, exec.GetAuxval AT_PHNUM,
   AT_SECURE, 0, AT_RANDOM, at_random, AT_NULL, 0]

/-- The bytes `SetupCompartmentStack` pushes for an argument or environment string: the string up
to its terminator, with the terminator. -/
def cstring (s : List Nat) : List Nat := s.takeWhile (fun c => c ≠ 0) ++ [0]

/-! ## Chains of builder operations, and more sample executables -/

namespace Capability

/-- One operation of the capability builder `class Capability`. -/
inductive Op where
  /-- A call `.SetAddress(addr)`. -/
  | SetAddress (addr : Nat)
  /-- A call `.SetBounds(base, length)`. -/
  | SetBounds (base length : Nat)
  /-- A call `.SetPerms(perms)`. -/
  | SetPerms (perms : Finset Perm)

/-- The effect of one builder operation on `cap_`. -/
def Op.apply (cap_ : Cap) : Op → Cap
  | .SetAddress addr => Capability.SetAddress cap_ addr
  | .SetBounds base length => Capability.SetBounds cap_ base length
  | .SetPerms perms => Capability.SetPerms cap_ perms

/-- The capability `Capability(root).op1(..).op2(..)...` a chain of builder operations yields. -/
def chain (root : Cap) (ops : List Op) : Cap := ops.foldl Op.apply root

end Capability

namespace Sample

/-- The file of an executable whose text segment has `p_offset = 0x10`, not congruent to its
`p_vaddr = 0x10000` modulo the page size, with `p_filesz = p_memsz`: as `file 0x10000 2`
otherwise. -/
def incongruentFile : ElfFile :=
  { file 0x10000 2 with
    read_phdr := fun off =>
      if off = 64 then
        some ⟨PT_LOAD, PF_R ||| PF_X, 0x10, 0x10000, 0x10000, 0x1000, 0x1000, 0x1000⟩
      else (file 0x10000 2).read_phdr off }

/-- The executable of `incongruentFile` after `Read`. -/
def elfIncongruent : StaticElfExecutable :=
  match (StaticElfExecutable.create incongruentFile 4096).Read with
  | some (_, s) => s
  | none => StaticElfExecutable.create incongruentFile 4096

/-- The sample host with `edgeSymbolFile` behind every path. -/
def edgeHost (run : Nat → Compartment → Option (Cap × Cap)) : Host :=
  { host run with open_file := fun _ => some edgeSymbolFile }

end Sample

/-- The first load segment whose file-backed region `[file_offset, file_offset +
file_mapped_size)` contains the whole program header table `[e_phoff, e_phoff + e_phnum *
e_phentsize)`, if there is one. -/
def StaticElfExecutable.phdrSegment (s : StaticElfExecutable) : Option LoadSegmentInfo :=
  s.load_segments_.find? (fun segment =>
    decide (segment.file_offset ≤ s.ehdr_.e_phoff ∧
      s.ehdr_.e_phoff + s.ehdr_.e_phnum * s.ehdr_.e_phentsize
        ≤ segment.file_offset + segment.file_mapped_size))

namespace Sample

/-- The file of an executable whose header declares `e_entry = 2 ^ 64 - 2`, so that
`e_entry + 4` wraps around to 2: as `file 0x10000 2` otherwise. -/
def wrapEntryFile : ElfFile :=
  { file 0x10000 2 with read_ehdr := some { ehdr 0x10000 2 with e_entry := 2 ^ 64 - 2 } }

/-- The executable of `wrapEntryFile` after `Read`. -/
def elfWrapEntry : StaticElfExecutable :=
  match (StaticElfExecutable.create wrapEntryFile 4096).Read with
  | some (_, s) => s
  | none => StaticElfExecutable.create wrapEntryFile 4096

/-- The file of an executable whose read-only text segment has `p_offset = 0x10`,
`p_vaddr = 0x10020` and `p_filesz = p_memsz = 0x1000`, so that it is recorded with
`file_mapped_size = 0x1010` and, as `[0x10000, 0x11020)`, with size 0x1020: as `file 0x10000 2`
otherwise. -/
def readOnlyTailFile : ElfFile :=
  { file 0x10000 2 with
    read_phdr := fun off =>
      if off = 64 then
        some ⟨PT_LOAD, PF_R ||| PF_X, 0x10, 0x10020, 0x10020, 0x1000, 0x1000, 0x1000⟩
      else (file 0x10000 2).read_phdr off }

end Sample

/-! # Theorems -/

/-! ## Ranges -/

theorem Range.Contains_iff (a b : Range) :
    a.Contains b = true ↔ a.base ≤ b.base ∧ b.top ≤ a.top := by
  simp [Range.Contains]

theorem Range.Intersects_comm (a b : Range) : a.Intersects b = b.Intersects a := by
  simp only [Range.Intersects]
  exact Bool.and_comm _ _

theorem Range.Contains_trans {a b c : Range} (h1 : a.Contains b = true)
    (h2 : b.Contains c = true) : a.Contains c = true := by
  rw [Range.Contains_iff] at *
  omega

theorem u64_lt (x : Nat) : u64 x < 2 ^ 64 := Nat.mod_lt _ (by norm_num)

theorem u64_of_lt {x : Nat} (h : x < 2 ^ 64) : u64 x = x := Nat.mod_eq_of_lt h

/-! ## The freedom check -/

theorem IsRangeFree_loop_iff (r : Range) (reg : List Compartment) :
    IsRangeFree.loop r reg = true ↔
      ∀ comp ∈ reg, archcap_c_tag_get comp.entry_point = true →
        comp.range.Intersects r = false := by
  induction reg with
  | nil => simp [IsRangeFree.loop]
  | cons c rest ih =>
    simp only [IsRangeFree.loop, List.mem_cons, forall_eq_or_imp]
    by_cases ht : archcap_c_tag_get c.entry_point = true
    · by_cases hi : c.range.Intersects r = true
      · simp [ht, hi]
      · simp [ht, hi, ih]
    · simp [ht, ih]

theorem IsRangeFree_true {L : Nat} {reg : List Compartment} {r : Range}
    (h : IsRangeFree L reg r = true) :
    r.top ≤ L ∧ ∀ comp ∈ reg, archcap_c_tag_get comp.entry_point = true →
      comp.range.Intersects r = false := by
  unfold IsRangeFree at h
  split at h
  · cases h
  · exact ⟨by omega, (IsRangeFree_loop_iff r reg).mp h⟩

/-- C2: for every ambient ceiling, registry and range, `IsRangeFree` returns true exactly when
the range's top does not exceed the ceiling and the range intersects the range
`[base(ddc), limit(ddc))` of no registry slot whose entry-point capability is tagged. -/
theorem IsRangeFree_iff (cm_lowest_address : Nat) (cm_compartments : List Compartment)
    (r : Range) :
    IsRangeFree cm_lowest_address cm_compartments r = true ↔
      r.top ≤ cm_lowest_address ∧
      ∀ comp ∈ cm_compartments, archcap_c_tag_get comp.entry_point = true →
        (Range.mk (archcap_c_base_get comp.ddc) (archcap_c_limit_get comp.ddc)).Intersects r
          = false := by
  unfold IsRangeFree
  by_cases h : r.top > cm_lowest_address
  · simp only [h, if_true]
    constructor
    · intro hf; cases hf
    · rintro ⟨hle, -⟩; omega
  · simp only [h, if_false]
    rw [IsRangeFree_loop_iff]
    constructor
    · intro hall; exact ⟨by omega, hall⟩
    · rintro ⟨-, hall⟩; exact hall

/-! ## The ELF reader -/

namespace StaticElfExecutable

theorem strncmp_ELFMAG (ident : List Nat) :
    strncmp ident ELFMAG 4 = 0 ↔ ident.take 4 = ELFMAG := by
  rcases ident with _ | ⟨a, _ | ⟨b, _ | ⟨c, _ | ⟨d, rest⟩⟩⟩⟩ <;>
    simp [strncmp, ELFMAG] <;> omega

theorem Read_true {s s' : StaticElfExecutable} (h : s.Read = some (true, s')) :
    ∃ ehdr s2 s3, s.initialized_ = false ∧ s.fd_.read_ehdr = some ehdr ∧
      (strncmp (ehdr.e_ident.drop EI_MAG0) ELFMAG 4 = 0 ∧
        ehdr.e_ident.getD EI_CLASS 0 = ELFCLASS64 ∧
        ehdr.e_type = ET_EXEC ∧ ehdr.e_machine = EM_AARCH64) ∧
      ReadProgramHeaders { s with ehdr_ := ehdr } = some (true, s2) ∧
      s2.executable_range_.Size ≠ 0 ∧ CheckEntryPoint s2 = true ∧
      LoadSymbolTable s2 = some (true, s3) ∧ s' = { s3 with initialized_ := true } := by
  unfold Read at h
  split at h
  · simp at h
  · rename_i hinit
    split at h
    · simp at h
    · rename_i ehdr hread
      simp only at h
      split at h
      · simp at h
      · rename_i hchk
        split at h
        · simp at h
        · simp at h
        · rename_i s2 hrph
          split at h
          · simp at h
          · rename_i hsize
            split at h
            · simp at h
            · split at h
              · simp at h
              · rename_i hentry
                split at h
                · simp at h
                · simp at h
                · rename_i s3 hsym
                  simp only [Option.some.injEq, Prod.mk.injEq, true_and] at h
                  refine ⟨ehdr, s2, s3, by simpa using hinit, hread, by simpa using hchk, hrph,
                    hsize, by simpa using hentry, hsym, h.symm⟩

end StaticElfExecutable

namespace StaticElfExecutable

theorem segmentInfo_prot_exec (page : Nat) (phdr : Elf64_Phdr) :
    (segmentInfo page phdr).prot &&& PROT_EXEC ≠ 0 ↔ phdr.p_flags &&& PF_X ≠ 0 := by
  simp only [segmentInfo, PROT_READ, PROT_WRITE, PROT_EXEC]
  by_cases hr : phdr.p_flags &&& PF_R ≠ 0 <;> by_cases hw : phdr.p_flags &&& PF_W ≠ 0 <;>
    by_cases hx : phdr.p_flags &&& PF_X ≠ 0 <;> simp [hr, hw, hx] <;> decide

theorem RangesInv_init (s : StaticElfExecutable) (h : s.load_segments_ = []) :
    RangesInv { s with total_range_ := Range.kEmpty, executable_range_ := Range.kEmpty } := by
  refine ⟨?_, ?_, Or.inl rfl⟩
  · intro seg hseg; simp [h] at hseg
  · simp [Range.Contains]

theorem RangesInv_skip (s : StaticElfExecutable) (info : LoadSegmentInfo)
    (hx : ¬ info.prot &&& PROT_EXEC ≠ 0) (hinv : RangesInv s) :
    RangesInv { s with total_range_ := s.total_range_.Enlarge info.mem_range
                       load_segments_ := s.load_segments_ ++ [info] } := by
  obtain ⟨h1, h2, h3⟩ := hinv
  refine ⟨?_, ?_, ?_⟩
  · intro seg hseg hex
    simp only [List.mem_append, List.mem_singleton] at hseg
    rcases hseg with hseg | rfl
    · exact h1 seg hseg hex
    · exact absurd hex hx
  · rw [Range.Contains_iff] at *
    simp only [Range.Enlarge]
    omega
  · rcases h3 with h3 | ⟨⟨a, ha, hax, hab⟩, ⟨b, hb, hbx, hbt⟩⟩
    · exact Or.inl h3
    · exact Or.inr ⟨⟨a, List.mem_append_left _ ha, hax, hab⟩,
        ⟨b, List.mem_append_left _ hb, hbx, hbt⟩⟩

theorem RangesInv_exec (s : StaticElfExecutable) (info : LoadSegmentInfo)
    (hx : info.prot &&& PROT_EXEC ≠ 0) (hb : info.mem_range.base < 2 ^ 64)
    (hinv : RangesInv s) :
    RangesInv { s with total_range_ := s.total_range_.Enlarge info.mem_range
                       executable_range_ := s.executable_range_.Enlarge info.mem_range
                       load_segments_ := s.load_segments_ ++ [info] } := by
  obtain ⟨h1, h2, h3⟩ := hinv
  refine ⟨?_, ?_, Or.inr ⟨?_, ?_⟩⟩
  · intro seg hseg hex
    simp only [List.mem_append, List.mem_singleton] at hseg
    rcases hseg with hseg | rfl
    · have := h1 seg hseg hex
      rw [Range.Contains_iff] at *
      simp only [Range.Enlarge]
      omega
    · rw [Range.Contains_iff]
      simp only [Range.Enlarge]
      omega
  · rw [Range.Contains_iff] at *
    simp only [Range.Enlarge]
    omega
  · simp only [Range.Enlarge]
    rcases Nat.le_total s.executable_range_.base info.mem_range.base with hle | hle
    · rcases h3 with h3 | ⟨⟨a, ha, hax, hab⟩, -⟩
      · refine ⟨info, by simp, hx, ?_⟩
        rw [h3]
        simp only [Range.kEmpty]
        omega
      · exact ⟨a, List.mem_append_left _ ha, hax, by rw [hab]; omega⟩
    · exact ⟨info, by simp, hx, by omega⟩
  · simp only [Range.Enlarge]
    rcases Nat.le_total s.executable_range_.top info.mem_range.top with hle | hle
    · exact ⟨info, by simp, hx, by omega⟩
    · rcases h3 with h3 | ⟨-, ⟨b, hb', hbx, hbt⟩⟩
      · refine ⟨info, by simp, hx, ?_⟩
        rw [h3] at hle ⊢
        simp only [Range.kEmpty] at hle ⊢
        omega
      · exact ⟨b, List.mem_append_left _ hb', hbx, by rw [hbt]; omega⟩

theorem ReadProgramHeaders_loop_inv (is : List Nat) :
    ∀ (s s' : StaticElfExecutable) (b : Bool), ReadProgramHeaders.loop is s = (b, s') →
      RangesInv s → RangesInv s' ∧ s'.ehdr_ = s.ehdr_ := by
  induction is with
  | nil =>
    intro s s' b h hinv
    simp only [ReadProgramHeaders.loop, Prod.mk.injEq] at h
    obtain ⟨-, rfl⟩ := h
    exact ⟨hinv, rfl⟩
  | cons i rest ih =>
    intro s s' b h hinv
    simp only [ReadProgramHeaders.loop] at h
    split at h
    · simp only [Prod.mk.injEq] at h; obtain ⟨-, rfl⟩ := h; exact ⟨hinv, rfl⟩
    · rename_i phdr hread
      split at h
      · split at h
        · simp only [Prod.mk.injEq] at h; obtain ⟨-, rfl⟩ := h; exact ⟨hinv, rfl⟩
        · exact ih s s' b h hinv
      · split at h
        · simp only [Prod.mk.injEq] at h; obtain ⟨-, rfl⟩ := h; exact ⟨hinv, rfl⟩
        · split at h
          · simp only [Prod.mk.injEq] at h; obtain ⟨-, rfl⟩ := h; exact ⟨hinv, rfl⟩
          · try simp only at h
            split at h
            · simp only [Prod.mk.injEq] at h; obtain ⟨-, rfl⟩ := h; exact ⟨hinv, rfl⟩
            · by_cases hx : phdr.p_flags &&& PF_X ≠ 0
              · simp only [if_pos hx] at h
                have hx' := (segmentInfo_prot_exec s.page_size_ phdr).mpr hx
                have := ih _ s' b h
                  (RangesInv_exec s (segmentInfo s.page_size_ phdr) hx' (u64_lt _) hinv)
                exact ⟨this.1, this.2⟩
              · simp only [if_neg hx] at h
                have hx' : ¬ (segmentInfo s.page_size_ phdr).prot &&& PROT_EXEC ≠ 0 :=
                  fun hc => hx ((segmentInfo_prot_exec s.page_size_ phdr).mp hc)
                have := ih _ s' b h
                  (RangesInv_skip s (segmentInfo s.page_size_ phdr) hx' hinv)
                exact ⟨this.1, this.2⟩

theorem ReadProgramHeaders_inv {s s' : StaticElfExecutable} {b : Bool}
    (h : ReadProgramHeaders s = some (b, s')) (hnil : s.load_segments_ = []) :
    RangesInv s' ∧ s'.ehdr_ = s.ehdr_ := by
  unfold ReadProgramHeaders at h
  simp only at h
  split at h
  · simp at h
  · simp only [Option.some.injEq] at h
    have := ReadProgramHeaders_loop_inv _ _ _ _ h (RangesInv_init s hnil)
    exact ⟨this.1, this.2⟩

theorem LoadSymbolTable_frame {s s' : StaticElfExecutable} {b : Bool}
    (h : LoadSymbolTable s = some (b, s')) :
    s'.load_segments_ = s.load_segments_ ∧ s'.total_range_ = s.total_range_ ∧
    s'.executable_range_ = s.executable_range_ ∧ s'.ehdr_ = s.ehdr_ ∧
    s'.initialized_ = s.initialized_ ∧ s'.page_size_ = s.page_size_ := by
  unfold LoadSymbolTable at h
  repeat' split at h
  all_goals
    first
    | (simp only [Option.some.injEq, Prod.mk.injEq] at h
       obtain ⟨-, rfl⟩ := h
       exact ⟨rfl, rfl, rfl, rfl, rfl, rfl⟩)
    | simp at h

theorem CheckEntryPoint_loop_true (r : Range) (segs : List LoadSegmentInfo)
    (h : CheckEntryPoint.loop r segs = true) :
    ∃ seg ∈ segs, seg.prot &&& PROT_EXEC ≠ 0 ∧ seg.mem_range.Contains r = true := by
  induction segs with
  | nil => simp [CheckEntryPoint.loop] at h
  | cons seg rest ih =>
    simp only [CheckEntryPoint.loop] at h
    split at h
    · obtain ⟨t, ht, hx, hc⟩ := ih h
      exact ⟨t, List.mem_cons_of_mem _ ht, hx, hc⟩
    · rename_i hc
      split at h
      · rename_i hx
        exact ⟨seg, List.mem_cons_self _ _, hx, by simpa using hc⟩
      · simp at h

/-- What a successful `Read` of a freshly constructed object establishes. -/
theorem Read_true_inv {s s' : StaticElfExecutable} (h : s.Read = some (true, s'))
    (hnil : s.load_segments_ = []) :
    RangesInv s' ∧ s'.executable_range_.Size ≠ 0 ∧ CheckEntryPoint s' = true ∧
    s'.initialized_ = true := by
  obtain ⟨ehdr, s2, s3, -, -, -, hrph, hsize, hentry, hsym, rfl⟩ := Read_true h
  obtain ⟨hinv, -⟩ := ReadProgramHeaders_inv hrph hnil
  obtain ⟨hl, ht, he, hh, -, -⟩ := LoadSymbolTable_frame hsym
  refine ⟨?_, ?_, ?_, rfl⟩
  · simpa only [RangesInv, hl, ht, he] using hinv
  · simpa only [he] using hsize
  · simpa only [CheckEntryPoint, entry_point_range, hl, hh] using hentry

end StaticElfExecutable

namespace StaticElfExecutable

/-- C8: for every file whose header can be read, `Read` returns false and leaves the
`initialized_` flag as it was (an uninitialised object stays uninitialised) whenever the first
four bytes are not 0x7F 'E' 'L' 'F', or `EI_CLASS` is not `ELFCLASS64`, or `e_type` is not
`ET_EXEC`, or `e_machine` is not `EM_AARCH64`. -/
theorem Read_rejects_bad_header (s : StaticElfExecutable) (ehdr : Elf64_Ehdr)
    (hread : s.fd_.read_ehdr = some ehdr)
    (hbad : (ehdr.e_ident.drop EI_MAG0).take 4 ≠ [0x7f, 0x45, 0x4c, 0x46] ∨
      ehdr.e_ident.getD EI_CLASS 0 ≠ ELFCLASS64 ∨ ehdr.e_type ≠ ET_EXEC ∨
      ehdr.e_machine ≠ EM_AARCH64) :
    ∃ s', s.Read = some (false, s') ∧ s'.initialized_ = s.initialized_ := by
  unfold Read
  by_cases hinit : s.initialized_ = true
  · exact ⟨s, by simp [hinit], rfl⟩
  · have hchk : ¬ (strncmp (ehdr.e_ident.drop EI_MAG0) ELFMAG 4 = 0 ∧
        ehdr.e_ident.getD EI_CLASS 0 = ELFCLASS64 ∧ ehdr.e_type = ET_EXEC ∧
        ehdr.e_machine = EM_AARCH64) := by
      rintro ⟨h1, h2, h3, h4⟩
      rw [strncmp_ELFMAG] at h1
      rcases hbad with hb | hb | hb | hb
      · exact hb h1
      · exact hb h2
      · exact hb h3
      · exact hb h4
    refine ⟨{ s with ehdr_ := ehdr }, ?_, rfl⟩
    simp only [hinit, hread]
    simp only [if_pos hchk]
    simp

/-- Witness for C8: a position-independent executable (`e_type = ET_DYN`) is refused. -/
theorem Read_rejects_bad_header_witness :
    ∃ s', (create Sample.pieFile 4096).Read = some (false, s') ∧
      s'.initialized_ = (create Sample.pieFile 4096).initialized_ :=
  Read_rejects_bad_header (create Sample.pieFile 4096)
    { Sample.ehdr 0x10000 2 with e_type := 3 } rfl (Or.inr (Or.inr (Or.inl (by decide))))

/-- What `Read` establishes about the ranges: whenever it succeeds on a freshly constructed
object, some load segment has execute permission and contains, in the sense of
`Range::Contains`, the range `{e_entry, e_entry + 4}` as `CheckEntryPoint` computes it (with
the sum taken modulo `2 ^ 64`), `total_range` contains `executable_range`, and
`executable_range` contains that range. -/
theorem Read_ranges_nested (fd : ElfFile) (page_size : Nat) (elf : StaticElfExecutable)
    (h : (create fd page_size).Read = some (true, elf)) :
    (∃ seg ∈ elf.load_segments_, seg.prot &&& PROT_EXEC ≠ 0 ∧
      seg.mem_range.Contains ⟨elf.ehdr_.e_entry, u64 (elf.ehdr_.e_entry + 4)⟩ = true) ∧
    elf.total_range.Contains elf.executable_range = true ∧
    elf.executable_range.Contains ⟨elf.ehdr_.e_entry, u64 (elf.ehdr_.e_entry + 4)⟩ = true := by
  obtain ⟨⟨h1, h2, -⟩, -, hentry, -⟩ := Read_true_inv h rfl
  obtain ⟨seg, hseg, hx, hc⟩ := CheckEntryPoint_loop_true _ _ hentry
  exact ⟨⟨seg, hseg, hx, hc⟩, h2, Range.Contains_trans (h1 seg hseg hx) hc⟩

/-- The ranges of the sample executable `"a"`, an instance of `Read_ranges_nested`. -/
theorem Read_ranges_nested_witness :
    (∃ seg ∈ Sample.elfA.load_segments_, seg.prot &&& PROT_EXEC ≠ 0 ∧
      seg.mem_range.Contains
        ⟨Sample.elfA.ehdr_.e_entry, u64 (Sample.elfA.ehdr_.e_entry + 4)⟩ = true) ∧
    Sample.elfA.total_range.Contains Sample.elfA.executable_range = true ∧
    Sample.elfA.executable_range.Contains
      ⟨Sample.elfA.ehdr_.e_entry, u64 (Sample.elfA.ehdr_.e_entry + 4)⟩ = true :=
  Read_ranges_nested (Sample.file 0x10000 2) 4096 Sample.elfA (by rfl)

/-- C10, as stated, fails: the sample executable `"b"` has a writable, non-executable data
segment between two text segments; `Read` succeeds, and `executable_range` contains the address
0x20010000, which lies in the data segment and in no segment with execute permission. -/
theorem executable_range_covers_data_segment :
    (create (Sample.file 0x20000000 3) 4096).Read = some (true, Sample.elfB) ∧
    Sample.elfB.executable_range.ContainsAddr 0x20010000 = true ∧
    (∃ seg ∈ Sample.elfB.load_segments_,
      seg.mem_range.ContainsAddr 0x20010000 = true ∧ seg.prot &&& PROT_EXEC = 0) ∧
    ¬ ∃ seg ∈ Sample.elfB.load_segments_,
      seg.prot &&& PROT_EXEC ≠ 0 ∧ seg.mem_range.ContainsAddr 0x20010000 = true := by
  refine ⟨by rfl, by decide, by decide, by decide⟩

/-- C10, amended: whenever `Read` succeeds on a freshly constructed object, `executable_range`
is the bounding range of the load segments with execute permission: it contains every such
segment, its base is the base of one of them and its top is the top of one of them. -/
theorem Read_executable_range_bounds (fd : ElfFile) (page_size : Nat)
    (elf : StaticElfExecutable) (h : (create fd page_size).Read = some (true, elf)) :
    (∀ seg ∈ elf.load_segments_, seg.prot &&& PROT_EXEC ≠ 0 →
      elf.executable_range.Contains seg.mem_range = true) ∧
    (∃ seg ∈ elf.load_segments_, seg.prot &&& PROT_EXEC ≠ 0 ∧
      seg.mem_range.base = elf.executable_range.base) ∧
    (∃ seg ∈ elf.load_segments_, seg.prot &&& PROT_EXEC ≠ 0 ∧
      seg.mem_range.top = elf.executable_range.top) := by
  obtain ⟨⟨h1, -, h3⟩, hsize, -, -⟩ := Read_true_inv h rfl
  rcases h3 with h3 | ⟨hb, ht⟩
  · rw [h3] at hsize
    exact absurd (by decide) hsize
  · exact ⟨h1, hb, ht⟩

/-- Witness for the amended C10: the sample executable `"b"`. -/
theorem Read_executable_range_bounds_witness :
    (∀ seg ∈ Sample.elfB.load_segments_, seg.prot &&& PROT_EXEC ≠ 0 →
      Sample.elfB.executable_range.Contains seg.mem_range = true) ∧
    (∃ seg ∈ Sample.elfB.load_segments_, seg.prot &&& PROT_EXEC ≠ 0 ∧
      seg.mem_range.base = Sample.elfB.executable_range.base) ∧
    (∃ seg ∈ Sample.elfB.load_segments_, seg.prot &&& PROT_EXEC ≠ 0 ∧
      seg.mem_range.top = Sample.elfB.executable_range.top) :=
  Read_executable_range_bounds (Sample.file 0x20000000 3) 4096 Sample.elfB (by rfl)

end StaticElfExecutable

/-! ## `CompartmentAdd`: what a successful call did -/

/-- What a returning run of steps 3 to 5 of `CompartmentAdd` did: the compartment returned from
its initialisation call, its stack pointer passed the check, and the globals are as stated. -/
theorem CompartmentAdd_finish_ok {host : Host} {m m' : Manager} {id : Nat}
    {elf : StaticElfExecutable}
    {memory_range_length entry_point_sym cm_call_cap_sym cm_return_cap_sym stack_top : Nat}
    {trace : List Event}
    (h : CompartmentAdd.finish host m id elf memory_range_length entry_point_sym cm_call_cap_sym
      cm_return_cap_sym stack_top trace = .ok m') :
    ∃ csp ctpidr, id < m.cm_compartments.length ∧
      host.run_compartment id
        { csp := archcap_c_address_set nullCap stack_top
          ddc := CompartmentAdd.ddc host elf memory_range_length
          ctpidr := nullCap
          entry_point := CompartmentAdd.init_entry_point host elf entry_point_sym
          update_on_return := true } = some (csp, ctpidr) ∧
      CheckSpWithinStackBounds (archcap_c_address_get csp) stack_top kCompartmentStackSize
        = true ∧
      m' =
        { cm_compartments := m.cm_compartments.set id
            { csp := csp
              ddc := CompartmentAdd.ddc host elf memory_range_length
              ctpidr := ctpidr
              entry_point := CompartmentAdd.c_entry_point host elf entry_point_sym
              update_on_return := false }
          cm_lowest_address := m.cm_lowest_address
          trace := trace ++
            [Event.store_cap cm_return_cap_sym
              (CompartmentAdd.manager_entry host host.CompartmentSwitchReturn),
             Event.compartment_call id (m.cm_compartments.set id
              { csp := archcap_c_address_set nullCap stack_top
                ddc := CompartmentAdd.ddc host elf memory_range_length
                ctpidr := nullCap
                entry_point := CompartmentAdd.init_entry_point host elf entry_point_sym
                update_on_return := true }),
             Event.store_cap cm_call_cap_sym
              (CompartmentAdd.manager_entry host host.CompartmentSwitch)] } := by
  unfold CompartmentAdd.finish at h
  simp only at h
  by_cases hid : id < m.cm_compartments.length
  · simp only [CompartmentCall, List.get?_eq_getElem?, List.getElem?_set_self hid] at h
    split at h
    · simp at h
    · rename_i registry hcall
      split at hcall
      · simp at hcall
      · rename_i csp ctpidr hrun
        simp only [if_true, Option.some.injEq] at hcall
        subst hcall
        simp only [List.set_set, List.getElem?_set_self hid] at h
        split at h
        · simp at h
        · rename_i hsp
          simp only [Except.ok.injEq] at h
          refine ⟨csp, ctpidr, hid, hrun, by simpa using hsp, ?_⟩
          rw [← h]
          simp [List.append_assoc]
  · have hnone : (m.cm_compartments.set id
        { csp := archcap_c_address_set nullCap stack_top
          ddc := CompartmentAdd.ddc host elf memory_range_length
          ctpidr := nullCap
          entry_point := CompartmentAdd.init_entry_point host elf entry_point_sym
          update_on_return := true })[id]? = none := by
      apply List.getElem?_eq_none
      simp only [List.length_set]
      omega
    simp only [CompartmentCall, List.get?_eq_getElem?, hnone] at h
    simp at h

theorem CompartmentAdd_setup_ok {host : Host} {m m' : Manager} {id : Nat} {path : List Nat}
    {args : List (List Nat)} {memory_range_length : Nat} {elf : StaticElfExecutable}
    {entry_point_sym cm_call_cap_sym cm_return_cap_sym mmap_range_base_sym
      mmap_range_top_sym : Nat}
    (h : CompartmentAdd.setup host m id path args memory_range_length elf entry_point_sym
      cm_call_cap_sym cm_return_cap_sym mmap_range_base_sym mmap_range_top_sym = .ok m') :
    ∃ stack_top evs,
      (SetupMappings host m elf memory_range_length kCompartmentStackSize).ok = true ∧
      SetupCompartmentStack host
        (SetupMappings host m elf memory_range_length kCompartmentStackSize).stack_top
        kCompartmentStackSize (path :: args) elf = .ok (true, stack_top, evs) ∧
      CompartmentAdd.finish host m id elf memory_range_length entry_point_sym cm_call_cap_sym
        cm_return_cap_sym stack_top
        (m.trace ++ (SetupMappings host m elf memory_range_length kCompartmentStackSize).events
          ++ evs ++
          [Event.store_word mmap_range_base_sym
            (SetupMappings host m elf memory_range_length kCompartmentStackSize).mmap_range.base,
           Event.store_word mmap_range_top_sym
            (SetupMappings host m elf memory_range_length kCompartmentStackSize).mmap_range.top])
        = .ok m' := by
  unfold CompartmentAdd.setup at h
  simp only at h
  split at h
  · simp at h
  · rename_i hok
    split at h
    · simp at h
    · simp at h
    · rename_i stack_top evs hstack
      exact ⟨stack_top, evs, by simpa using hok, hstack, h⟩

theorem CompartmentAdd_ok {host : Host} {m m' : Manager} {id : Nat} {path : List Nat}
    {args : List (List Nat)} {memory_range_length : Nat}
    (h : CompartmentAdd host m id path args memory_range_length = .ok m') :
    ∃ fd elf entry_point_sym cm_call_cap_sym cm_return_cap_sym mmap_range_base_sym
        mmap_range_top_sym,
      id < MAX_COMPARTMENTS ∧ host.open_file path = some fd ∧
      (StaticElfExecutable.create fd host.page_size).Read = some (true, elf) ∧
      GetElfFunctionSymbol elf COMPARTMENT_ENTRY_SYMBOL = some entry_point_sym ∧
      GetElfDataSymbol elf sizeof_capability COMPARTMENT_MANAGER_CALL_CAPABILITY_SYMBOL
        = some cm_call_cap_sym ∧
      GetElfDataSymbol elf sizeof_capability COMPARTMENT_MANAGER_RETURN_CAPABILITY_SYMBOL
        = some cm_return_cap_sym ∧
      CompartmentAdd.setup host m id path args memory_range_length elf entry_point_sym
        cm_call_cap_sym cm_return_cap_sym mmap_range_base_sym mmap_range_top_sym = .ok m' := by
  unfold CompartmentAdd at h
  split at h
  · simp at h
  · rename_i hid
    split at h
    · simp at h
    · rename_i fd hopen
      split at h
      · simp at h
      · simp at h
      · rename_i elf hread
        split at h
        · simp at h
        · rename_i entry_point_sym hentry
          split at h
          · simp at h
          · rename_i cm_call_cap_sym hcall
            split at h
            · simp at h
            · rename_i cm_return_cap_sym hret
              split at h
              · simp at h
              · rename_i base_sym hbase
                split at h
                · simp at h
                · rename_i top_sym htop
                  exact ⟨fd, elf, entry_point_sym, cm_call_cap_sym, cm_return_cap_sym, base_sym,
                    top_sym, by simpa using hid, hopen, hread, hentry, hcall, hret, h⟩

/-! ## The registry invariant -/

theorem SetupMappings_ok {host : Host} {m : Manager} {elf : StaticElfExecutable}
    {memory_range_length stack_size : Nat}
    (h : (SetupMappings host m elf memory_range_length stack_size).ok = true) :
    IsRangeFree m.cm_lowest_address m.cm_compartments
      ⟨elf.total_range.base, u64 (elf.total_range.base + memory_range_length)⟩ = true ∧
    u64 (elf.total_range.Size + kCompartmentStackSize + 2 * host.page_size)
      ≤ memory_range_length ∧
    host.mmap_ok ⟨elf.total_range.base, memory_range_length, PROT_NONE,
      MAP_PRIVATE ||| MAP_ANONYMOUS ||| MAP_FIXED, false, 0⟩ = true ∧
    (SetupMappings host m elf memory_range_length stack_size).stack_top =
      u64 (sub64 (sub64 (u64 (elf.total_range.base + memory_range_length)) stack_size)
        host.page_size + stack_size) := by
  unfold SetupMappings at h ⊢
  simp only at h ⊢
  split at h
  · simp at h
  · rename_i hfree
    split at h
    · simp at h
    · rename_i hsize
      split at h
      · simp at h
      · rename_i hres
        split at h
        · simp at h
        · simp at h
        · rename_i evs hmap
          split at h
          · simp at h
          · rename_i hstack
            simp only [hfree, hsize, hres, hmap, hstack]
            refine ⟨by simpa using hfree, by omega, by simpa using hres, by simp⟩

theorem CompartmentAdd_ddc_range (host : Host) (elf : StaticElfExecutable)
    (memory_range_length : Nat)
    (h : elf.total_range.base + memory_range_length < 2 ^ 64) (d : Compartment)
    (hd : d.ddc = CompartmentAdd.ddc host elf memory_range_length) :
    d.range = ⟨elf.total_range.base, u64 (elf.total_range.base + memory_range_length)⟩ := by
  simp only [Compartment.range, hd, CompartmentAdd.ddc, Capability.SetPerms,
    Capability.SetBounds, archcap_c_perms_set, archcap_c_bounds_set, archcap_c_address_set,
    archcap_c_base_get, archcap_c_limit_get, u64_of_lt h, Range.mk.injEq, true_and]
  omega

/-- One successful `CompartmentAdd` replaces slot `id` by a descriptor whose DDC range is
exactly the range that `IsRangeFree` accepted, and changes nothing else in the registry. -/
theorem CompartmentAdd_step {host : Host} {m m' : Manager} {id : Nat} {path : List Nat}
    {args : List (List Nat)} {memory_range_length : Nat}
    (hmmap : ∀ call, host.mmap_ok call = true → call.addr + call.length < 2 ^ 64)
    (h : CompartmentAdd host m id path args memory_range_length = .ok m') :
    ∃ d, m'.cm_compartments = m.cm_compartments.set id d ∧ id < m.cm_compartments.length ∧
      m'.cm_lowest_address = m.cm_lowest_address ∧
      IsRangeFree m.cm_lowest_address m.cm_compartments d.range = true := by
  obtain ⟨fd, elf, e, c, r, b, t, -, -, -, -, -, -, hsetup⟩ := CompartmentAdd_ok h
  obtain ⟨stack_top, evs, hok, -, hfin⟩ := CompartmentAdd_setup_ok hsetup
  obtain ⟨csp, ctpidr, hid, -, -, rfl⟩ := CompartmentAdd_finish_ok hfin
  obtain ⟨hfree, -, hres, -⟩ := SetupMappings_ok hok
  have hlt := hmmap _ hres
  refine ⟨_, rfl, hid, rfl, ?_⟩
  rw [CompartmentAdd_ddc_range host elf memory_range_length hlt _ rfl]
  exact hfree

theorem RegistryInv_empty (L : Nat) : RegistryInv L emptyRegistry := by
  have hz : ∀ i c, emptyRegistry.get? i = some c → archcap_c_tag_get c.entry_point = false := by
    intro i c hc
    have hmem := List.get?_mem hc
    simp only [emptyRegistry, List.mem_replicate] at hmem
    rw [hmem.2]
    rfl
  constructor
  · intro i j ci cj _ hi _ hti _
    rw [hz i ci hi] at hti
    cases hti
  · intro i ci hi hti
    rw [hz i ci hi] at hti
    cases hti

theorem RegistryInv_set {L : Nat} {reg : List Compartment} {id : Nat} {d : Compartment}
    (hinv : RegistryInv L reg) (hid : id < reg.length)
    (hfree : IsRangeFree L reg d.range = true) : RegistryInv L (reg.set id d) := by
  obtain ⟨htop, hdis'⟩ := IsRangeFree_true hfree
  obtain ⟨hpair, hle⟩ := hinv
  simp only [List.get?_eq_getElem?] at hpair hle
  constructor
  · intro i j ci cj hij hi hj hti htj
    simp only [List.get?_eq_getElem?] at hi hj
    by_cases h1 : id = i
    · subst h1
      rw [List.getElem?_set_self hid] at hi
      rw [List.getElem?_set_ne hij] at hj
      cases hi
      rw [Range.Intersects_comm]
      exact hdis' cj (List.getElem?_mem hj) htj
    · rw [List.getElem?_set_ne h1] at hi
      by_cases h2 : id = j
      · subst h2
        rw [List.getElem?_set_self hid] at hj
        cases hj
        exact hdis' ci (List.getElem?_mem hi) hti
      · rw [List.getElem?_set_ne h2] at hj
        exact hpair i j ci cj hij hi hj hti htj
  · intro i ci hi hti
    simp only [List.get?_eq_getElem?] at hi
    by_cases h1 : id = i
    · subst h1
      rw [List.getElem?_set_self hid] at hi
      cases hi
      exact htop
    · rw [List.getElem?_set_ne h1] at hi
      exact hle i ci hi hti

theorem CompartmentAddAll_inv (host : Host)
    (hmmap : ∀ call, host.mmap_ok call = true → call.addr + call.length < 2 ^ 64)
    (calls : List AddCall) :
    ∀ (m m' : Manager), CompartmentAddAll host m calls = .ok m' →
      RegistryInv m.cm_lowest_address m.cm_compartments →
      RegistryInv m'.cm_lowest_address m'.cm_compartments ∧
        m'.cm_lowest_address = m.cm_lowest_address := by
  induction calls with
  | nil =>
    intro m m' h hinv
    simp only [CompartmentAddAll, Except.ok.injEq] at h
    subst h
    exact ⟨hinv, rfl⟩
  | cons call rest ih =>
    intro m m' h hinv
    simp only [CompartmentAddAll] at h
    split at h
    · simp at h
    · rename_i m1 hadd
      obtain ⟨d, hreg, hid, hL, hfree⟩ := CompartmentAdd_step hmmap hadd
      have hinv1 : RegistryInv m1.cm_lowest_address m1.cm_compartments := by
        rw [hreg, hL]
        exact RegistryInv_set hinv hid hfree
      obtain ⟨h1, h2⟩ := ih m1 m' h hinv1
      exact ⟨h1, by rw [h2, hL]⟩

/-- C1: starting from the empty registry, after any sequence of `CompartmentAdd` calls that all
returned (on a host whose `mmap` never grants a range reaching the end of the address space),
the ranges `[base(ddc), limit(ddc))` of any two populated descriptors do not intersect, and
every populated descriptor's range has its top at or below `cm_lowest_address`. Distinctness of
the identifiers is not needed; `CompartmentAdd_step` is the statement that each call installs
exactly the range `IsRangeFree` accepted. -/
theorem CompartmentAdd_ranges_disjoint (host : Host) (cm_lowest_address : Nat)
    (calls : List AddCall) (m' : Manager)
    (hmmap : ∀ call, host.mmap_ok call = true → call.addr + call.length < 2 ^ 64)
    (h : CompartmentAddAll host ⟨emptyRegistry, cm_lowest_address, []⟩ calls = .ok m') :
    (∀ i j ci cj, i ≠ j → m'.cm_compartments.get? i = some ci →
      m'.cm_compartments.get? j = some cj →
      archcap_c_tag_get ci.entry_point = true → archcap_c_tag_get cj.entry_point = true →
      (Range.mk (archcap_c_base_get ci.ddc) (archcap_c_limit_get ci.ddc)).Intersects
        ⟨archcap_c_base_get cj.ddc, archcap_c_limit_get cj.ddc⟩ = false) ∧
    (∀ i ci, m'.cm_compartments.get? i = some ci →
      archcap_c_tag_get ci.entry_point = true →
      archcap_c_limit_get ci.ddc ≤ m'.cm_lowest_address) ∧
    m'.cm_lowest_address = cm_lowest_address := by
  obtain ⟨⟨h1, h2⟩, h3⟩ :=
    CompartmentAddAll_inv host hmmap calls _ m' h (RegistryInv_empty cm_lowest_address)
  exact ⟨h1, h2, h3⟩

theorem Sample.host_mmap_bound (run : Nat → Compartment → Option (Cap × Cap)) :
    ∀ call, (Sample.host run).mmap_ok call = true → call.addr + call.length < 2 ^ 64 := by
  intro call h
  simp only [Sample.host, decide_eq_true_eq] at h
  have : (2 : Nat) ^ 48 < 2 ^ 64 := by norm_num
  omega

/-- Witness for C1: the two sample executables added as compartments 0 and 1; both slots end up
populated. -/
theorem CompartmentAdd_ranges_disjoint_witness :
    ((∀ i j ci cj, i ≠ j →
      (Sample.manager2 (Sample.run_below 512)).cm_compartments.get? i = some ci →
      (Sample.manager2 (Sample.run_below 512)).cm_compartments.get? j = some cj →
      archcap_c_tag_get ci.entry_point = true → archcap_c_tag_get cj.entry_point = true →
      (Range.mk (archcap_c_base_get ci.ddc) (archcap_c_limit_get ci.ddc)).Intersects
        ⟨archcap_c_base_get cj.ddc, archcap_c_limit_get cj.ddc⟩ = false) ∧
    (∀ i ci, (Sample.manager2 (Sample.run_below 512)).cm_compartments.get? i = some ci →
      archcap_c_tag_get ci.entry_point = true →
      archcap_c_limit_get ci.ddc ≤ (Sample.manager2 (Sample.run_below 512)).cm_lowest_address) ∧
    (Sample.manager2 (Sample.run_below 512)).cm_lowest_address = 0x555555550000) ∧
    ∃ c0 c1, (Sample.manager2 (Sample.run_below 512)).cm_compartments.get? 0 = some c0 ∧
      (Sample.manager2 (Sample.run_below 512)).cm_compartments.get? 1 = some c1 ∧
      archcap_c_tag_get c0.entry_point = true ∧ archcap_c_tag_get c1.entry_point = true :=
  ⟨CompartmentAdd_ranges_disjoint (Sample.host (Sample.run_below 512)) 0x555555550000
    [⟨0, [0x61], [], kCompartmentMemoryRangeLength⟩,
     ⟨1, [0x62], [], kCompartmentMemoryRangeLength⟩]
    (Sample.manager2 (Sample.run_below 512))
    (Sample.host_mmap_bound _) (by rfl),
   _, _, by rfl, by rfl, by rfl, by rfl⟩

/-- The descriptor that a successful `CompartmentAdd` leaves in slot `id`. -/
theorem CompartmentAdd_descriptor {host : Host} {m m' : Manager} {id : Nat} {path : List Nat}
    {args : List (List Nat)} {memory_range_length : Nat}
    (h : CompartmentAdd host m id path args memory_range_length = .ok m') :
    ∃ fd elf entry_point_sym csp ctpidr,
      host.open_file path = some fd ∧
      (StaticElfExecutable.create fd host.page_size).Read = some (true, elf) ∧
      GetElfFunctionSymbol elf COMPARTMENT_ENTRY_SYMBOL = some entry_point_sym ∧
      (SetupMappings host m elf memory_range_length kCompartmentStackSize).ok = true ∧
      m'.cm_compartments.get? id = some
        { csp := csp
          ddc := CompartmentAdd.ddc host elf memory_range_length
          ctpidr := ctpidr
          entry_point := CompartmentAdd.c_entry_point host elf entry_point_sym
          update_on_return := false } := by
  obtain ⟨fd, elf, e, c, r, b, t, -, hopen, hread, hentry, -, -, hsetup⟩ := CompartmentAdd_ok h
  obtain ⟨stack_top, evs, hok, -, hfin⟩ := CompartmentAdd_setup_ok hsetup
  obtain ⟨csp, ctpidr, hid, -, -, rfl⟩ := CompartmentAdd_finish_ok hfin
  refine ⟨fd, elf, e, csp, ctpidr, hopen, hread, hentry, hok, ?_⟩
  simp only [List.get?_eq_getElem?, List.getElem?_set_self hid]

/-- C3, as stated, fails: on the sample host, whose root capability holds every permission,
`CompartmentAdd` returns, and the permission set of the data-region capability it installed is
not the six-element set {load, store, load-capability, store-capability,
store-local-capability, global}: it also holds the Morello mutable-load permission. -/
theorem CompartmentAdd_ddc_perms_not_six :
    CompartmentAdd (Sample.host (Sample.run_below 512)) Sample.manager0 0 [0x61] []
      kCompartmentMemoryRangeLength = .ok (Sample.manager1 (Sample.run_below 512)) ∧
    ({Perm.LOAD, Perm.STORE, Perm.LOAD_CAP, Perm.STORE_CAP, Perm.STORE_LOCAL_CAP,
      Perm.GLOBAL} : Finset Perm) ⊆ (Sample.host (Sample.run_below 512)).cm_ddc.perms ∧
    ∃ d, (Sample.manager1 (Sample.run_below 512)).cm_compartments.get? 0 = some d ∧
      Perm.MORELLO_MUTABLE_LOAD ∈ d.ddc.perms ∧
      d.ddc.perms ≠ {Perm.LOAD, Perm.STORE, Perm.LOAD_CAP, Perm.STORE_CAP,
        Perm.STORE_LOCAL_CAP, Perm.GLOBAL} :=
  ⟨by rfl, by decide, _, by rfl, by decide, by decide⟩

/-- C3, amended: the data-region capability that `CompartmentAdd` installs has the root's
permissions intersected with `kCompartmentDataPerms`; given a root that holds all of them, that
is exactly {load, load-capability, mutable-load, store, store-capability,
store-local-capability, global}; and it never includes execute. -/
theorem CompartmentAdd_ddc_perms (host : Host) (m m' : Manager) (id : Nat) (path : List Nat)
    (args : List (List Nat)) (memory_range_length : Nat) (d : Compartment)
    (h : CompartmentAdd host m id path args memory_range_length = .ok m')
    (hd : m'.cm_compartments.get? id = some d) :
    d.ddc.perms = host.cm_ddc.perms ∩ kCompartmentDataPerms ∧
    (kCompartmentDataPerms ⊆ host.cm_ddc.perms →
      d.ddc.perms = {Perm.LOAD, Perm.LOAD_CAP, Perm.MORELLO_MUTABLE_LOAD, Perm.STORE,
        Perm.STORE_CAP, Perm.STORE_LOCAL_CAP, Perm.GLOBAL}) ∧
    Perm.EXECUTE ∉ d.ddc.perms := by
  obtain ⟨fd, elf, e, csp, ctpidr, -, -, -, -, hget⟩ := CompartmentAdd_descriptor h
  rw [hget] at hd
  cases hd
  have hp : (CompartmentAdd.ddc host elf memory_range_length).perms
      = host.cm_ddc.perms ∩ kCompartmentDataPerms := rfl
  refine ⟨hp, ?_, ?_⟩
  · intro hsub
    show (CompartmentAdd.ddc host elf memory_range_length).perms = _
    rw [hp, Finset.inter_eq_right.mpr hsub]
    rfl
  · show Perm.EXECUTE ∉ (CompartmentAdd.ddc host elf memory_range_length).perms
    rw [hp, Finset.mem_inter]
    rintro ⟨-, hx⟩
    revert hx
    decide

/-- Witness for the amended C3: compartment 0 of the sample host. -/
theorem CompartmentAdd_ddc_perms_witness :
    ∃ d, (Sample.manager1 (Sample.run_below 512)).cm_compartments.get? 0 = some d ∧
      (d.ddc.perms = (Sample.host (Sample.run_below 512)).cm_ddc.perms ∩ kCompartmentDataPerms ∧
      (kCompartmentDataPerms ⊆ (Sample.host (Sample.run_below 512)).cm_ddc.perms →
        d.ddc.perms = {Perm.LOAD, Perm.LOAD_CAP, Perm.MORELLO_MUTABLE_LOAD, Perm.STORE,
          Perm.STORE_CAP, Perm.STORE_LOCAL_CAP, Perm.GLOBAL}) ∧
      Perm.EXECUTE ∉ d.ddc.perms) :=
  ⟨_, by rfl, CompartmentAdd_ddc_perms (Sample.host (Sample.run_below 512)) Sample.manager0
    (Sample.manager1 (Sample.run_below 512)) 0 [0x61] [] kCompartmentMemoryRangeLength _
    (by rfl) (by rfl)⟩

theorem Range.Size_pos_iff (r : Range) : r.Size ≠ 0 ↔ r.base < r.top := by
  unfold Range.Size
  split <;> omega

theorem Range.base_add_Size {r : Range} (h : r.base < r.top) : r.base + r.Size = r.top := by
  unfold Range.Size
  rw [if_pos h]
  omega

/-- C4: the entry capability left in the descriptor when `CompartmentAdd` returns has exactly
the permissions {execute, global} (the root holding both), and its bounds are exactly
`[executable_range.base, executable_range.base + executable_range.Size())`; they end strictly
below the end of the reserved data range whenever the size computation of `SetupMappings` does
not wrap. -/
theorem CompartmentAdd_entry_capability (host : Host) (m m' : Manager) (id : Nat)
    (path : List Nat) (args : List (List Nat)) (memory_range_length : Nat) (d : Compartment)
    (h : CompartmentAdd host m id path args memory_range_length = .ok m')
    (hd : m'.cm_compartments.get? id = some d)
    (hroot : kCompartmentExecPerms ⊆ host.cm_ddc.perms) :
    ∃ fd elf, host.open_file path = some fd ∧
      (StaticElfExecutable.create fd host.page_size).Read = some (true, elf) ∧
      d.entry_point.perms = {Perm.EXECUTE, Perm.GLOBAL} ∧
      d.entry_point.base = elf.executable_range.base ∧
      d.entry_point.limit = elf.executable_range.base + elf.executable_range.Size ∧
      d.ddc.base = elf.total_range.base ∧
      d.ddc.limit = elf.total_range.base + memory_range_length ∧
      (elf.total_range.Size + kCompartmentStackSize + 2 * host.page_size < 2 ^ 64 →
        d.entry_point.limit < d.ddc.limit) := by
  obtain ⟨fd, elf, e, csp, ctpidr, hopen, hread, -, hok, hget⟩ := CompartmentAdd_descriptor h
  rw [hget] at hd
  cases hd
  refine ⟨fd, elf, hopen, hread, ?_, rfl, rfl, rfl, rfl, ?_⟩
  · show host.cm_ddc.perms ∩ kCompartmentExecPerms = _
    rw [Finset.inter_eq_right.mpr hroot]
    rfl
  · intro hnowrap
    show elf.executable_range.base + elf.executable_range.Size
      < elf.total_range.base + memory_range_length
    obtain ⟨⟨-, hsub, -⟩, hsize, -, -⟩ := StaticElfExecutable.Read_true_inv hread rfl
    obtain ⟨-, hreq, -, -⟩ := SetupMappings_ok hok
    rw [u64_of_lt hnowrap] at hreq
    have hlt := (Range.Size_pos_iff _).mp hsize
    rw [Range.Contains_iff] at hsub
    have he := Range.base_add_Size hlt
    have ht : elf.total_range_.base < elf.total_range_.top := by omega
    have ht' := Range.base_add_Size ht
    simp only [StaticElfExecutable.executable_range, StaticElfExecutable.total_range,
      kCompartmentStackSize] at *
    omega

/-- Witness for C4: compartment 0 of the sample host. -/
theorem CompartmentAdd_entry_capability_witness :
    ∃ d, (Sample.manager1 (Sample.run_below 512)).cm_compartments.get? 0 = some d ∧
      ∃ fd elf, (Sample.host (Sample.run_below 512)).open_file [0x61] = some fd ∧
        (StaticElfExecutable.create fd (Sample.host (Sample.run_below 512)).page_size).Read
          = some (true, elf) ∧
        d.entry_point.perms = {Perm.EXECUTE, Perm.GLOBAL} ∧
        d.entry_point.base = elf.executable_range.base ∧
        d.entry_point.limit = elf.executable_range.base + elf.executable_range.Size ∧
        d.ddc.base = elf.total_range.base ∧
        d.ddc.limit = elf.total_range.base + kCompartmentMemoryRangeLength ∧
        (elf.total_range.Size + kCompartmentStackSize +
            2 * (Sample.host (Sample.run_below 512)).page_size < 2 ^ 64 →
          d.entry_point.limit < d.ddc.limit) :=
  ⟨_, by rfl, CompartmentAdd_entry_capability (Sample.host (Sample.run_below 512))
    Sample.manager0 (Sample.manager1 (Sample.run_below 512)) 0 [0x61] []
    kCompartmentMemoryRangeLength _ (by rfl) (by rfl) (by decide)⟩

/-- C5 fails on the code: `CheckSpWithinStackBounds` is given the final stack pointer of
`SetupCompartmentStack` (which overwrote `stack_top`), not the top of the stack mapping. On the
sample host the stack is mapped at `[0xFF0F000, 0x1000F000)`; a compartment that returns with
its stack pointer at 0xFF0EFF0, in the guard page below the stack, passes the validation and
`CompartmentAdd` returns. -/
theorem CompartmentAdd_accepts_sp_below_stack :
    ∃ m' d, CompartmentAdd (Sample.host Sample.run_into_guard) Sample.manager0 0 [0x61] []
        kCompartmentMemoryRangeLength = .ok m' ∧
      m'.cm_compartments.get? 0 = some d ∧
      Sample.elfA.total_range.base + kCompartmentMemoryRangeLength - kCompartmentStackSize
        - (Sample.host Sample.run_into_guard).page_size = 0xFF0F000 ∧
      (SetupMappings (Sample.host Sample.run_into_guard) Sample.manager0 Sample.elfA
        kCompartmentMemoryRangeLength kCompartmentStackSize).stack_top = 0x1000F000 ∧
      archcap_c_address_get d.csp = 0xFF0EFF0 ∧
      ¬ (0xFF0F000 ≤ archcap_c_address_get d.csp ∧
          archcap_c_address_get d.csp < 0xFF0F000 + kCompartmentStackSize) :=
  ⟨_, _, by rfl, by rfl, by decide, by rfl, by rfl, by decide⟩

/-- C6 fails on the code: `main` passes `kComputeNodeACompartmentId = 3` (and 4 and 5) to
`CompartmentAdd` while `MAX_COMPARTMENTS` is 2, so the asserted precondition
`id < MAX_COMPARTMENTS` does not hold for it, the registry has no slot 3, and the call never
returns, whatever the host, the manager state and the other arguments. -/
theorem CompartmentAdd_compute_node_id_out_of_range :
    kComputeNodeACompartmentId ∈ mainCompartmentIds ∧
    ¬ kComputeNodeACompartmentId < MAX_COMPARTMENTS ∧
    emptyRegistry.get? kComputeNodeACompartmentId = none ∧
    (mainCompartmentIds.filter (fun id => decide (¬ id < MAX_COMPARTMENTS))) = [3, 4, 5] ∧
    ∀ (host : Host) (m : Manager) (path : List Nat) (args : List (List Nat))
      (memory_range_length : Nat),
      CompartmentAdd host m kComputeNodeACompartmentId path args memory_range_length
        = .error m.trace := by
  refine ⟨by decide, by decide, by rfl, by decide, ?_⟩
  intro host m path args memory_range_length
  unfold CompartmentAdd
  rw [if_pos (by decide)]

/-! ## The order of the operations of `CompartmentAdd` -/

theorem Map_segment_plain (host : Host) (page_size_ : Nat) (segment : LoadSegmentInfo) :
    ∀ ev ∈ (StaticElfExecutable.Map.segment host page_size_ segment).2, ev.plain = true := by
  unfold StaticElfExecutable.Map.segment
  simp only
  split_ifs <;> simp [Event.plain]

theorem Map_loop_plain (host : Host) (page_size_ : Nat) (segs : List LoadSegmentInfo) :
    ∀ ev ∈ (StaticElfExecutable.Map.loop host page_size_ segs).2, ev.plain = true := by
  induction segs with
  | nil => simp [StaticElfExecutable.Map.loop]
  | cons seg rest ih =>
    have hseg := Map_segment_plain host page_size_ seg
    simp only [StaticElfExecutable.Map.loop]
    split
    · rename_i evs heq
      rw [heq] at hseg
      exact hseg
    · rename_i evs heq
      rw [heq] at hseg
      exact hseg
    · rename_i evs heq
      rw [heq] at hseg
      intro ev hev
      simp only [List.mem_append] at hev
      rcases hev with hev | hev
      · exact hseg ev hev
      · exact ih ev hev

theorem Map_plain (host : Host) (elf : StaticElfExecutable) :
    ∀ ev ∈ (elf.Map host).2, ev.plain = true := by
  unfold StaticElfExecutable.Map
  split
  · simp
  · exact Map_loop_plain host _ _

theorem SetupMappings_plain (host : Host) (m : Manager) (elf : StaticElfExecutable)
    (memory_range_length stack_size : Nat) :
    ∀ ev ∈ (SetupMappings host m elf memory_range_length stack_size).events,
      ev.plain = true := by
  have hmap := Map_plain host elf
  unfold SetupMappings
  simp only
  split
  · simp
  · split
    · simp
    · split
      · simp [Event.plain]
      · split
        · rename_i evs heq
          rw [heq] at hmap
          intro ev hev
          simp only [List.mem_cons] at hev
          rcases hev with rfl | hev
          · rfl
          · exact hmap ev hev
        · rename_i evs heq
          rw [heq] at hmap
          intro ev hev
          simp only [List.mem_cons] at hev
          rcases hev with rfl | hev
          · rfl
          · exact hmap ev hev
        · rename_i evs heq
          rw [heq] at hmap
          split <;>
          · intro ev hev
            simp only [List.mem_cons, List.mem_append, List.not_mem_nil, or_false] at hev
            rcases hev with (rfl | hev) | rfl
            · rfl
            · exact hmap ev hev
            · rfl

theorem push_plain (lower_limit : Nat) (b : StackBuilder) (src : List Nat)
    (h : ∀ ev ∈ b.events, ev.plain = true) :
    ∀ ev ∈ (b.push lower_limit src).events, ev.plain = true := by
  unfold StackBuilder.push
  split
  · exact h
  · intro ev hev
    simp only [List.mem_append, List.mem_singleton] at hev
    rcases hev with hev | rfl
    · exact h ev hev
    · rfl

theorem set_auxval_plain (lower_limit : Nat) (b : StackBuilder) (type val : Nat)
    (h : ∀ ev ∈ b.events, ev.plain = true) :
    ∀ ev ∈ (b.set_auxval lower_limit type val).events, ev.plain = true :=
  push_plain _ _ _ h

theorem push_words_plain (lower_limit : Nat) (ws : List Nat) :
    ∀ b : StackBuilder, (∀ ev ∈ b.events, ev.plain = true) →
      ∀ ev ∈ (StackBuilder.push_words lower_limit ws b).events, ev.plain = true := by
  induction ws with
  | nil => intro b h; exact h
  | cons w rest ih =>
    intro b h
    exact ih _ (push_plain _ _ _ h)

theorem args_plain (lower_limit : Nat) (args : List (List Nat)) :
    ∀ (b : StackBuilder) (argv_str : List Nat), (∀ ev ∈ b.events, ev.plain = true) →
      ∀ ev ∈ (SetupCompartmentStack.args lower_limit args b argv_str).1.events,
        ev.plain = true := by
  induction args with
  | nil => intro b _ h; exact h
  | cons arg rest ih =>
    intro b argv_str h
    exact ih _ _ (push_plain _ _ _ h)

theorem envs_plain (lower_limit : Nat) (environ names : List (List Nat)) :
    ∀ (b : StackBuilder) (envp_str : List Nat), (∀ ev ∈ b.events, ev.plain = true) →
      match SetupCompartmentStack.envs lower_limit environ names b envp_str with
      | .ok (b', _) => ∀ ev ∈ b'.events, ev.plain = true
      | .error evs => ∀ ev ∈ evs, ev.plain = true := by
  induction names with
  | nil => intro b _ h; exact h
  | cons name rest ih =>
    intro b envp_str h
    rcases hg : GetFullEnvString name environ with _ | _ | env
    · simp only [SetupCompartmentStack.envs, hg]; exact h
    · simp only [SetupCompartmentStack.envs, hg]; exact ih b envp_str h
    · simp only [SetupCompartmentStack.envs, hg]; exact ih _ _ (push_plain _ _ _ h)

theorem SetupCompartmentStack_plain (host : Host) (stack_top stack_size : Nat)
    (args : List (List Nat)) (exec : StaticElfExecutable) :
    match SetupCompartmentStack host stack_top stack_size args exec with
    | .ok (_, _, evs) => ∀ ev ∈ evs, ev.plain = true
    | .error evs => ∀ ev ∈ evs, ev.plain = true := by
  unfold SetupCompartmentStack
  simp only
  have h0 := args_plain (sub64 stack_top (stack_size / 2)) args ⟨stack_top, false, []⟩ []
    (by simp)
  have h1 := envs_plain (sub64 stack_top (stack_size / 2)) host.environ
    kCompartmentPropagatedEnv
    (SetupCompartmentStack.args (sub64 stack_top (stack_size / 2)) args
      ⟨stack_top, false, []⟩ []).1
    [] h0
  generalize SetupCompartmentStack.envs (sub64 stack_top (stack_size / 2)) host.environ
    kCompartmentPropagatedEnv
    (SetupCompartmentStack.args (sub64 stack_top (stack_size / 2)) args
      ⟨stack_top, false, []⟩ []).1 [] = E at h1 ⊢
  rcases E with evs | ⟨b, envp_str⟩
  · exact h1
  · simp only at h1 ⊢
    rcases host.getrandom with _ | buf
    · exact h1
    · simp only
      apply push_plain
      apply push_words_plain
      apply push_plain
      apply push_words_plain
      apply push_plain
      iterate 7 apply set_auxval_plain
      exact push_plain _ _ _ h1

theorem CompartmentAdd_finish_error {host : Host} {m : Manager} {id : Nat}
    {elf : StaticElfExecutable}
    {memory_range_length entry_point_sym cm_call_cap_sym cm_return_cap_sym stack_top : Nat}
    {trace tr : List Event}
    (h : CompartmentAdd.finish host m id elf memory_range_length entry_point_sym cm_call_cap_sym
      cm_return_cap_sym stack_top trace = .error tr) :
    ∃ registry, tr = trace ++
      [Event.store_cap cm_return_cap_sym
        (CompartmentAdd.manager_entry host host.CompartmentSwitchReturn),
       Event.compartment_call id registry] := by
  unfold CompartmentAdd.finish at h
  simp only at h
  split at h
  · simp only [Except.error.injEq] at h
    exact ⟨_, by rw [← h, List.append_assoc]; rfl⟩
  · split at h
    · simp only [Except.error.injEq] at h
      exact ⟨_, by rw [← h, List.append_assoc]; rfl⟩
    · split at h
      · simp only [Except.error.injEq] at h
        exact ⟨_, by rw [← h, List.append_assoc]; rfl⟩
      · simp at h

theorem CompartmentAdd_setup_error {host : Host} {m : Manager} {id : Nat} {path : List Nat}
    {args : List (List Nat)} {memory_range_length : Nat} {elf : StaticElfExecutable}
    {entry_point_sym cm_call_cap_sym cm_return_cap_sym mmap_range_base_sym
      mmap_range_top_sym : Nat} {tr : List Event}
    (h : CompartmentAdd.setup host m id path args memory_range_length elf entry_point_sym
      cm_call_cap_sym cm_return_cap_sym mmap_range_base_sym mmap_range_top_sym = .error tr) :
    ∃ pre, (∀ ev ∈ pre, ev.plain = true) ∧
      (tr = m.trace ++ pre ∨
       ∃ registry, tr = m.trace ++ pre ++
        [Event.store_cap cm_return_cap_sym
          (CompartmentAdd.manager_entry host host.CompartmentSwitchReturn),
         Event.compartment_call id registry]) := by
  have hmaps := SetupMappings_plain host m elf memory_range_length kCompartmentStackSize
  have hstack := SetupCompartmentStack_plain host
    (SetupMappings host m elf memory_range_length kCompartmentStackSize).stack_top
    kCompartmentStackSize (path :: args) elf
  unfold CompartmentAdd.setup at h
  simp only at h
  split at h
  · simp only [Except.error.injEq] at h
    exact ⟨_, hmaps, Or.inl h.symm⟩
  · split at h
    · rename_i evs heq
      rw [heq] at hstack
      simp only [Except.error.injEq] at h
      refine ⟨(SetupMappings host m elf memory_range_length kCompartmentStackSize).events
        ++ evs, ?_, Or.inl (by rw [← h, List.append_assoc])⟩
      intro ev hev
      rcases List.mem_append.mp hev with hev | hev
      · exact hmaps ev hev
      · exact hstack ev hev
    · rename_i sp evs heq
      rw [heq] at hstack
      simp only [Except.error.injEq] at h
      refine ⟨(SetupMappings host m elf memory_range_length kCompartmentStackSize).events
        ++ evs, ?_, Or.inl (by rw [← h, List.append_assoc])⟩
      intro ev hev
      rcases List.mem_append.mp hev with hev | hev
      · exact hmaps ev hev
      · exact hstack ev hev
    · rename_i stack_top evs heq
      rw [heq] at hstack
      obtain ⟨registry, hreg⟩ := CompartmentAdd_finish_error h
      refine ⟨(SetupMappings host m elf memory_range_length kCompartmentStackSize).events
        ++ evs ++
        [Event.store_word mmap_range_base_sym
          (SetupMappings host m elf memory_range_length kCompartmentStackSize).mmap_range.base,
         Event.store_word mmap_range_top_sym
          (SetupMappings host m elf memory_range_length kCompartmentStackSize).mmap_range.top],
        ?_, Or.inr ⟨registry, by rw [hreg]; simp only [List.append_assoc]⟩⟩
      intro ev hev
      simp only [List.mem_append, List.mem_cons, List.not_mem_nil, or_false] at hev
      rcases hev with (hev | hev) | rfl | rfl
      · exact hmaps ev hev
      · exact hstack ev hev
      · rfl
      · rfl

theorem CompartmentAdd_error {host : Host} {m : Manager} {id : Nat} {path : List Nat}
    {args : List (List Nat)} {memory_range_length : Nat} {tr : List Event}
    (h : CompartmentAdd host m id path args memory_range_length = .error tr) :
    tr = m.trace ∨
    ∃ fd elf entry_point_sym cm_call_cap_sym cm_return_cap_sym mmap_range_base_sym
        mmap_range_top_sym,
      host.open_file path = some fd ∧
      (StaticElfExecutable.create fd host.page_size).Read = some (true, elf) ∧
      GetElfDataSymbol elf sizeof_capability COMPARTMENT_MANAGER_RETURN_CAPABILITY_SYMBOL
        = some cm_return_cap_sym ∧
      CompartmentAdd.setup host m id path args memory_range_length elf entry_point_sym
        cm_call_cap_sym cm_return_cap_sym mmap_range_base_sym mmap_range_top_sym
        = .error tr := by
  unfold CompartmentAdd at h
  split at h
  · simp only [Except.error.injEq] at h; exact Or.inl h.symm
  · split at h
    · simp only [Except.error.injEq] at h; exact Or.inl h.symm
    · rename_i fd hopen
      split at h
      · simp only [Except.error.injEq] at h; exact Or.inl h.symm
      · simp only [Except.error.injEq] at h; exact Or.inl h.symm
      · rename_i elf hread
        split at h
        · simp only [Except.error.injEq] at h; exact Or.inl h.symm
        · split at h
          · simp only [Except.error.injEq] at h; exact Or.inl h.symm
          · split at h
            · simp only [Except.error.injEq] at h; exact Or.inl h.symm
            · rename_i r hret
              split at h
              · simp only [Except.error.injEq] at h; exact Or.inl h.symm
              · split at h
                · simp only [Except.error.injEq] at h; exact Or.inl h.symm
                · exact Or.inr ⟨fd, elf, _, _, r, _, _, hopen, hread, hret, h⟩

/-- C7: (1) when `CompartmentAdd` returns, the operations it issued are: operations that are
neither capability stores nor compartment calls (mappings, stack image, arena words), then the
store of the return capability into the return slot, then the initialisation call, then the
store of the call capability into the call slot, and the stack pointer left in the descriptor
passed `CheckSpWithinStackBounds`; at the initialisation call the descriptor holds the init
entry capability (address `e_entry`), a null thread-pointer capability and
`update_on_return = true`; at return it holds the application entry capability (address of the
`__compartment_entry` symbol) and `update_on_return = false`; no other slot differs, at the
call or at return. (2) When `CompartmentAdd` does not return (in particular when the
stack-pointer check fails), the only capability store it may have issued is that of the return
capability: the call-capability slot has not been written. -/
theorem CompartmentAdd_order (host : Host) (m : Manager) (id : Nat) (path : List Nat)
    (args : List (List Nat)) (memory_range_length : Nat) :
    (∀ m', CompartmentAdd host m id path args memory_range_length = .ok m' →
      ∃ fd elf entry_point_sym cm_call_cap_sym cm_return_cap_sym stack_top pre registry desc d,
        host.open_file path = some fd ∧
        (StaticElfExecutable.create fd host.page_size).Read = some (true, elf) ∧
        GetElfFunctionSymbol elf COMPARTMENT_ENTRY_SYMBOL = some entry_point_sym ∧
        GetElfDataSymbol elf sizeof_capability COMPARTMENT_MANAGER_CALL_CAPABILITY_SYMBOL
          = some cm_call_cap_sym ∧
        GetElfDataSymbol elf sizeof_capability COMPARTMENT_MANAGER_RETURN_CAPABILITY_SYMBOL
          = some cm_return_cap_sym ∧
        m'.trace = m.trace ++ pre ++
          [Event.store_cap cm_return_cap_sym
            (CompartmentAdd.manager_entry host host.CompartmentSwitchReturn),
           Event.compartment_call id registry,
           Event.store_cap cm_call_cap_sym
            (CompartmentAdd.manager_entry host host.CompartmentSwitch)] ∧
        (∀ ev ∈ pre, ev.plain = true) ∧
        registry.get? id = some desc ∧
        desc.entry_point = CompartmentAdd.init_entry_point host elf entry_point_sym ∧
        archcap_c_address_get desc.entry_point = elf.ehdr_.e_entry ∧
        desc.ctpidr = nullCap ∧ desc.update_on_return = true ∧
        (∀ j, j ≠ id → registry.get? j = m.cm_compartments.get? j) ∧
        m'.cm_compartments.get? id = some d ∧
        d.entry_point = CompartmentAdd.c_entry_point host elf entry_point_sym ∧
        archcap_c_address_get d.entry_point = entry_point_sym ∧
        d.update_on_return = false ∧
        CheckSpWithinStackBounds (archcap_c_address_get d.csp) stack_top kCompartmentStackSize
          = true ∧
        (∀ j, j ≠ id → m'.cm_compartments.get? j = m.cm_compartments.get? j)) ∧
    (∀ tr, CompartmentAdd host m id path args memory_range_length = .error tr →
      ∃ pre, (∀ ev ∈ pre, ev.plain = true) ∧
        (tr = m.trace ++ pre ∨
         ∃ fd elf cm_return_cap_sym registry,
          host.open_file path = some fd ∧
          (StaticElfExecutable.create fd host.page_size).Read = some (true, elf) ∧
          GetElfDataSymbol elf sizeof_capability COMPARTMENT_MANAGER_RETURN_CAPABILITY_SYMBOL
            = some cm_return_cap_sym ∧
          tr = m.trace ++ pre ++
            [Event.store_cap cm_return_cap_sym
              (CompartmentAdd.manager_entry host host.CompartmentSwitchReturn),
             Event.compartment_call id registry])) := by
  constructor
  · intro m' h
    obtain ⟨fd, elf, e, c, r, b, t, -, hopen, hread, hentry, hcall, hret, hsetup⟩ :=
      CompartmentAdd_ok h
    obtain ⟨stack_top, evs, -, hstack, hfin⟩ := CompartmentAdd_setup_ok hsetup
    obtain ⟨csp, ctpidr, hid, -, hsp, rfl⟩ := CompartmentAdd_finish_ok hfin
    have hmaps := SetupMappings_plain host m elf memory_range_length kCompartmentStackSize
    have hplain := SetupCompartmentStack_plain host
      (SetupMappings host m elf memory_range_length kCompartmentStackSize).stack_top
      kCompartmentStackSize (path :: args) elf
    rw [hstack] at hplain
    refine ⟨fd, elf, e, c, r, stack_top,
      (SetupMappings host m elf memory_range_length kCompartmentStackSize).events ++ evs ++
        [Event.store_word b
          (SetupMappings host m elf memory_range_length kCompartmentStackSize).mmap_range.base,
         Event.store_word t
          (SetupMappings host m elf memory_range_length kCompartmentStackSize).mmap_range.top],
      m.cm_compartments.set id
        { csp := archcap_c_address_set nullCap stack_top
          ddc := CompartmentAdd.ddc host elf memory_range_length
          ctpidr := nullCap
          entry_point := CompartmentAdd.init_entry_point host elf e
          update_on_return := true },
      { csp := archcap_c_address_set nullCap stack_top
        ddc := CompartmentAdd.ddc host elf memory_range_length
        ctpidr := nullCap
        entry_point := CompartmentAdd.init_entry_point host elf e
        update_on_return := true },
      { csp := csp
        ddc := CompartmentAdd.ddc host elf memory_range_length
        ctpidr := ctpidr
        entry_point := CompartmentAdd.c_entry_point host elf e
        update_on_return := false },
      hopen, hread, hentry, hcall, hret, ?_, ?_, ?_, rfl, rfl, rfl, rfl, ?_, ?_,
      rfl, rfl, rfl, hsp, ?_⟩
    · simp only [List.append_assoc]
    · intro ev hev
      simp only [List.mem_append, List.mem_cons, List.not_mem_nil, or_false] at hev
      rcases hev with (hev | hev) | rfl | rfl
      · exact hmaps ev hev
      · exact hplain ev hev
      · rfl
      · rfl
    · simp only [List.get?_eq_getElem?, List.getElem?_set_self hid]
    · intro j hj
      simp only [List.get?_eq_getElem?]
      exact List.getElem?_set_ne (Ne.symm hj)
    · simp only [List.get?_eq_getElem?, List.getElem?_set_self hid]
    · intro j hj
      simp only [List.get?_eq_getElem?]
      exact List.getElem?_set_ne (Ne.symm hj)
  · intro tr h
    rcases CompartmentAdd_error h with rfl | ⟨fd, elf, e, c, r, b, t, hopen, hread, hret, hsetup⟩
    · exact ⟨[], by simp, Or.inl (by simp)⟩
    · obtain ⟨pre, hpre, hcases⟩ := CompartmentAdd_setup_error hsetup
      refine ⟨pre, hpre, ?_⟩
      rcases hcases with htr | ⟨registry, htr⟩
      · exact Or.inl htr
      · exact Or.inr ⟨fd, elf, r, registry, hopen, hread, hret, htr⟩

/-- Witness for C7: adding the sample executable `"a"` as compartment 0 returns, and the run
has the stated shape. -/
theorem CompartmentAdd_order_witness :
    ∃ fd elf entry_point_sym cm_call_cap_sym cm_return_cap_sym stack_top pre registry desc d,
      (Sample.host (Sample.run_below 512)).open_file [0x61] = some fd ∧
      (StaticElfExecutable.create fd (Sample.host (Sample.run_below 512)).page_size).Read
        = some (true, elf) ∧
      GetElfFunctionSymbol elf COMPARTMENT_ENTRY_SYMBOL = some entry_point_sym ∧
      GetElfDataSymbol elf sizeof_capability COMPARTMENT_MANAGER_CALL_CAPABILITY_SYMBOL
        = some cm_call_cap_sym ∧
      GetElfDataSymbol elf sizeof_capability COMPARTMENT_MANAGER_RETURN_CAPABILITY_SYMBOL
        = some cm_return_cap_sym ∧
      (Sample.manager1 (Sample.run_below 512)).trace = Sample.manager0.trace ++ pre ++
        [Event.store_cap cm_return_cap_sym
          (CompartmentAdd.manager_entry (Sample.host (Sample.run_below 512))
            (Sample.host (Sample.run_below 512)).CompartmentSwitchReturn),
         Event.compartment_call 0 registry,
         Event.store_cap cm_call_cap_sym
          (CompartmentAdd.manager_entry (Sample.host (Sample.run_below 512))
            (Sample.host (Sample.run_below 512)).CompartmentSwitch)] ∧
      (∀ ev ∈ pre, ev.plain = true) ∧
      registry.get? 0 = some desc ∧
      desc.entry_point = CompartmentAdd.init_entry_point (Sample.host (Sample.run_below 512))
        elf entry_point_sym ∧
      archcap_c_address_get desc.entry_point = elf.ehdr_.e_entry ∧
      desc.ctpidr = nullCap ∧ desc.update_on_return = true ∧
      (∀ j, j ≠ 0 → registry.get? j = Sample.manager0.cm_compartments.get? j) ∧
      (Sample.manager1 (Sample.run_below 512)).cm_compartments.get? 0 = some d ∧
      d.entry_point = CompartmentAdd.c_entry_point (Sample.host (Sample.run_below 512))
        elf entry_point_sym ∧
      archcap_c_address_get d.entry_point = entry_point_sym ∧
      d.update_on_return = false ∧
      CheckSpWithinStackBounds (archcap_c_address_get d.csp) stack_top kCompartmentStackSize
        = true ∧
      (∀ j, j ≠ 0 → (Sample.manager1 (Sample.run_below 512)).cm_compartments.get? j
        = Sample.manager0.cm_compartments.get? j) :=
  (CompartmentAdd_order (Sample.host (Sample.run_below 512)) Sample.manager0 0 [0x61] []
    kCompartmentMemoryRangeLength).1 (Sample.manager1 (Sample.run_below 512)) (by rfl)

/-! ## The recorded load segments -/

namespace StaticElfExecutable

/-- What a completed run of the loop of `ReadProgramHeaders` did, relative to the state it
started from. -/
theorem ReadProgramHeaders_loop_spec (is : List Nat) :
    ∀ (s s' : StaticElfExecutable), ReadProgramHeaders.loop is s = (true, s') →
      s'.fd_ = s.fd_ ∧ s'.ehdr_ = s.ehdr_ ∧ s'.page_size_ = s.page_size_ ∧
      (∀ i ∈ is, ∃ phdr,
        s.fd_.read_phdr (u64 (s.ehdr_.e_phoff + i * sizeof_Elf64_Phdr)) = some phdr ∧
        (phdr.p_type = PT_LOAD → phdr.sizesOk)) ∧
      ∃ added, s'.load_segments_ = s.load_segments_ ++ added ∧
        (∀ seg ∈ added, ∃ i ∈ is, ∃ phdr,
          s.fd_.read_phdr (u64 (s.ehdr_.e_phoff + i * sizeof_Elf64_Phdr)) = some phdr ∧
          phdr.p_type = PT_LOAD ∧ phdr.sizesOk ∧ seg = segmentInfo s.page_size_ phdr) ∧
        NoOverlapFrom s.total_range_ added := by
  induction is with
  | nil =>
    intro s s' h
    simp only [ReadProgramHeaders.loop, Prod.mk.injEq, true_and] at h
    subst h
    exact ⟨rfl, rfl, rfl, by simp, [], by simp, by simp, trivial⟩
  | cons i rest ih =>
    intro s s' h
    simp only [ReadProgramHeaders.loop] at h
    split at h
    · simp at h
    · rename_i phdr hread
      split at h
      · rename_i hty
        split at h
        · simp at h
        · obtain ⟨h1, h2, h3, h4, added, h5, h6, h7⟩ := ih s s' h
          refine ⟨h1, h2, h3, ?_, added, h5, ?_, h7⟩
          · intro j hj
            rcases List.mem_cons.mp hj with rfl | hj
            · exact ⟨phdr, hread, fun hc => absurd hc hty⟩
            · exact h4 j hj
          · intro seg hseg
            obtain ⟨j, hj, ph, hr, hp⟩ := h6 seg hseg
            exact ⟨j, List.mem_cons_of_mem _ hj, ph, hr, hp⟩
      · rename_i hty
        have hty' : phdr.p_type = PT_LOAD := by simpa using hty
        split at h
        · simp at h
        · rename_i hfs
          split at h
          · simp at h
          · rename_i hzf
            have hok : phdr.sizesOk := by
              refine ⟨by omega, fun hlt hw => hzf ⟨hlt, ?_⟩⟩
              exact hw
            try simp only at h
            split at h
            · simp at h
            · rename_i hint
              have hint' : s.total_range_.Intersects (segmentInfo s.page_size_ phdr).mem_range
                  = false := by simpa using hint
              by_cases hx : phdr.p_flags &&& PF_X ≠ 0
              · simp only [if_pos hx] at h
                obtain ⟨h1, h2, h3, h4, added, h5, h6, h7⟩ := ih _ s' h
                refine ⟨h1, h2, h3, ?_, segmentInfo s.page_size_ phdr :: added, ?_, ?_,
                  ⟨hint', h7⟩⟩
                · intro j hj
                  rcases List.mem_cons.mp hj with rfl | hj
                  · exact ⟨phdr, hread, fun _ => hok⟩
                  · exact h4 j hj
                · rw [h5]; simp
                · intro seg hseg
                  rcases List.mem_cons.mp hseg with rfl | hseg
                  · exact ⟨i, List.mem_cons_self _ _, phdr, hread, hty', hok, rfl⟩
                  · obtain ⟨j, hj, ph, hr, hp⟩ := h6 seg hseg
                    exact ⟨j, List.mem_cons_of_mem _ hj, ph, hr, hp⟩
              · simp only [if_neg hx] at h
                obtain ⟨h1, h2, h3, h4, added, h5, h6, h7⟩ := ih _ s' h
                refine ⟨h1, h2, h3, ?_, segmentInfo s.page_size_ phdr :: added, ?_, ?_,
                  ⟨hint', h7⟩⟩
                · intro j hj
                  rcases List.mem_cons.mp hj with rfl | hj
                  · exact ⟨phdr, hread, fun _ => hok⟩
                  · exact h4 j hj
                · rw [h5]; simp
                · intro seg hseg
                  rcases List.mem_cons.mp hseg with rfl | hseg
                  · exact ⟨i, List.mem_cons_self _ _, phdr, hread, hty', hok, rfl⟩
                  · obtain ⟨j, hj, ph, hr, hp⟩ := h6 seg hseg
                    exact ⟨j, List.mem_cons_of_mem _ hj, ph, hr, hp⟩

end StaticElfExecutable

namespace StaticElfExecutable

theorem Range.Enlarge_Intersects_mono {r u t : Range}
    (h : (r.Enlarge u).Intersects t = false) :
    r.Intersects t = false ∧ u.Intersects t = false := by
  simp only [Range.Intersects, Range.Enlarge, Bool.and_eq_false_iff, decide_eq_false_iff_not]
    at h ⊢
  constructor <;> omega

theorem foldl_Enlarge_bounds (pre : List LoadSegmentInfo) :
    ∀ r : Range,
      ((pre.foldl (fun r seg => r.Enlarge seg.mem_range) r).base ≤ r.base ∧
        r.top ≤ (pre.foldl (fun r seg => r.Enlarge seg.mem_range) r).top) ∧
      ∀ s ∈ pre,
        (pre.foldl (fun r seg => r.Enlarge seg.mem_range) r).base ≤ s.mem_range.base ∧
        s.mem_range.top ≤ (pre.foldl (fun r seg => r.Enlarge seg.mem_range) r).top := by
  induction pre with
  | nil => intro r; simp
  | cons a rest ih =>
    intro r
    obtain ⟨⟨h1, h2⟩, h3⟩ := ih (r.Enlarge a.mem_range)
    simp only [List.foldl_cons]
    have e1 : (r.Enlarge a.mem_range).base = min r.base a.mem_range.base := rfl
    have e2 : (r.Enlarge a.mem_range).top = max r.top a.mem_range.top := rfl
    rw [e1] at h1
    rw [e2] at h2
    refine ⟨⟨by omega, by omega⟩, ?_⟩
    intro s hs
    rcases List.mem_cons.mp hs with rfl | hs
    · constructor <;> omega
    · exact h3 s hs

theorem NoOverlapFrom_split (pre : List LoadSegmentInfo) (t : LoadSegmentInfo)
    (post : List LoadSegmentInfo) :
    ∀ r : Range, NoOverlapFrom r (pre ++ t :: post) →
      (pre.foldl (fun r seg => r.Enlarge seg.mem_range) r).Intersects t.mem_range = false := by
  induction pre with
  | nil => intro r h; exact h.1
  | cons a rest ih => intro r h; exact ih _ h.2

theorem NoOverlapFrom_pairwise (l : List LoadSegmentInfo) :
    ∀ r : Range, NoOverlapFrom r l →
      (∀ t ∈ l, r.Intersects t.mem_range = false) ∧
      l.Pairwise (fun s t => s.mem_range.Intersects t.mem_range = false) := by
  induction l with
  | nil => intro r _; simp
  | cons a rest ih =>
    intro r h
    obtain ⟨h1, h2⟩ := ih _ h.2
    refine ⟨?_, List.pairwise_cons.mpr ⟨?_, h2⟩⟩
    · intro t ht
      rcases List.mem_cons.mp ht with rfl | ht
      · exact h.1
      · exact (Range.Enlarge_Intersects_mono (h1 t ht)).1
    · intro t ht
      exact (Range.Enlarge_Intersects_mono (h1 t ht)).2

/-- What a successful `Read` of a freshly constructed object recorded: every program header
of the table was read and every `PT_LOAD` header passed the size checks; the load segments are
those of `PT_LOAD` headers; and each passed the overlap check against the segments before
it. -/
theorem Read_true_segments {fd : ElfFile} {page_size : Nat} {elf : StaticElfExecutable}
    (h : (create fd page_size).Read = some (true, elf)) :
    ∃ ehdr, fd.read_ehdr = some ehdr ∧ elf.ehdr_ = ehdr ∧
      (∀ i < ehdr.e_phnum, ∃ phdr,
        fd.read_phdr (u64 (ehdr.e_phoff + i * sizeof_Elf64_Phdr)) = some phdr ∧
        (phdr.p_type = PT_LOAD → phdr.sizesOk)) ∧
      (∀ seg ∈ elf.load_segments_, ∃ i < ehdr.e_phnum, ∃ phdr,
        fd.read_phdr (u64 (ehdr.e_phoff + i * sizeof_Elf64_Phdr)) = some phdr ∧
        phdr.p_type = PT_LOAD ∧ phdr.sizesOk ∧ seg = segmentInfo page_size phdr) ∧
      NoOverlapFrom Range.kEmpty elf.load_segments_ := by
  obtain ⟨ehdr, s2, s3, -, hread, -, hrph, -, -, hsym, rfl⟩ := Read_true h
  obtain ⟨hl, -, -, hh, -, -⟩ := LoadSymbolTable_frame hsym
  unfold ReadProgramHeaders at hrph
  simp only at hrph
  split at hrph
  · simp at hrph
  · simp only [Option.some.injEq] at hrph
    obtain ⟨-, h2, -, h4, added, h5, h6, h7⟩ := ReadProgramHeaders_loop_spec _ _ _ hrph
    have hadd : s2.load_segments_ = added := by simpa [create] using h5
    refine ⟨ehdr, hread, ?_, ?_, ?_, ?_⟩
    · show s3.ehdr_ = ehdr
      rw [hh, h2]
    · intro i hi
      exact h4 i (List.mem_range.mpr hi)
    · intro seg hseg
      rw [show ({ s3 with initialized_ := true } : StaticElfExecutable).load_segments_
        = s3.load_segments_ from rfl, hl, hadd] at hseg
      obtain ⟨i, hi, phdr, hp⟩ := h6 seg hseg
      exact ⟨i, List.mem_range.mp hi, phdr, hp⟩
    · rw [show ({ s3 with initialized_ := true } : StaticElfExecutable).load_segments_
        = s3.load_segments_ from rfl, hl, hadd]
      exact h7

end StaticElfExecutable

namespace StaticElfExecutable

/-- C11, as stated, fails: the program header table of `swappedFile` lists the data segment
(`p_vaddr = 0x20000`) before the text segment (`p_vaddr = 0x10000`), in decreasing address
order; `Read` succeeds all the same, and the recorded list is not in increasing order: its
first entry ends above the base of the second. -/
theorem Read_accepts_decreasing_order :
    (create Sample.swappedFile 4096).Read = some (true, Sample.elfSwapped) ∧
    (∃ p q, Sample.swappedFile.read_phdr (u64 (64 + 0 * sizeof_Elf64_Phdr)) = some p ∧
      Sample.swappedFile.read_phdr (u64 (64 + 1 * sizeof_Elf64_Phdr)) = some q ∧
      p.p_type = PT_LOAD ∧ q.p_type = PT_LOAD ∧ q.p_vaddr < p.p_vaddr) ∧
    ∃ s t, Sample.elfSwapped.load_segments_ = [s, t] ∧
      ¬ s.mem_range.top ≤ t.mem_range.base :=
  ⟨by rfl, ⟨_, _, by rfl, by rfl, by decide, by decide, by decide⟩,
    _, _, by rfl, by decide⟩

/-- C11, amended: whenever `Read` succeeds on a freshly constructed object, every recorded
load segment lies entirely on one side of all the segments recorded before it: for every entry
`t` of the list, either `s.mem_range.top <= t.mem_range.base` for every earlier entry `s`, or
`t.mem_range.top <= s.mem_range.base` for every earlier entry `s`. -/
theorem Read_segments_one_sided (fd : ElfFile) (page_size : Nat) (elf : StaticElfExecutable)
    (h : (create fd page_size).Read = some (true, elf)) :
    ∀ pre t post, elf.load_segments_ = pre ++ t :: post →
      (∀ s ∈ pre, s.mem_range.top ≤ t.mem_range.base) ∨
      (∀ s ∈ pre, t.mem_range.top ≤ s.mem_range.base) := by
  intro pre t post hsplit
  obtain ⟨-, -, -, -, -, hno⟩ := Read_true_segments h
  rw [hsplit] at hno
  have hint := NoOverlapFrom_split pre t post _ hno
  obtain ⟨-, hb⟩ := foldl_Enlarge_bounds pre Range.kEmpty
  simp only [Range.Intersects, Bool.and_eq_false_iff, decide_eq_false_iff_not] at hint
  rcases hint with hint | hint
  · right
    intro s hs
    have := hb s hs
    omega
  · left
    intro s hs
    have := hb s hs
    omega

/-- Witness for the amended C11: the executable read from `swappedFile`, whose list is the data
segment followed by the text segment; the text segment lies below the data segment. -/
theorem Read_segments_one_sided_witness :
    Sample.elfSwapped.load_segments_ =
      [⟨⟨0x20000, 0x21000⟩, 0x1000, 0x100, 3⟩] ++ ⟨⟨0x10000, 0x11000⟩, 0, 0x1000, 5⟩ :: [] ∧
    ((∀ s ∈ [(⟨⟨0x20000, 0x21000⟩, 0x1000, 0x100, 3⟩ : LoadSegmentInfo)],
        s.mem_range.top ≤ (⟨⟨0x10000, 0x11000⟩, 0, 0x1000, 5⟩ : LoadSegmentInfo).mem_range.base) ∨
      (∀ s ∈ [(⟨⟨0x20000, 0x21000⟩, 0x1000, 0x100, 3⟩ : LoadSegmentInfo)],
        (⟨⟨0x10000, 0x11000⟩, 0, 0x1000, 5⟩ : LoadSegmentInfo).mem_range.top
          ≤ s.mem_range.base)) :=
  ⟨by rfl, Read_segments_one_sided Sample.swappedFile 4096 Sample.elfSwapped (by rfl)
    [⟨⟨0x20000, 0x21000⟩, 0x1000, 0x100, 3⟩] ⟨⟨0x10000, 0x11000⟩, 0, 0x1000, 5⟩ [] (by rfl)⟩

/-- C12: whenever `Read` succeeds on a freshly constructed object, no two distinct entries of
the load-segment list intersect: `Range::Intersects` is false for the memory ranges of every
pair of entries at different positions. -/
theorem Read_segments_disjoint (fd : ElfFile) (page_size : Nat) (elf : StaticElfExecutable)
    (h : (create fd page_size).Read = some (true, elf)) :
    ∀ i j si sj, i ≠ j → elf.load_segments_.get? i = some si →
      elf.load_segments_.get? j = some sj →
      si.mem_range.Intersects sj.mem_range = false := by
  obtain ⟨-, -, -, -, -, hno⟩ := Read_true_segments h
  have hpw := (List.pairwise_iff_getElem.mp (NoOverlapFrom_pairwise _ _ hno).2)
  intro i j si sj hij hi hj
  simp only [List.get?_eq_getElem?] at hi hj
  obtain ⟨hi', rfl⟩ := List.getElem?_eq_some.mp hi
  obtain ⟨hj', rfl⟩ := List.getElem?_eq_some.mp hj
  rcases Nat.lt_or_gt_of_ne hij with hlt | hgt
  · exact hpw i j hi' hj' hlt
  · rw [Mcc.Range.Intersects_comm]
    exact hpw j i hj' hi' hgt

/-- Witness for C12: the first and the third segment of the sample executable `"b"`. -/
theorem Read_segments_disjoint_witness :
    ∃ si sj, Sample.elfB.load_segments_.get? 0 = some si ∧
      Sample.elfB.load_segments_.get? 2 = some sj ∧
      si.mem_range.Intersects sj.mem_range = false :=
  ⟨_, _, by rfl, by rfl,
    Read_segments_disjoint (Sample.file 0x20000000 3) 4096 Sample.elfB (by rfl) 0 2 _ _
      (by decide) (by rfl) (by rfl)⟩

/-- C13: (1) `Read` on a freshly constructed object does not succeed whenever some `PT_LOAD`
header of the program header table has `p_filesz > p_memsz`, or has `p_filesz < p_memsz`
without the `PF_W` flag; (2) hence every recorded load segment of a successfully read
executable was built from a `PT_LOAD` header with `p_filesz <= p_memsz`, and if that header
needs zero-fill (`p_filesz < p_memsz`) the segment is writable (`PROT_WRITE`). -/
theorem Read_checks_segment_sizes (fd : ElfFile) (page_size : Nat) :
    (∀ ehdr i phdr, fd.read_ehdr = some ehdr → i < ehdr.e_phnum →
      fd.read_phdr (u64 (ehdr.e_phoff + i * sizeof_Elf64_Phdr)) = some phdr →
      phdr.p_type = PT_LOAD →
      (phdr.p_filesz > phdr.p_memsz ∨
        (phdr.p_filesz < phdr.p_memsz ∧ phdr.p_flags &&& PF_W = 0)) →
      ∀ elf, (create fd page_size).Read ≠ some (true, elf)) ∧
    (∀ elf, (create fd page_size).Read = some (true, elf) →
      ∀ seg ∈ elf.load_segments_, ∃ i phdr, i < elf.ehdr_.e_phnum ∧
        fd.read_phdr (u64 (elf.ehdr_.e_phoff + i * sizeof_Elf64_Phdr)) = some phdr ∧
        phdr.p_type = PT_LOAD ∧ seg = segmentInfo page_size phdr ∧
        phdr.p_filesz ≤ phdr.p_memsz ∧
        (phdr.p_filesz < phdr.p_memsz → seg.prot &&& PROT_WRITE ≠ 0)) := by
  constructor
  · intro ehdr i phdr hehdr hi hread hty hbad elf h
    obtain ⟨ehdr', hehdr', -, hall, -, -⟩ := Read_true_segments h
    rw [hehdr] at hehdr'
    cases hehdr'
    obtain ⟨phdr', hread', hok⟩ := hall i hi
    rw [hread] at hread'
    cases hread'
    obtain ⟨h1, h2⟩ := hok hty
    rcases hbad with hbad | ⟨hlt, hw⟩
    · omega
    · exact h2 hlt hw
  · intro elf h seg hseg
    obtain ⟨ehdr, -, hehdr, -, hsegs, -⟩ := Read_true_segments h
    obtain ⟨i, hi, phdr, hread, hty, ⟨h1, h2⟩, rfl⟩ := hsegs seg hseg
    refine ⟨i, phdr, by rw [hehdr]; exact hi, by rw [hehdr]; exact hread, hty, rfl, h1, ?_⟩
    intro hlt
    have hw := h2 hlt
    simp only [segmentInfo, PROT_READ, PROT_WRITE, PROT_EXEC]
    by_cases hr : phdr.p_flags &&& PF_R ≠ 0 <;> by_cases hx : phdr.p_flags &&& PF_X ≠ 0 <;>
      simp [hr, hw, hx]

/-- Witness for C13: `Read` refuses `readOnlyDataFile`, whose second header needs zero-fill
and lacks `PF_W`; and the data segment of the sample executable `"a"`, which needs zero-fill,
is writable. -/
theorem Read_checks_segment_sizes_witness :
    (∀ elf, (create Sample.readOnlyDataFile 4096).Read ≠ some (true, elf)) ∧
    (∀ seg ∈ Sample.elfA.load_segments_, ∃ i phdr, i < Sample.elfA.ehdr_.e_phnum ∧
        (Sample.file 0x10000 2).read_phdr
          (u64 (Sample.elfA.ehdr_.e_phoff + i * sizeof_Elf64_Phdr)) = some phdr ∧
        phdr.p_type = PT_LOAD ∧ seg = segmentInfo 4096 phdr ∧
        phdr.p_filesz ≤ phdr.p_memsz ∧
        (phdr.p_filesz < phdr.p_memsz → seg.prot &&& PROT_WRITE ≠ 0)) :=
  ⟨(Read_checks_segment_sizes Sample.readOnlyDataFile 4096).1 (Sample.ehdr 0x10000 2) 1
      ⟨PT_LOAD, PF_R, 0x1000, 0x20000, 0x20000, 0x100, 0x1000, 0x1000⟩
      (by rfl) (by decide) (by rfl) (by rfl) (Or.inr (by decide)),
   (Read_checks_segment_sizes (Sample.file 0x10000 2) 4096).2 Sample.elfA (by rfl)⟩

end StaticElfExecutable

/-! ## Symbol lookup -/

theorem strncmp_eq_zero_iff (n : Nat) :
    ∀ a b : List Nat, strncmp a b n = 0 ↔
      (a.takeWhile (fun c => c ≠ 0)).take n = (b.takeWhile (fun c => c ≠ 0)).take n := by
  induction n with
  | zero => intro a b; simp [strncmp]
  | succ n ih =>
    intro a b
    rcases a with _ | ⟨x, xs⟩ <;> rcases b with _ | ⟨y, ys⟩
    · simp [strncmp]
    · by_cases hy : y = 0
      · simp [strncmp, hy]
      · simp [strncmp, hy, List.takeWhile_cons, Ne.symm hy]
    · by_cases hx : x = 0
      · simp [strncmp, hx]
      · simp [strncmp, hx, List.takeWhile_cons]
    · by_cases hxy : x = y
      · subst hxy
        by_cases hx : x = 0
        · simp [strncmp, hx]
        · simp [strncmp, hx, List.takeWhile_cons, ih]
      · by_cases hx : x = 0
        · have hy : y ≠ 0 := fun h => hxy (by rw [hx, h])
          simp [strncmp, hxy, hx, hy, List.takeWhile_cons, Ne.symm hy]
        · by_cases hy : y = 0
          · simp [strncmp, hxy, hx, hy, List.takeWhile_cons]
          · simp [strncmp, hxy, hx, hy, List.takeWhile_cons]
            omega

namespace StaticElfExecutable

theorem FindSymbol_segments_spec (sym : Elf64_Sym) (prot : Nat) (segs : List LoadSegmentInfo)
    (a : Nat) (h : FindSymbol.segments sym prot segs = a) (ha : a ≠ 0) :
    a = sym.st_value ∧ ∃ seg ∈ segs,
      seg.mem_range.Contains ⟨sym.st_value, u64 (sym.st_value + sym.st_size)⟩ = true ∧
      seg.prot &&& prot = prot := by
  induction segs with
  | nil => simp only [FindSymbol.segments] at h; exact absurd h.symm ha
  | cons seg rest ih =>
    simp only [FindSymbol.segments] at h
    split at h
    · obtain ⟨h1, t, ht, h2⟩ := ih h
      exact ⟨h1, t, List.mem_cons_of_mem _ ht, h2⟩
    · rename_i hc
      split at h
      · rename_i hp
        exact ⟨h.symm, seg, List.mem_cons_self _ _, by simpa using hc, hp⟩
      · exact absurd h.symm ha

theorem FindSymbol_loop_spec (s : StaticElfExecutable) (name : List Nat) (size prot : Nat)
    (is : List Nat) (a : Nat) (h : FindSymbol.loop s name size prot is = some a)
    (ha : a ≠ 0) :
    ∃ i ∈ is, ∃ sym, s.symtab_.get? i = some sym ∧
      (sym.st_info &&& 0xf = STT_OBJECT ∨ sym.st_info &&& 0xf = STT_FUNC) ∧
      sym.st_name < s.strtab_size_ ∧
      strncmp (s.strtab_.drop sym.st_name) name (s.strtab_size_ - sym.st_name) = 0 ∧
      (size = 0 ∨ sym.st_size = size) ∧
      FindSymbol.segments sym prot s.load_segments_ = a := by
  induction is with
  | nil =>
    simp only [FindSymbol.loop, Option.some.injEq] at h
    exact absurd h.symm ha
  | cons i rest ih =>
    simp only [FindSymbol.loop] at h
    split at h
    · simp at h
    · rename_i sym hget
      split at h
      · obtain ⟨j, hj, r⟩ := ih h
        exact ⟨j, List.mem_cons_of_mem _ hj, r⟩
      · rename_i hty
        split at h
        · obtain ⟨j, hj, r⟩ := ih h
          exact ⟨j, List.mem_cons_of_mem _ hj, r⟩
        · rename_i hname
          split at h
          · obtain ⟨j, hj, r⟩ := ih h
            exact ⟨j, List.mem_cons_of_mem _ hj, r⟩
          · rename_i hcmp
            split at h
            · rename_i hsize
              simp only [Option.some.injEq] at h
              exact ⟨i, List.mem_cons_self _ _, sym, hget, Decidable.not_not.mp hty, by omega,
                by simpa using hcmp, hsize, h⟩
            · simp only [Option.some.injEq] at h
              exact absurd h.symm ha

/-- What a non-null result of `FindSymbol` rests on: the symbol table entry that matched and
the load segment that passed the containment and protection tests. -/
theorem FindSymbol_spec (s : StaticElfExecutable) (name : List Nat) (size prot a : Nat)
    (h : s.FindSymbol name size prot = some a) (ha : a ≠ 0) :
    ∃ i sym seg, s.symtab_global_index_ ≤ i ∧ i < s.symtab_num_ ∧
      s.symtab_.get? i = some sym ∧
      (sym.st_info &&& 0xf = STT_OBJECT ∨ sym.st_info &&& 0xf = STT_FUNC) ∧
      sym.st_name < s.strtab_size_ ∧
      strncmp (s.strtab_.drop sym.st_name) name (s.strtab_size_ - sym.st_name) = 0 ∧
      (size = 0 ∨ sym.st_size = size) ∧ sym.st_value = a ∧
      seg ∈ s.load_segments_ ∧
      seg.mem_range.Contains ⟨sym.st_value, u64 (sym.st_value + sym.st_size)⟩ = true ∧
      seg.prot &&& prot = prot := by
  unfold FindSymbol at h
  split at h
  · simp only [Option.some.injEq] at h
    exact absurd h.symm ha
  · obtain ⟨i, hi, sym, hget, hty, hname, hcmp, hsize, hseg⟩ :=
      FindSymbol_loop_spec s name size prot _ a h ha
    obtain ⟨hval, seg, hmem, hcont, hprot⟩ := FindSymbol_segments_spec sym prot _ a hseg ha
    rw [List.mem_range'_1] at hi
    exact ⟨i, sym, seg, hi.1, by omega, hget, hty, hname, hcmp, hsize, hval.symm, hmem,
      hcont, hprot⟩

end StaticElfExecutable

namespace StaticElfExecutable

/-- C14 fails on the code: `FindSymbol` tests `Range::Contains` on the range
`[st_value, st_value + st_size)`, which for a symbol of size 0 also holds when `st_value` is
the top of the segment. In `edgeSymbolFile` the function symbol `__compartment_entry` has size
0 and value 0x11000, the first address after the text segment `[0x10000, 0x11000)`:
`FindSymbol(name, 0, PROT_EXEC)` returns 0x11000, which lies in no load segment. -/
theorem FindSymbol_returns_segment_top :
    (create Sample.edgeSymbolFile 4096).Read = some (true, Sample.elfEdge) ∧
    Sample.elfEdge.FindSymbol COMPARTMENT_ENTRY_SYMBOL 0 PROT_EXEC = some 0x11000 ∧
    (∃ seg ∈ Sample.elfEdge.load_segments_, seg.mem_range = ⟨0x10000, 0x11000⟩ ∧
      seg.prot &&& PROT_EXEC = PROT_EXEC) ∧
    ¬ ∃ seg ∈ Sample.elfEdge.load_segments_,
      seg.mem_range.base ≤ 0x11000 ∧ 0x11000 < seg.mem_range.top :=
  ⟨by rfl, by rfl, by decide, by decide⟩

/-- C15 fails on the code: in `truncatedStrtabFile` the string table ends right after the
bytes of `__compartment_mmap_range_top`, without a NUL; `FindSymbol` compares at most
`strtab_size_ - st_name` bytes, so a lookup of the longer name
`__compartment_mmap_range_top_v2` returns that symbol's address, although no entry of the
symbol table has that name. -/
theorem FindSymbol_accepts_longer_name :
    (create Sample.truncatedStrtabFile 4096).Read = some (true, Sample.elfTruncated) ∧
    Sample.elfTruncated.FindSymbol (COMPARTMENT_MMAP_RANGE_TOP_SYMBOL ++ cstr "_v2")
      sizeof_ptraddr_t (PROT_READ ||| PROT_WRITE) = some 0x20028 ∧
    ∀ sym ∈ Sample.elfTruncated.symtab_,
      Sample.elfTruncated.symbolName sym ≠ COMPARTMENT_MMAP_RANGE_TOP_SYMBOL ++ cstr "_v2" :=
  ⟨by rfl, by rfl, by decide⟩

/-- The symbol table entry behind a non-null result of `FindSymbol(name, size, prot)`: its
index is at or after the first non-local index and below `symtab_num_`, its type is
`STT_OBJECT` or `STT_FUNC`, its string-table name equals the first `strtab_size_ - st_name`
bytes of `name` (hence `name` itself when the table's string ends with a NUL inside the
table), its `st_size` equals `size` when `size` is non-zero, and its `st_value` is the
result. -/
theorem FindSymbol_entry (s : StaticElfExecutable) (name : List Nat) (size prot a : Nat)
    (h : s.FindSymbol name size prot = some a) (ha : a ≠ 0) :
    ∃ i sym, s.symtab_global_index_ ≤ i ∧ i < s.symtab_num_ ∧
      s.symtab_.get? i = some sym ∧
      (sym.st_info &&& 0xf = STT_OBJECT ∨ sym.st_info &&& 0xf = STT_FUNC) ∧
      s.symbolName sym =
        (name.takeWhile (fun c => c ≠ 0)).take (s.strtab_size_ - sym.st_name) ∧
      ((s.symbolName sym).length < s.strtab_size_ - sym.st_name →
        s.symbolName sym = name.takeWhile (fun c => c ≠ 0)) ∧
      (size ≠ 0 → sym.st_size = size) ∧ sym.st_value = a := by
  obtain ⟨i, sym, seg, h1, h2, h3, h4, -, h6, h7, h8, -, -, -⟩ :=
    FindSymbol_spec s name size prot a h ha
  have hname : s.symbolName sym =
      (name.takeWhile (fun c => c ≠ 0)).take (s.strtab_size_ - sym.st_name) := by
    unfold symbolName
    rw [← List.take_takeWhile]
    exact (strncmp_eq_zero_iff _ _ _).mp h6
  refine ⟨i, sym, h1, h2, h3, h4, hname, ?_, ?_, h8⟩
  · intro hlen
    rw [hname] at hlen ⊢
    rw [List.length_take] at hlen
    exact List.take_of_length_le (by omega)
  · intro hs
    rcases h7 with h7 | h7
    · exact absurd h7 hs
    · exact h7

/-- C16 fails on the code: `symtab_num_` is a 32-bit `Elf64_Word` that receives the 64-bit
quotient `sh_size / sizeof(Elf64_Sym)`. The symbol table section of `hugeSymtabFile` passes
every check of `LoadSymbolTable` (`0 < sh_link < e_shnum`, `sh_size` a non-zero multiple of
`sizeof(Elf64_Sym)`, `sh_info * sizeof(Elf64_Sym) < sh_size`, linked section of type
`SHT_STRTAB`) with `sh_size = 2 ^ 32 * sizeof(Elf64_Sym)` and `sh_info = 1`; `Read` succeeds
with `symtab_num_ = 0` and `symtab_global_index_ = 1`. -/
theorem Read_truncates_symtab_num :
    (create Sample.hugeSymtabFile 4096).Read = some (true, Sample.elfHuge) ∧
    (∃ symtabhdr strtabhdr,
      Sample.hugeSymtabFile.read_shdr (u64 (0x3000 + (3 - 1 - 0) * sizeof_Elf64_Shdr))
        = some symtabhdr ∧
      symtabhdr.sh_type = SHT_SYMTAB ∧
      0 < symtabhdr.sh_link ∧ symtabhdr.sh_link < 3 ∧
      symtabhdr.sh_size ≠ 0 ∧ symtabhdr.sh_size % sizeof_Elf64_Sym = 0 ∧
      symtabhdr.sh_info * sizeof_Elf64_Sym < symtabhdr.sh_size ∧
      Sample.hugeSymtabFile.read_shdr (u64 (0x3000 + symtabhdr.sh_link * sizeof_Elf64_Shdr))
        = some strtabhdr ∧
      strtabhdr.sh_type = SHT_STRTAB) ∧
    Sample.elfHuge.symtab_global_index_ = 1 ∧ Sample.elfHuge.symtab_num_ = 0 ∧
    ¬ Sample.elfHuge.symtab_global_index_ < Sample.elfHuge.symtab_num_ :=
  ⟨by rfl, ⟨_, _, by rfl, by decide, by decide, by decide, by decide, by decide, by decide,
    by rfl, by decide⟩, by rfl, by rfl, by decide⟩

end StaticElfExecutable

/-! ## `SetupMappings`: size check and layout -/

theorem sub64_of_le {a b : Nat} (ha : a < 2 ^ 64) (hb : b ≤ a) : sub64 a b = a - b := by
  unfold sub64 u64
  have h64 : (2 : Nat) ^ 64 = 18446744073709551616 := by norm_num
  rw [h64] at ha ⊢
  omega

/-- Outcome of `SetupMappings` when the freedom check or the size check fails: false, with no
operation issued. -/
theorem SetupMappings_rejected {host : Host} {m : Manager} {elf : StaticElfExecutable}
    {memory_range_length : Nat} (stack_size : Nat)
    (h : IsRangeFree m.cm_lowest_address m.cm_compartments
          ⟨elf.total_range.base, u64 (elf.total_range.base + memory_range_length)⟩ = false ∨
        u64 (elf.total_range.Size + kCompartmentStackSize + 2 * host.page_size)
          > memory_range_length) :
    (SetupMappings host m elf memory_range_length stack_size).ok = false ∧
    (SetupMappings host m elf memory_range_length stack_size).events = [] := by
  unfold SetupMappings
  simp only
  by_cases hfree : IsRangeFree m.cm_lowest_address m.cm_compartments
      ⟨elf.total_range.base, u64 (elf.total_range.base + memory_range_length)⟩ = true
  · rcases h with h | h
    · rw [h] at hfree; cases hfree
    · simp [hfree, h]
  · simp [hfree]

/-- Outcome of `SetupMappings` when both checks pass: the reservation is the first operation
issued. -/
theorem SetupMappings_reserves {host : Host} {m : Manager} {elf : StaticElfExecutable}
    {memory_range_length : Nat} (stack_size : Nat)
    (hfree : IsRangeFree m.cm_lowest_address m.cm_compartments
      ⟨elf.total_range.base, u64 (elf.total_range.base + memory_range_length)⟩ = true)
    (hsize : u64 (elf.total_range.Size + kCompartmentStackSize + 2 * host.page_size)
      ≤ memory_range_length) :
    ∃ rest, (SetupMappings host m elf memory_range_length stack_size).events =
      Event.mmap ⟨elf.total_range.base, memory_range_length, PROT_NONE,
        MAP_PRIVATE ||| MAP_ANONYMOUS ||| MAP_FIXED, false, 0⟩ :: rest := by
  unfold SetupMappings
  simp only [hfree, Bool.not_true, Bool.false_eq_true, if_false]
  rw [if_neg (by omega)]
  split
  · exact ⟨[], rfl⟩
  · split
    · exact ⟨_, rfl⟩
    · exact ⟨_, rfl⟩
    · split
      · exact ⟨_, rfl⟩
      · exact ⟨_, rfl⟩

/-- C17: given that the freedom check passes, `SetupMappings` rejects the request at the size
check (returns false without having issued any operation) if and only if
`total_range.Size() + kCompartmentStackSize + 2 * page_size`, computed in 64-bit unsigned
arithmetic, exceeds `memory_range_length`; when the sum does not wrap this is the plain
inequality; and a length exactly equal to the sum passes the check (the reservation is
issued). -/
theorem SetupMappings_size_check (host : Host) (m : Manager) (elf : StaticElfExecutable)
    (memory_range_length stack_size : Nat)
    (hfree : IsRangeFree m.cm_lowest_address m.cm_compartments
      ⟨elf.total_range.base, u64 (elf.total_range.base + memory_range_length)⟩ = true) :
    (((SetupMappings host m elf memory_range_length stack_size).ok = false ∧
        (SetupMappings host m elf memory_range_length stack_size).events = []) ↔
      u64 (elf.total_range.Size + kCompartmentStackSize + 2 * host.page_size)
        > memory_range_length) ∧
    (elf.total_range.Size + kCompartmentStackSize + 2 * host.page_size < 2 ^ 64 →
      (((SetupMappings host m elf memory_range_length stack_size).ok = false ∧
          (SetupMappings host m elf memory_range_length stack_size).events = []) ↔
        elf.total_range.Size + kCompartmentStackSize + 2 * host.page_size
          > memory_range_length)) ∧
    (memory_range_length
        = elf.total_range.Size + kCompartmentStackSize + 2 * host.page_size →
      ∃ rest, (SetupMappings host m elf memory_range_length stack_size).events =
        Event.mmap ⟨elf.total_range.base, memory_range_length, PROT_NONE,
          MAP_PRIVATE ||| MAP_ANONYMOUS ||| MAP_FIXED, false, 0⟩ :: rest) := by
  have hiff : ((SetupMappings host m elf memory_range_length stack_size).ok = false ∧
        (SetupMappings host m elf memory_range_length stack_size).events = []) ↔
      u64 (elf.total_range.Size + kCompartmentStackSize + 2 * host.page_size)
        > memory_range_length := by
    constructor
    · rintro ⟨-, hev⟩
      by_contra hle
      obtain ⟨rest, hrest⟩ := SetupMappings_reserves stack_size hfree
        (Nat.le_of_not_gt hle)
      rw [hrest] at hev
      cases hev
    · intro hgt
      exact SetupMappings_rejected stack_size (Or.inr hgt)
  refine ⟨hiff, ?_, ?_⟩
  · intro hnowrap
    rw [hiff, u64_of_lt hnowrap]
  · intro heq
    apply SetupMappings_reserves stack_size hfree
    rw [heq]
    exact Nat.mod_le _ _

/-- Witness for C17: the sample executable `"a"` on the sample host, before any compartment is
added. -/
theorem SetupMappings_size_check_witness :
    (((SetupMappings (Sample.host (Sample.run_below 512)) Sample.manager0 Sample.elfA
          kCompartmentMemoryRangeLength kCompartmentStackSize).ok = false ∧
        (SetupMappings (Sample.host (Sample.run_below 512)) Sample.manager0 Sample.elfA
          kCompartmentMemoryRangeLength kCompartmentStackSize).events = []) ↔
      u64 (Sample.elfA.total_range.Size + kCompartmentStackSize +
          2 * (Sample.host (Sample.run_below 512)).page_size)
        > kCompartmentMemoryRangeLength) ∧
    (Sample.elfA.total_range.Size + kCompartmentStackSize +
        2 * (Sample.host (Sample.run_below 512)).page_size < 2 ^ 64 →
      (((SetupMappings (Sample.host (Sample.run_below 512)) Sample.manager0 Sample.elfA
            kCompartmentMemoryRangeLength kCompartmentStackSize).ok = false ∧
          (SetupMappings (Sample.host (Sample.run_below 512)) Sample.manager0 Sample.elfA
            kCompartmentMemoryRangeLength kCompartmentStackSize).events = []) ↔
        Sample.elfA.total_range.Size + kCompartmentStackSize +
            2 * (Sample.host (Sample.run_below 512)).page_size
          > kCompartmentMemoryRangeLength)) ∧
    (kCompartmentMemoryRangeLength
        = Sample.elfA.total_range.Size + kCompartmentStackSize +
            2 * (Sample.host (Sample.run_below 512)).page_size →
      ∃ rest, (SetupMappings (Sample.host (Sample.run_below 512)) Sample.manager0 Sample.elfA
          kCompartmentMemoryRangeLength kCompartmentStackSize).events =
        Event.mmap ⟨Sample.elfA.total_range.base, kCompartmentMemoryRangeLength, PROT_NONE,
          MAP_PRIVATE ||| MAP_ANONYMOUS ||| MAP_FIXED, false, 0⟩ :: rest) :=
  SetupMappings_size_check (Sample.host (Sample.run_below 512)) Sample.manager0 Sample.elfA
    kCompartmentMemoryRangeLength kCompartmentStackSize (by decide)

theorem SetupMappings_ok_layout {host : Host} {m : Manager} {elf : StaticElfExecutable}
    {memory_range_length stack_size : Nat}
    (h : (SetupMappings host m elf memory_range_length stack_size).ok = true) :
    (∃ evs, (SetupMappings host m elf memory_range_length stack_size).events = evs ++
      [Event.mmap ⟨sub64 (sub64 (u64 (elf.total_range.base + memory_range_length)) stack_size)
          host.page_size, stack_size, PROT_READ ||| PROT_WRITE,
        MAP_PRIVATE ||| MAP_ANONYMOUS ||| MAP_STACK ||| MAP_FIXED, false, 0⟩]) ∧
    (SetupMappings host m elf memory_range_length stack_size).mmap_range =
      ⟨elf.total_range.top,
        sub64 (sub64 (sub64 (u64 (elf.total_range.base + memory_range_length)) stack_size)
          host.page_size) host.page_size⟩ := by
  unfold SetupMappings at h ⊢
  simp only at h ⊢
  split at h
  · simp at h
  · rename_i hfree
    split at h
    · simp at h
    · rename_i hsize
      split at h
      · simp at h
      · rename_i hres
        split at h
        · simp at h
        · simp at h
        · rename_i evs hmap
          split at h
          · simp at h
          · rename_i hstack
            simp only [hfree, hsize, hres, hmap, hstack]
            exact ⟨⟨_ :: evs, rfl⟩, rfl⟩

/-- C18: when `SetupMappings` succeeds for an executable that `Read` accepted, with
`stack_size = kCompartmentStackSize = S`, page size `P`, reserved range `[b, b + len)`, and no
64-bit computation wrapping: the last operation issued maps the stack at
`[b + len - P - S, b + len - P)`, the reported stack top is `b + len - P`, the arena is
`[total_range.top, b + len - 2P - S)` with base at or below top, and arena, guard page, stack
and guard page follow one another exactly from `total_range.top` to `b + len`. -/
theorem SetupMappings_layout (host : Host) (m : Manager) (fd : ElfFile) (page_size : Nat)
    (elf : StaticElfExecutable) (memory_range_length : Nat)
    (hread : (StaticElfExecutable.create fd page_size).Read = some (true, elf))
    (hok : (SetupMappings host m elf memory_range_length kCompartmentStackSize).ok = true)
    (hnowrap : elf.total_range.base + memory_range_length < 2 ^ 64)
    (hsum : elf.total_range.Size + kCompartmentStackSize + 2 * host.page_size < 2 ^ 64) :
    (∃ evs, (SetupMappings host m elf memory_range_length kCompartmentStackSize).events =
      evs ++ [Event.mmap
        ⟨elf.total_range.base + memory_range_length - host.page_size - kCompartmentStackSize,
          kCompartmentStackSize, PROT_READ ||| PROT_WRITE,
          MAP_PRIVATE ||| MAP_ANONYMOUS ||| MAP_STACK ||| MAP_FIXED, false, 0⟩]) ∧
    (SetupMappings host m elf memory_range_length kCompartmentStackSize).stack_top =
      elf.total_range.base + memory_range_length - host.page_size ∧
    (SetupMappings host m elf memory_range_length kCompartmentStackSize).mmap_range =
      ⟨elf.total_range.top,
        elf.total_range.base + memory_range_length - 2 * host.page_size
          - kCompartmentStackSize⟩ ∧
    elf.total_range.top ≤
      elf.total_range.base + memory_range_length - 2 * host.page_size
        - kCompartmentStackSize ∧
    (elf.total_range.base + memory_range_length - 2 * host.page_size - kCompartmentStackSize)
        + host.page_size
      = elf.total_range.base + memory_range_length - host.page_size - kCompartmentStackSize ∧
    (elf.total_range.base + memory_range_length - host.page_size - kCompartmentStackSize)
        + kCompartmentStackSize
      = elf.total_range.base + memory_range_length - host.page_size ∧
    (elf.total_range.base + memory_range_length - host.page_size) + host.page_size
      = elf.total_range.base + memory_range_length := by
  obtain ⟨⟨-, hsub, -⟩, hsize, -, -⟩ := StaticElfExecutable.Read_true_inv hread rfl
  obtain ⟨-, hreq, -, htop⟩ := SetupMappings_ok hok
  obtain ⟨⟨evs, hevs⟩, hrange⟩ := SetupMappings_ok_layout hok
  rw [u64_of_lt hsum] at hreq
  have hlt := (Range.Size_pos_iff _).mp hsize
  rw [Range.Contains_iff] at hsub
  have ht : elf.total_range_.base < elf.total_range_.top := by omega
  have ht' := Range.base_add_Size ht
  simp only [StaticElfExecutable.total_range] at *
  have h1 : u64 (elf.total_range_.base + memory_range_length)
      = elf.total_range_.base + memory_range_length := u64_of_lt hnowrap
  have h2 : sub64 (elf.total_range_.base + memory_range_length) kCompartmentStackSize
      = elf.total_range_.base + memory_range_length - kCompartmentStackSize :=
    sub64_of_le hnowrap (by omega)
  have h3 : sub64 (elf.total_range_.base + memory_range_length - kCompartmentStackSize)
      host.page_size
      = elf.total_range_.base + memory_range_length - kCompartmentStackSize - host.page_size :=
    sub64_of_le (by omega) (by omega)
  have h4 : sub64 (elf.total_range_.base + memory_range_length - kCompartmentStackSize
      - host.page_size) host.page_size
      = elf.total_range_.base + memory_range_length - kCompartmentStackSize - host.page_size
        - host.page_size :=
    sub64_of_le (by omega) (by omega)
  have e1 : elf.total_range_.base + memory_range_length - kCompartmentStackSize
      - host.page_size
      = elf.total_range_.base + memory_range_length - host.page_size
        - kCompartmentStackSize := by omega
  refine ⟨⟨evs, ?_⟩, ?_, ?_, by omega, by omega, by omega, by omega⟩
  · rw [hevs, h1, h2, h3, e1]
  · rw [htop, h1, h2, h3]
    have : elf.total_range_.base + memory_range_length - kCompartmentStackSize
        - host.page_size + kCompartmentStackSize
        = elf.total_range_.base + memory_range_length - host.page_size := by omega
    rw [this]
    exact u64_of_lt (by omega)
  · rw [hrange, h1, h2, h3, h4]
    simp only [Range.mk.injEq, true_and]
    omega

/-- Witness for C18: the sample executable `"a"` on the sample host. -/
theorem SetupMappings_layout_witness :
    (SetupMappings (Sample.host (Sample.run_below 512)) Sample.manager0 Sample.elfA
        kCompartmentMemoryRangeLength kCompartmentStackSize).stack_top = 0x1000F000 ∧
    (SetupMappings (Sample.host (Sample.run_below 512)) Sample.manager0 Sample.elfA
        kCompartmentMemoryRangeLength kCompartmentStackSize).mmap_range
      = ⟨0x21000, 0xFF0E000⟩ ∧
    (∃ evs, (SetupMappings (Sample.host (Sample.run_below 512)) Sample.manager0 Sample.elfA
        kCompartmentMemoryRangeLength kCompartmentStackSize).events =
      evs ++ [Event.mmap
        ⟨Sample.elfA.total_range.base + kCompartmentMemoryRangeLength
            - (Sample.host (Sample.run_below 512)).page_size - kCompartmentStackSize,
          kCompartmentStackSize, PROT_READ ||| PROT_WRITE,
          MAP_PRIVATE ||| MAP_ANONYMOUS ||| MAP_STACK ||| MAP_FIXED, false, 0⟩]) :=
  have h := SetupMappings_layout (Sample.host (Sample.run_below 512)) Sample.manager0
    (Sample.file 0x10000 2) 4096 Sample.elfA kCompartmentMemoryRangeLength (by rfl) (by rfl)
    (by have e : Sample.elfA.total_range.base = 0x10000 := by rfl
        rw [e]; decide)
    (by have e : Sample.elfA.total_range.Size = 0x11000 := by rfl
        rw [e]; decide)
  ⟨h.2.1, h.2.2.1, h.1⟩

theorem CompartmentAdd_setup_rejected {host : Host} {m : Manager} {id : Nat} {path : List Nat}
    {args : List (List Nat)} {memory_range_length : Nat} {elf : StaticElfExecutable}
    {entry_point_sym cm_call_cap_sym cm_return_cap_sym mmap_range_base_sym
      mmap_range_top_sym : Nat}
    (hok : (SetupMappings host m elf memory_range_length kCompartmentStackSize).ok = false)
    (hev : (SetupMappings host m elf memory_range_length kCompartmentStackSize).events = []) :
    CompartmentAdd.setup host m id path args memory_range_length elf entry_point_sym
      cm_call_cap_sym cm_return_cap_sym mmap_range_base_sym mmap_range_top_sym
      = .error m.trace := by
  unfold CompartmentAdd.setup
  simp only [hok, hev, Bool.not_false, if_true, List.append_nil]

/-- C19: when the requested range intersects the range of an already-added compartment, or
fails the freedom check for another reason, or fails the size check, `SetupMappings` returns
false without having issued any operation, and `CompartmentAdd` terminates with exactly the
operations that had been issued before the call: no reservation, ELF-segment or stack mapping
(and nothing else) was issued. -/
theorem CompartmentAdd_rejects_before_mapping (host : Host) (m : Manager) (id : Nat)
    (path : List Nat) (args : List (List Nat)) (memory_range_length : Nat) (fd : ElfFile)
    (elf : StaticElfExecutable)
    (hopen : host.open_file path = some fd)
    (hread : (StaticElfExecutable.create fd host.page_size).Read = some (true, elf))
    (hfail :
      (∃ comp ∈ m.cm_compartments, archcap_c_tag_get comp.entry_point = true ∧
        (Range.mk (archcap_c_base_get comp.ddc) (archcap_c_limit_get comp.ddc)).Intersects
          ⟨elf.total_range.base, u64 (elf.total_range.base + memory_range_length)⟩ = true) ∨
      IsRangeFree m.cm_lowest_address m.cm_compartments
        ⟨elf.total_range.base, u64 (elf.total_range.base + memory_range_length)⟩ = false ∨
      u64 (elf.total_range.Size + kCompartmentStackSize + 2 * host.page_size)
        > memory_range_length) :
    (SetupMappings host m elf memory_range_length kCompartmentStackSize).ok = false ∧
    (SetupMappings host m elf memory_range_length kCompartmentStackSize).events = [] ∧
    CompartmentAdd host m id path args memory_range_length = .error m.trace := by
  have hfail' : IsRangeFree m.cm_lowest_address m.cm_compartments
        ⟨elf.total_range.base, u64 (elf.total_range.base + memory_range_length)⟩ = false ∨
      u64 (elf.total_range.Size + kCompartmentStackSize + 2 * host.page_size)
        > memory_range_length := by
    rcases hfail with ⟨comp, hmem, htag, hint⟩ | h | h
    · left
      cases hfree : IsRangeFree m.cm_lowest_address m.cm_compartments
        ⟨elf.total_range.base, u64 (elf.total_range.base + memory_range_length)⟩
      · rfl
      · have := (IsRangeFree_true hfree).2 comp hmem htag
        rw [show comp.range = Range.mk (archcap_c_base_get comp.ddc)
          (archcap_c_limit_get comp.ddc) from rfl, hint] at this
        cases this
    · exact Or.inl h
    · exact Or.inr h
  obtain ⟨hok, hev⟩ := SetupMappings_rejected kCompartmentStackSize hfail'
  refine ⟨hok, hev, ?_⟩
  unfold CompartmentAdd
  simp only [hopen, hread]
  split
  · rfl
  · split
    · rfl
    · split
      · rfl
      · split
        · rfl
        · split
          · rfl
          · split
            · rfl
            · exact CompartmentAdd_setup_rejected hok hev

/-- Witness for C19: on the sample host, after `"a"` was added as compartment 0, adding `"a"`
again as compartment 1 requests the range compartment 0 holds; the call terminates with the
operations of the first call only. -/
theorem CompartmentAdd_rejects_before_mapping_witness :
    (SetupMappings (Sample.host (Sample.run_below 512)) (Sample.manager1 (Sample.run_below 512))
      Sample.elfA kCompartmentMemoryRangeLength kCompartmentStackSize).ok = false ∧
    (SetupMappings (Sample.host (Sample.run_below 512)) (Sample.manager1 (Sample.run_below 512))
      Sample.elfA kCompartmentMemoryRangeLength kCompartmentStackSize).events = [] ∧
    Sample.clash (Sample.run_below 512)
      = .error (Sample.manager1 (Sample.run_below 512)).trace :=
  CompartmentAdd_rejects_before_mapping (Sample.host (Sample.run_below 512))
    (Sample.manager1 (Sample.run_below 512)) 1 [0x61] [] kCompartmentMemoryRangeLength
    (Sample.file 0x10000 2) Sample.elfA (by rfl) (by rfl)
    (Or.inl ⟨_, List.get?_mem
      (by rfl : (Sample.manager1 (Sample.run_below 512)).cm_compartments.get? 0 = some _),
      by rfl, by rfl⟩)

/-! ## `SetupCompartmentStack`: alignment of the final stack pointer -/

theorem sub64_add_mod16 (x n : Nat) : (sub64 x n + n) % 16 = x % 16 := by
  unfold sub64 u64
  have h64 : (2 : Nat) ^ 64 = 18446744073709551616 := by norm_num
  rw [h64]
  omega

theorem le64_length (v : Nat) : (le64 v).length = 8 := by
  simp [le64]

theorem push_accepted (lower_limit : Nat) (b : StackBuilder) (src : List Nat)
    (h : (b.push lower_limit src).overflow = false) :
    b.overflow = false ∧ ((b.push lower_limit src).sp + src.length) % 16 = b.sp % 16 := by
  unfold StackBuilder.push at h ⊢
  split
  · rename_i hlt
    rw [if_pos hlt] at h
    cases h
  · rename_i hlt
    rw [if_neg hlt] at h
    exact ⟨h, sub64_add_mod16 _ _⟩

theorem set_auxval_accepted (lower_limit : Nat) (b : StackBuilder) (type val : Nat)
    (h : (b.set_auxval lower_limit type val).overflow = false) :
    b.overflow = false ∧ ((b.set_auxval lower_limit type val).sp + 16) % 16 = b.sp % 16 := by
  have := push_accepted lower_limit b (le64 type ++ le64 val) h
  simpa [StackBuilder.set_auxval, le64_length] using this

theorem push_words_accepted (lower_limit : Nat) (ws : List Nat) :
    ∀ b : StackBuilder, (StackBuilder.push_words lower_limit ws b).overflow = false →
      b.overflow = false ∧
      ((StackBuilder.push_words lower_limit ws b).sp + 8 * ws.length) % 16 = b.sp % 16 := by
  induction ws with
  | nil => intro b h; exact ⟨h, by simp [StackBuilder.push_words]⟩
  | cons w rest ih =>
    intro b h
    simp only [StackBuilder.push_words] at h ⊢
    obtain ⟨h1, h2⟩ := ih _ h
    obtain ⟨h3, h4⟩ := push_accepted _ _ _ h1
    rw [le64_length] at h4
    refine ⟨h3, ?_⟩
    simp only [List.length_cons]
    omega

theorem sp_adjust_mod16 (x a : Nat) :
    (sub64 x (sub64 x a &&& 15)) % 16 = a % 16 := by
  have hand : sub64 x a &&& 15 = sub64 x a % 16 := Nat.and_pow_two_sub_one_eq_mod _ 4
  rw [hand]
  unfold sub64 u64
  have h64 : (2 : Nat) ^ 64 = 18446744073709551616 := by norm_num
  rw [h64]
  omega

/-- C20: for every initial stack top, stack size, argument list, executable and host
(environment, random bytes), whenever `SetupCompartmentStack` returns true the final stack
pointer it stores to `*stack_top` is a multiple of 16. -/
theorem SetupCompartmentStack_aligned (host : Host) (stack_top stack_size : Nat)
    (args : List (List Nat)) (exec : StaticElfExecutable) (sp : Nat) (evs : List Event)
    (h : SetupCompartmentStack host stack_top stack_size args exec = .ok (true, sp, evs)) :
    sp % 16 = 0 := by
  unfold SetupCompartmentStack at h
  simp only at h
  generalize SetupCompartmentStack.envs (sub64 stack_top (stack_size / 2)) host.environ
    kCompartmentPropagatedEnv
    (SetupCompartmentStack.args (sub64 stack_top (stack_size / 2)) args
      ⟨stack_top, false, []⟩ []).1 [] = E at h
  generalize (SetupCompartmentStack.args (sub64 stack_top (stack_size / 2)) args
      ⟨stack_top, false, []⟩ []).2 = argv_str at h
  rcases E with evs' | ⟨b, envp_str⟩
  · simp at h
  · simp only at h
    generalize host.getrandom = g at h
    rcases g with _ | buf
    · simp at h
    · simp only [Except.ok.injEq, Prod.mk.injEq, Bool.not_eq_true'] at h
      obtain ⟨hov, hsp, -⟩ := h
      subst hsp
      obtain ⟨h1, e1⟩ := push_accepted _ _ _ hov
      obtain ⟨h2, e2⟩ := push_words_accepted _ _ _ h1
      obtain ⟨h3, e3⟩ := push_accepted _ _ _ h2
      obtain ⟨h4, e4⟩ := push_words_accepted _ _ _ h3
      obtain ⟨h5, e5⟩ := push_accepted _ _ _ h4
      obtain ⟨h6, e6⟩ := set_auxval_accepted _ _ _ _ h5
      obtain ⟨h7, e7⟩ := set_auxval_accepted _ _ _ _ h6
      obtain ⟨h8, e8⟩ := set_auxval_accepted _ _ _ _ h7
      obtain ⟨h9, e9⟩ := set_auxval_accepted _ _ _ _ h8
      obtain ⟨h10, e10⟩ := set_auxval_accepted _ _ _ _ h9
      obtain ⟨h11, e11⟩ := set_auxval_accepted _ _ _ _ h10
      obtain ⟨h12, e12⟩ := set_auxval_accepted _ _ _ _ h11
      rw [le64_length] at e1 e3 e5
      rw [List.length_reverse] at e2
      simp only at e12
      rw [sp_adjust_mod16] at e12
      have hu : u64 ((envp_str.length + 1 + argv_str.length + 1 + 1) * 8) % 16
          = ((envp_str.length + 1 + argv_str.length + 1 + 1) * 8) % 16 := by
        unfold u64
        have h64 : (2 : Nat) ^ 64 = 18446744073709551616 := by norm_num
        rw [h64]
        omega
      omega

/-- Witness for C20: an odd initial stack top and two argument strings on the sample host. -/
theorem SetupCompartmentStack_aligned_witness :
    ∃ sp evs, SetupCompartmentStack (Sample.host (Sample.run_below 512)) 0x1000F003
        kCompartmentStackSize [[0x61], [0x62, 0x63]] Sample.elfA = .ok (true, sp, evs) ∧
      sp % 16 = 0 :=
  ⟨_, _, by rfl, SetupCompartmentStack_aligned (Sample.host (Sample.run_below 512)) 0x1000F003
    kCompartmentStackSize [[0x61], [0x62, 0x63]] Sample.elfA _ _ (by rfl)⟩

/-! ## `GetFullEnvString` -/

theorem strlen_eq_length {name : List Nat} (h0 : ∀ c ∈ name, c ≠ 0) :
    strlen name = name.length := by
  unfold strlen
  rw [List.takeWhile_eq_self_iff.mpr]
  intro c hc
  simpa using h0 c hc

theorem env_match_iff (name : List Nat) (h0 : ∀ c ∈ name, c ≠ 0) :
    ∀ str : List Nat, (strncmp str name name.length = 0 ∧ str.getD name.length 0 = 0x3d) ↔
      (name ++ [0x3d]).isPrefixOf str = true := by
  induction name with
  | nil =>
    intro str
    rcases str with _ | ⟨x, xs⟩
    · simp [strncmp]
    · simp [strncmp, List.isPrefixOf]
      exact eq_comm
  | cons c cs ih =>
    intro str
    have hc : c ≠ 0 := h0 c (List.mem_cons_self _ _)
    have hcs : ∀ d ∈ cs, d ≠ 0 := fun d hd => h0 d (List.mem_cons_of_mem _ hd)
    rcases str with _ | ⟨x, xs⟩
    · simp [strncmp, List.isPrefixOf, Ne.symm hc]
    · by_cases hx : x = c
      · subst hx
        have := ih hcs xs
        simp only [List.length_cons, strncmp, List.headD_cons, ne_eq, not_true_eq_false,
          if_false, if_neg hc, List.tail_cons, List.getD_cons_succ, List.cons_append,
          List.isPrefixOf, beq_self_eq_true, Bool.true_and]
        exact this
      · have hcx : ¬ c = x := fun h => hx h.symm
        simp [strncmp, List.isPrefixOf, hx, hcx]
        intro h
        omega

theorem GetFullEnvString_spec (name : List Nat) (h0 : ∀ c ∈ name, c ≠ 0) :
    ∀ environ : List (List Nat), GetFullEnvString name environ =
      match envEntry environ name with
      | some str => some (some str)
      | none => none := by
  intro environ
  induction environ with
  | nil => rfl
  | cons str rest ih =>
    have hm := env_match_iff name h0 str
    rw [← strlen_eq_length h0] at hm
    unfold GetFullEnvString envEntry
    by_cases hp : (name ++ [0x3d]).isPrefixOf str = true
    · rw [if_pos (hm.mpr hp), List.find?_cons_of_pos _ hp]
    · rw [if_neg (fun h => hp (hm.mp h)), List.find?_cons_of_neg _ hp]
      exact ih

/-- C23: `GetFullEnvString` never returns `nullptr`. Its loop tests `env != nullptr` where the
end of the array is `*env == nullptr`: for the environment `HOME=/root` and the name `PATH`
the search runs onto the terminating null entry and hands it to `strncmp`, which is a fault
where the function's own comment promises `nullptr`; and for no environment and no name does
the function return `nullptr`. -/
theorem GetFullEnvString_absent_faults :
    GetFullEnvString (cstr "PATH") [cstr "HOME=/root"] = none ∧
    ∀ (name : List Nat) (environ : List (List Nat)),
      GetFullEnvString name environ ≠ some none := by
  refine ⟨by decide, ?_⟩
  intro name environ
  induction environ with
  | nil => simp [GetFullEnvString]
  | cons str rest ih =>
    unfold GetFullEnvString
    split
    · simp
    · exact ih

/-! ## The call interface -/

/-- C30: `CompartmentCall(id, arg0, ..., arg5)` enters the switch with the identifier in `c0` and
the six arguments, in their order, in `c1` to `c6`, and returns the value the switch leaves in
`c0`; an argument omitted at the call site is delivered as 0, and the call returns exactly when
the switch does. -/
theorem CompartmentCall_delivers (comp_switch : CallRegisters → Option CallRegisters)
    (id : Nat) (arg0 arg1 arg2 arg3 arg4 arg5 : Cap) :
    Interface.CompartmentCall comp_switch id [arg0, arg1, arg2, arg3, arg4, arg5] =
      (comp_switch ⟨AsUintcap id, arg0, arg1, arg2, arg3, arg4, arg5⟩).map CallRegisters.c0 ∧
    (∀ given : List Cap,
      Interface.CompartmentCall comp_switch id given =
        (comp_switch ⟨AsUintcap id, given.getD 0 (AsUintcap 0), given.getD 1 (AsUintcap 0),
          given.getD 2 (AsUintcap 0), given.getD 3 (AsUintcap 0), given.getD 4 (AsUintcap 0),
          given.getD 5 (AsUintcap 0)⟩).map CallRegisters.c0) ∧
    Interface.CompartmentCall comp_switch id [] =
      (comp_switch ⟨AsUintcap id, AsUintcap 0, AsUintcap 0, AsUintcap 0, AsUintcap 0,
        AsUintcap 0, AsUintcap 0⟩).map CallRegisters.c0 ∧
    archcap_c_address_get (AsUintcap id) = id ∧ AsUintcap 0 = nullCap := by
  have key : ∀ given : List Cap,
      Interface.CompartmentCall comp_switch id given =
        (comp_switch ⟨AsUintcap id, given.getD 0 (AsUintcap 0), given.getD 1 (AsUintcap 0),
          given.getD 2 (AsUintcap 0), given.getD 3 (AsUintcap 0), given.getD 4 (AsUintcap 0),
          given.getD 5 (AsUintcap 0)⟩).map CallRegisters.c0 := by
    intro given
    unfold Interface.CompartmentCall CompartmentCallImpl Interface.default_arg
    simp only
    cases comp_switch _ <;> rfl
  exact ⟨key _, key, key [], rfl, rfl⟩

/-! ## The allocation wrappers of a compartment -/

/-- C26: a `MAP_FIXED` request `[addr, addr + length)` that does not lie entirely within
`[ddc_base, ddc_limit)`, the bounds of the DDC the compartment runs with, or whose
`addr + length` wraps around, makes `__wrap_mmap` return `MAP_FAILED` with `errno` set to
`EINVAL`; `__real_mmap` is not called and the arena words are unchanged. -/
theorem wrap_mmap_fixed_out_of_bounds (host : CompartmentHost) (g : CompartmentGlobals)
    (addr length prot flags : Nat) (fd offset : Int)
    (hfixed : flags &&& MAP_FIXED ≠ 0) (haddr : addr < 2 ^ 64) (hlen : length < 2 ^ 64)
    (hout : ¬ (archcap_c_base_get host.ddc ≤ addr ∧
                addr + length ≤ archcap_c_limit_get host.ddc) ∨
            2 ^ 64 ≤ addr + length) :
    (__wrap_mmap host g addr length prot flags fd offset).1 = MAP_FAILED ∧
    (__wrap_mmap host g addr length prot flags fd offset).2.errno = EINVAL ∧
    (__wrap_mmap host g addr length prot flags fd offset).2.real_calls = g.real_calls ∧
    (__wrap_mmap host g addr length prot flags fd offset).2 = { g with errno := EINVAL } := by
  have hrej : ¬ (u64 (addr + length) ≥ addr ∧ archcap_c_base_get host.ddc < addr ∧
      u64 (addr + length) < archcap_c_limit_get host.ddc) := by
    rintro ⟨h1, h2, h3⟩
    unfold u64 at h1 h3
    have h64 : (2 : Nat) ^ 64 = 18446744073709551616 := by norm_num
    rw [h64] at h1 h3 haddr hlen hout
    rcases hout with hout | hout
    · apply hout
      omega
    · omega
  have e : __wrap_mmap host g addr length prot flags fd offset
      = (MAP_FAILED, { g with errno := EINVAL }) := by
    unfold __wrap_mmap
    simp only [if_pos hfixed, if_neg hrej]
  rw [e]
  exact ⟨rfl, rfl, rfl, rfl⟩

/-- Witness for C26: on the sample compartment, a fixed request for one page at 0x8000, below
the DDC that starts at 0x10000. -/
theorem wrap_mmap_fixed_out_of_bounds_witness :
    (__wrap_mmap Sample.compartmentHost Sample.globals 0x8000 4096 3
        (MAP_PRIVATE ||| MAP_ANONYMOUS ||| MAP_FIXED) (-1) 0).1 = MAP_FAILED ∧
    (__wrap_mmap Sample.compartmentHost Sample.globals 0x8000 4096 3
        (MAP_PRIVATE ||| MAP_ANONYMOUS ||| MAP_FIXED) (-1) 0).2.errno = EINVAL ∧
    (__wrap_mmap Sample.compartmentHost Sample.globals 0x8000 4096 3
        (MAP_PRIVATE ||| MAP_ANONYMOUS ||| MAP_FIXED) (-1) 0).2.real_calls
      = Sample.globals.real_calls ∧
    (__wrap_mmap Sample.compartmentHost Sample.globals 0x8000 4096 3
        (MAP_PRIVATE ||| MAP_ANONYMOUS ||| MAP_FIXED) (-1) 0).2
      = { Sample.globals with errno := EINVAL } :=
  wrap_mmap_fixed_out_of_bounds Sample.compartmentHost Sample.globals 0x8000 4096 3
    (MAP_PRIVATE ||| MAP_ANONYMOUS ||| MAP_FIXED) (-1) 0 (by decide) (by decide) (by decide)
    (Or.inl (by decide))

/-- C28: for a floating request (no `MAP_FIXED`) of `length` bytes, with
`aligned = align_up(length, page_size)`: the call fails with `ENOMEM`, both arena words
unchanged and no call of `__real_mmap`, if and only if `aligned > top - base` (the difference
as the code computes it, in 64 bits); otherwise `__real_mmap` is called once, for `length` bytes
at `top - aligned` with `MAP_FIXED` added, its result is returned, the base word is unchanged,
and the top word becomes `top - aligned` when the call succeeded and is unchanged when it
failed. -/
theorem wrap_mmap_floating (host : CompartmentHost) (g : CompartmentGlobals)
    (addr length prot flags : Nat) (fd offset : Int) (hfloat : flags &&& MAP_FIXED = 0) :
    (((__wrap_mmap host g addr length prot flags fd offset).1 = MAP_FAILED ∧
      (__wrap_mmap host g addr length prot flags fd offset).2.errno = ENOMEM ∧
      (__wrap_mmap host g addr length prot flags fd offset).2.__compartment_mmap_range_base
        = g.__compartment_mmap_range_base ∧
      (__wrap_mmap host g addr length prot flags fd offset).2.__compartment_mmap_range_top
        = g.__compartment_mmap_range_top ∧
      (__wrap_mmap host g addr length prot flags fd offset).2.real_calls = g.real_calls) ↔
      align_up length host.page_size >
        sub64 g.__compartment_mmap_range_top g.__compartment_mmap_range_base) ∧
    (¬ align_up length host.page_size >
        sub64 g.__compartment_mmap_range_top g.__compartment_mmap_range_base →
      (__wrap_mmap host g addr length prot flags fd offset).2.real_calls = g.real_calls ++
        [⟨sub64 g.__compartment_mmap_range_top (align_up length host.page_size), length, prot,
          flags ||| MAP_FIXED, fd, offset⟩] ∧
      (__wrap_mmap host g addr length prot flags fd offset).1 = host.real_mmap g.real_calls
        ⟨sub64 g.__compartment_mmap_range_top (align_up length host.page_size), length, prot,
          flags ||| MAP_FIXED, fd, offset⟩ ∧
      (__wrap_mmap host g addr length prot flags fd offset).2.__compartment_mmap_range_base
        = g.__compartment_mmap_range_base ∧
      ((__wrap_mmap host g addr length prot flags fd offset).1 ≠ MAP_FAILED →
        (__wrap_mmap host g addr length prot flags fd offset).2.__compartment_mmap_range_top
          = sub64 g.__compartment_mmap_range_top (align_up length host.page_size)) ∧
      ((__wrap_mmap host g addr length prot flags fd offset).1 = MAP_FAILED →
        (__wrap_mmap host g addr length prot flags fd offset).2.__compartment_mmap_range_top
          = g.__compartment_mmap_range_top)) := by
  have hnf : ¬ flags &&& MAP_FIXED ≠ 0 := fun h => h hfloat
  by_cases hbig : align_up length host.page_size >
      sub64 g.__compartment_mmap_range_top g.__compartment_mmap_range_base
  · have e : __wrap_mmap host g addr length prot flags fd offset
        = (MAP_FAILED, { g with errno := ENOMEM }) := by
      unfold __wrap_mmap
      simp only [if_neg hnf, if_pos hbig]
    rw [e]
    exact ⟨⟨fun _ => hbig, fun _ => ⟨rfl, rfl, rfl, rfl, rfl⟩⟩, fun h => absurd hbig h⟩
  · by_cases hres : host.real_mmap g.real_calls
        ⟨sub64 g.__compartment_mmap_range_top (align_up length host.page_size), length, prot,
          flags ||| MAP_FIXED, fd, offset⟩ = MAP_FAILED
    · have e : __wrap_mmap host g addr length prot flags fd offset
          = __real_mmap host g
            ⟨sub64 g.__compartment_mmap_range_top (align_up length host.page_size), length,
              prot, flags ||| MAP_FIXED, fd, offset⟩ := by
        unfold __wrap_mmap
        simp only [if_neg hnf, if_neg hbig, __real_mmap, hres, ne_eq, not_true_eq_false,
          if_false]
      rw [e]
      refine ⟨⟨fun h => ?_, fun h => absurd h hbig⟩, fun _ => ?_⟩
      · have := congrArg List.length h.2.2.2.2
        simp [__real_mmap] at this
      · simp [__real_mmap, hres]
    · have e : __wrap_mmap host g addr length prot flags fd offset
          = ((__real_mmap host g
              ⟨sub64 g.__compartment_mmap_range_top (align_up length host.page_size), length,
                prot, flags ||| MAP_FIXED, fd, offset⟩).1,
             { (__real_mmap host g
              ⟨sub64 g.__compartment_mmap_range_top (align_up length host.page_size), length,
                prot, flags ||| MAP_FIXED, fd, offset⟩).2 with
               __compartment_mmap_range_top :=
                 sub64 g.__compartment_mmap_range_top (align_up length host.page_size) }) := by
        unfold __wrap_mmap
        simp only [if_neg hnf, if_neg hbig, __real_mmap, hres, ne_eq, not_false_eq_true,
          if_true]
      rw [e]
      refine ⟨⟨fun h => absurd h.1 hres, fun h => absurd h hbig⟩, fun _ => ?_⟩
      simp [__real_mmap, hres]

/-- Witness for C28: on the sample compartment, a floating request for 5000 bytes is rounded
up to two pages and placed right below the arena top. -/
theorem wrap_mmap_floating_witness :
    __wrap_mmap Sample.compartmentHost Sample.globals 0 5000 3
      (MAP_PRIVATE ||| MAP_ANONYMOUS) (-1) 0 =
      (0xFF0C000, { Sample.globals with
        __compartment_mmap_range_top := 0xFF0C000
        real_calls := [⟨0xFF0C000, 5000, 3, MAP_PRIVATE ||| MAP_ANONYMOUS ||| MAP_FIXED, -1, 0⟩] })
    ∧ ((__wrap_mmap Sample.compartmentHost Sample.globals 0 5000 3
          (MAP_PRIVATE ||| MAP_ANONYMOUS) (-1) 0).1 ≠ MAP_FAILED →
        (__wrap_mmap Sample.compartmentHost Sample.globals 0 5000 3
          (MAP_PRIVATE ||| MAP_ANONYMOUS) (-1) 0).2.__compartment_mmap_range_top
          = sub64 Sample.globals.__compartment_mmap_range_top
              (align_up 5000 Sample.compartmentHost.page_size)) :=
  ⟨by decide, ((wrap_mmap_floating Sample.compartmentHost Sample.globals 0 5000 3
    (MAP_PRIVATE ||| MAP_ANONYMOUS) (-1) 0 (by decide)).2 (by decide)).2.2.2.1⟩

theorem or_MAP_FIXED (flags : Nat) : (flags ||| MAP_FIXED) &&& MAP_FIXED ≠ 0 := by
  intro h
  have := congrArg (fun n => n.testBit 4) h
  have h4 : Nat.testBit 16 4 = true := by decide
  simp [MAP_FIXED, Nat.testBit_and, Nat.testBit_or, h4] at this

/-- The fixed branch of `__wrap_mmap` leaves the arena words as they are. -/
theorem wrap_mmap_fixed_frame (host : CompartmentHost) (g : CompartmentGlobals)
    (addr length prot flags : Nat) (fd offset : Int) (hfixed : flags &&& MAP_FIXED ≠ 0) :
    (__wrap_mmap host g addr length prot flags fd offset).2.__compartment_mmap_range_base
      = g.__compartment_mmap_range_base ∧
    (__wrap_mmap host g addr length prot flags fd offset).2.__compartment_mmap_range_top
      = g.__compartment_mmap_range_top := by
  unfold __wrap_mmap
  simp only [if_pos hfixed]
  split <;> exact ⟨rfl, rfl⟩

/-- One floating call from an arena with `base ≤ top`: the words stay ordered, the top does not
grow, and a successful call returns a range that starts at the new top and ends at or below
the old one. -/
theorem wrap_mmap_floating_step (host : CompartmentHost) (g : CompartmentGlobals)
    (addr length prot flags : Nat) (fd offset : Int) (hfloat : flags &&& MAP_FIXED = 0)
    (hbase : g.__compartment_mmap_range_base ≤ g.__compartment_mmap_range_top)
    (htop : g.__compartment_mmap_range_top < 2 ^ 64)
    (hkernel : ∀ hist call, call.flags &&& MAP_FIXED ≠ 0 →
      host.real_mmap hist call = MAP_FAILED ∨ host.real_mmap hist call = call.addr)
    (hround : length ≤ align_up length host.page_size) :
    (__wrap_mmap host g addr length prot flags fd offset).2.__compartment_mmap_range_base
      = g.__compartment_mmap_range_base ∧
    g.__compartment_mmap_range_base
      ≤ (__wrap_mmap host g addr length prot flags fd offset).2.__compartment_mmap_range_top ∧
    (__wrap_mmap host g addr length prot flags fd offset).2.__compartment_mmap_range_top
      ≤ g.__compartment_mmap_range_top ∧
    ((__wrap_mmap host g addr length prot flags fd offset).1 ≠ MAP_FAILED →
      (__wrap_mmap host g addr length prot flags fd offset).1
        = (__wrap_mmap host g addr length prot flags fd offset).2.__compartment_mmap_range_top ∧
      (__wrap_mmap host g addr length prot flags fd offset).1 + length
        ≤ g.__compartment_mmap_range_top) := by
  have hnf : ¬ flags &&& MAP_FIXED ≠ 0 := fun h => h hfloat
  have hsub : sub64 g.__compartment_mmap_range_top g.__compartment_mmap_range_base
      = g.__compartment_mmap_range_top - g.__compartment_mmap_range_base := by
    unfold sub64 u64
    have h64 : (2 : Nat) ^ 64 = 18446744073709551616 := by norm_num
    rw [h64] at htop ⊢
    omega
  by_cases hbig : align_up length host.page_size >
      sub64 g.__compartment_mmap_range_top g.__compartment_mmap_range_base
  · have e : __wrap_mmap host g addr length prot flags fd offset
        = (MAP_FAILED, { g with errno := ENOMEM }) := by
      unfold __wrap_mmap
      simp only [if_neg hnf, if_pos hbig]
    rw [e]
    exact ⟨rfl, hbase, le_refl _, fun h => absurd rfl h⟩
  · have hsub2 : sub64 g.__compartment_mmap_range_top (align_up length host.page_size)
        = g.__compartment_mmap_range_top - align_up length host.page_size := by
      rw [hsub] at hbig
      unfold sub64 u64
      have h64 : (2 : Nat) ^ 64 = 18446744073709551616 := by norm_num
      rw [h64] at htop ⊢
      omega
    rcases hkernel g.real_calls
        ⟨sub64 g.__compartment_mmap_range_top (align_up length host.page_size), length, prot,
          flags ||| MAP_FIXED, fd, offset⟩ (or_MAP_FIXED flags) with hres | hres
    · have e : __wrap_mmap host g addr length prot flags fd offset
          = __real_mmap host g
            ⟨sub64 g.__compartment_mmap_range_top (align_up length host.page_size), length,
              prot, flags ||| MAP_FIXED, fd, offset⟩ := by
        unfold __wrap_mmap
        simp only [if_neg hnf, if_neg hbig, __real_mmap, hres, ne_eq, not_true_eq_false,
          if_false]
      rw [e]
      simp [__real_mmap, hres, hbase]
    · by_cases hf : host.real_mmap g.real_calls
          ⟨sub64 g.__compartment_mmap_range_top (align_up length host.page_size), length, prot,
            flags ||| MAP_FIXED, fd, offset⟩ = MAP_FAILED
      · have e : __wrap_mmap host g addr length prot flags fd offset
            = __real_mmap host g
              ⟨sub64 g.__compartment_mmap_range_top (align_up length host.page_size), length,
                prot, flags ||| MAP_FIXED, fd, offset⟩ := by
          unfold __wrap_mmap
          simp only [if_neg hnf, if_neg hbig, __real_mmap, hf, ne_eq, not_true_eq_false,
            if_false]
        rw [e]
        simp [__real_mmap, hf, hbase]
      · have e : __wrap_mmap host g addr length prot flags fd offset
            = (sub64 g.__compartment_mmap_range_top (align_up length host.page_size),
               { (__real_mmap host g
                ⟨sub64 g.__compartment_mmap_range_top (align_up length host.page_size), length,
                  prot, flags ||| MAP_FIXED, fd, offset⟩).2 with
                 __compartment_mmap_range_top :=
                   sub64 g.__compartment_mmap_range_top (align_up length host.page_size) }) := by
          unfold __wrap_mmap
          simp only [if_neg hnf, if_neg hbig, __real_mmap, hf, ne_eq, not_false_eq_true,
            if_true]
          rw [hres]
        rw [e]
        rw [hsub] at hbig
        simp only [__real_mmap, hsub2]
        refine ⟨trivial, by omega, by omega, fun _ => ⟨trivial, by omega⟩⟩

/-- One call to the wrappers from an arena with `base ≤ top`: the base word is unchanged, the
words stay ordered, the top does not grow, and a range handed out starts at the new top and
ends at or below the old one. -/
theorem WrapCall.run_step (host : CompartmentHost) (g : CompartmentGlobals) (c : WrapCall)
    (hbase : g.__compartment_mmap_range_base ≤ g.__compartment_mmap_range_top)
    (htop : g.__compartment_mmap_range_top < 2 ^ 64)
    (hkernel : ∀ hist call, call.flags &&& MAP_FIXED ≠ 0 →
      host.real_mmap hist call = MAP_FAILED ∨ host.real_mmap hist call = call.addr)
    (hround : c.length ≤ align_up c.length host.page_size) :
    (c.run host g).2.__compartment_mmap_range_base = g.__compartment_mmap_range_base ∧
    g.__compartment_mmap_range_base ≤ (c.run host g).2.__compartment_mmap_range_top ∧
    (c.run host g).2.__compartment_mmap_range_top ≤ g.__compartment_mmap_range_top ∧
    ∀ r, c.handedOut (c.run host g).1 = some r →
      r.base = (c.run host g).2.__compartment_mmap_range_top ∧
      r.top ≤ g.__compartment_mmap_range_top := by
  rcases c with ⟨addr, length, prot, flags, fd, offset⟩ | ⟨addr, length⟩
  · by_cases hfloat : flags &&& MAP_FIXED = 0
    · obtain ⟨h1, h2, h3, h4⟩ := wrap_mmap_floating_step host g addr length prot flags fd offset
        hfloat hbase htop hkernel hround
      refine ⟨h1, h2, h3, ?_⟩
      intro r hr
      simp only [WrapCall.run, WrapCall.handedOut] at hr
      split at hr
      · rename_i hcond
        simp only [Option.some.injEq] at hr
        subst hr
        exact h4 hcond.2
      · simp at hr
    · obtain ⟨h1, h2⟩ := wrap_mmap_fixed_frame host g addr length prot flags fd offset hfloat
      simp only [WrapCall.run]
      refine ⟨h1, by rw [h2]; exact hbase, by rw [h2], ?_⟩
      intro r hr
      simp [WrapCall.handedOut, hfloat] at hr
  · obtain ⟨h1, h2⟩ := wrap_mmap_fixed_frame host g addr length PROT_NONE
      (MAP_PRIVATE ||| MAP_ANONYMOUS ||| MAP_FIXED) (-1) 0 (by decide)
    simp only [WrapCall.run, __wrap_munmap]
    refine ⟨h1, by rw [h2]; exact hbase, by rw [h2], ?_⟩
    intro r hr
    simp [WrapCall.handedOut] at hr

/-- A sequence of calls to the wrappers from an arena with `base ≤ top`: every range handed out
lies between the final and the initial top word, and a range handed out later ends at or below
the start of every range handed out before. -/
theorem WrapCall.runAll_spec (host : CompartmentHost)
    (hkernel : ∀ hist call, call.flags &&& MAP_FIXED ≠ 0 →
      host.real_mmap hist call = MAP_FAILED ∨ host.real_mmap hist call = call.addr)
    (calls : List WrapCall) :
    ∀ g : CompartmentGlobals,
      g.__compartment_mmap_range_base ≤ g.__compartment_mmap_range_top →
      g.__compartment_mmap_range_top < 2 ^ 64 →
      (∀ c ∈ calls, c.length ≤ align_up c.length host.page_size) →
      (WrapCall.runAll host g calls).2.__compartment_mmap_range_base
        = g.__compartment_mmap_range_base ∧
      g.__compartment_mmap_range_base
        ≤ (WrapCall.runAll host g calls).2.__compartment_mmap_range_top ∧
      (WrapCall.runAll host g calls).2.__compartment_mmap_range_top
        ≤ g.__compartment_mmap_range_top ∧
      (∀ i c res r, calls.get? i = some c →
        (WrapCall.runAll host g calls).1.get? i = some res → c.handedOut res = some r →
        (WrapCall.runAll host g calls).2.__compartment_mmap_range_top ≤ r.base ∧
        r.top ≤ g.__compartment_mmap_range_top) ∧
      (∀ i j ci cj resi resj ri rj, i < j → calls.get? i = some ci → calls.get? j = some cj →
        (WrapCall.runAll host g calls).1.get? i = some resi →
        (WrapCall.runAll host g calls).1.get? j = some resj →
        ci.handedOut resi = some ri → cj.handedOut resj = some rj → rj.top ≤ ri.base) := by
  induction calls with
  | nil =>
    intro g hbase _ _
    simp only [WrapCall.runAll]
    refine ⟨trivial, hbase, le_refl _, ?_, ?_⟩
    · intro i c res r hc; simp at hc
    · intro i j ci cj resi resj ri rj _ hc; simp at hc
  | cons c rest ih =>
    intro g hbase htop hround
    obtain ⟨s1, s2, s3, s4⟩ := WrapCall.run_step host g c hbase htop hkernel
      (hround c (List.mem_cons_self _ _))
    obtain ⟨r1, r2, r3, r4, r5⟩ := ih (c.run host g).2 (by rw [s1]; exact s2)
      (lt_of_le_of_lt s3 htop) (fun d hd => hround d (List.mem_cons_of_mem _ hd))
    have e : WrapCall.runAll host g (c :: rest) =
        ((c.run host g).1 :: (WrapCall.runAll host (c.run host g).2 rest).1,
          (WrapCall.runAll host (c.run host g).2 rest).2) := rfl
    rw [e]
    simp only
    rw [s1] at r1 r2
    refine ⟨r1, r2, le_trans r3 s3, ?_, ?_⟩
    · intro i d res r hd hres hr
      rcases i with _ | i
      · simp only [List.get?_cons_zero, Option.some.injEq] at hd hres
        subst hd hres
        obtain ⟨a, b⟩ := s4 r hr
        exact ⟨by rw [a]; exact r3, b⟩
      · simp only [List.get?_cons_succ] at hd hres
        obtain ⟨a, b⟩ := r4 i d res r hd hres hr
        exact ⟨a, le_trans b s3⟩
    · intro i j ci cj resi resj ri rj hij hci hcj hresi hresj hri hrj
      rcases j with _ | j
      · omega
      · simp only [List.get?_cons_succ] at hcj hresj
        rcases i with _ | i
        · simp only [List.get?_cons_zero, Option.some.injEq] at hci hresi
          subst hci hresi
          obtain ⟨a, _⟩ := s4 ri hri
          obtain ⟨_, b⟩ := r4 j cj resj rj hcj hresj hrj
          rw [a]
          exact b
        · simp only [List.get?_cons_succ] at hci hresi
          exact r5 i j ci cj resi resj ri rj (by omega) hci hcj hresi hresj hri hrj

theorem Sample.compartmentHost_fixed (hist : List RealMmapCall) (call : RealMmapCall) :
    Sample.compartmentHost.real_mmap hist call = MAP_FAILED ∨
    Sample.compartmentHost.real_mmap hist call = call.addr := by
  simp only [Sample.compartmentHost]
  split
  · exact Or.inr rfl
  · exact Or.inl rfl

/-- C27: in any sequence of floating calls of `__wrap_mmap` that starts from arena words with
`base ≤ top`, the ranges `[result, result + length)` of two successful calls do not intersect.
The kernel is taken to honour `MAP_FIXED` (a successful `__real_mmap` returns the address it was
given), and no request is so long that rounding it up to a page multiple wraps around. -/
theorem wrap_mmap_floating_disjoint (host : CompartmentHost) (g : CompartmentGlobals)
    (calls : List WrapCall)
    (hfloat : ∀ c ∈ calls, c.floating = true)
    (hbase : g.__compartment_mmap_range_base ≤ g.__compartment_mmap_range_top)
    (htop : g.__compartment_mmap_range_top < 2 ^ 64)
    (hkernel : ∀ hist call, call.flags &&& MAP_FIXED ≠ 0 →
      host.real_mmap hist call = MAP_FAILED ∨ host.real_mmap hist call = call.addr)
    (hround : ∀ c ∈ calls, c.length ≤ align_up c.length host.page_size)
    (i j : Nat) (ci cj : WrapCall) (resi resj : Nat) (hij : i < j)
    (hci : calls.get? i = some ci) (hcj : calls.get? j = some cj)
    (hresi : (WrapCall.runAll host g calls).1.get? i = some (some resi))
    (hresj : (WrapCall.runAll host g calls).1.get? j = some (some resj))
    (hoki : resi ≠ MAP_FAILED) (hokj : resj ≠ MAP_FAILED) :
    Range.Intersects ⟨resi, resi + ci.length⟩ ⟨resj, resj + cj.length⟩ = false := by
  have hout : ∀ (c : WrapCall) (res : Nat), c ∈ calls → res ≠ MAP_FAILED →
      c.handedOut (some res) = some ⟨res, res + c.length⟩ := by
    intro c res hc hres
    have hf := hfloat c hc
    rcases c with ⟨addr, length, prot, flags, fd, offset⟩ | ⟨addr, length⟩
    · simp only [WrapCall.floating, decide_eq_true_eq] at hf
      simp [WrapCall.handedOut, WrapCall.length, hf, hres]
    · simp [WrapCall.floating] at hf
  have h5 := (WrapCall.runAll_spec host hkernel calls g hbase htop hround).2.2.2.2
    i j ci cj (some resi) (some resj) ⟨resi, resi + ci.length⟩ ⟨resj, resj + cj.length⟩ hij
    hci hcj hresi hresj (hout ci resi (List.get?_mem hci) hoki)
    (hout cj resj (List.get?_mem hcj) hokj)
  simp only at h5
  simp only [Range.Intersects, Bool.and_eq_false_imp, decide_eq_true_eq, decide_eq_false_iff_not]
  intro _
  omega

/-- Witness for C27: on the sample compartment, a floating request for 5000 bytes followed by
one for 4096 bytes. -/
theorem wrap_mmap_floating_disjoint_witness :
    (WrapCall.runAll Sample.compartmentHost Sample.globals
      [.mmap 0 5000 3 (MAP_PRIVATE ||| MAP_ANONYMOUS) (-1) 0,
       .mmap 0 4096 3 (MAP_PRIVATE ||| MAP_ANONYMOUS) (-1) 0]).1
      = [some 0xFF0C000, some 0xFF0B000] ∧
    Range.Intersects ⟨0xFF0C000, 0xFF0C000 + 5000⟩ ⟨0xFF0B000, 0xFF0B000 + 4096⟩ = false :=
  ⟨by decide,
   wrap_mmap_floating_disjoint Sample.compartmentHost Sample.globals
    [.mmap 0 5000 3 (MAP_PRIVATE ||| MAP_ANONYMOUS) (-1) 0,
     .mmap 0 4096 3 (MAP_PRIVATE ||| MAP_ANONYMOUS) (-1) 0]
    (by decide) (by decide) (by decide)
    (fun hist call _ => Sample.compartmentHost_fixed hist call) (by decide)
    0 1 (.mmap 0 5000 3 (MAP_PRIVATE ||| MAP_ANONYMOUS) (-1) 0)
    (.mmap 0 4096 3 (MAP_PRIVATE ||| MAP_ANONYMOUS) (-1) 0) 0xFF0C000 0xFF0B000
    (by decide) (by rfl) (by rfl) (by decide) (by decide) (by decide) (by decide)⟩

/-- C29 as stated fails: pages obtained with `MAP_FIXED` inside the part of the arena that has
not been handed out yet are handed out by a later floating request after their release. On the
sample compartment, whose arena is `[0x21000, 0xFF0E000)`, a fixed request maps the page at
0xFF0D000, `munmap` releases it (and returns 0), and the next floating request for one page
returns 0xFF0D000 again. -/
theorem wrap_munmap_fixed_range_reissued :
    (WrapCall.runAll Sample.compartmentHost Sample.globals
      [.mmap 0xFF0D000 4096 3 (MAP_PRIVATE ||| MAP_ANONYMOUS ||| MAP_FIXED) (-1) 0,
       .munmap 0xFF0D000 4096,
       .mmap 0 4096 3 (MAP_PRIVATE ||| MAP_ANONYMOUS) (-1) 0]).1
      = [some 0xFF0D000, none, some 0xFF0D000] ∧
    (__wrap_munmap Sample.compartmentHost
      (__wrap_mmap Sample.compartmentHost Sample.globals 0xFF0D000 4096 3
        (MAP_PRIVATE ||| MAP_ANONYMOUS ||| MAP_FIXED) (-1) 0).2 0xFF0D000 4096).1 = 0 ∧
    (WrapCall.mmap 0 4096 3 (MAP_PRIVATE ||| MAP_ANONYMOUS) (-1) 0).handedOut (some 0xFF0D000)
      = some ⟨0xFF0D000, 0xFF0D000 + 4096⟩ ∧
    Range.Intersects ⟨0xFF0D000, 0xFF0D000 + 4096⟩ ⟨0xFF0D000, 0xFF0D000 + 4096⟩ = true :=
  ⟨by decide, by decide, by decide, by decide⟩

/-- C29, amended: `__wrap_munmap(addr, length)` either issues no mapping and returns -1 (the
request did not pass the bounds check of the fixed branch of `__wrap_mmap`), or issues exactly
one call of `__real_mmap`, for `PROT_NONE`, private, anonymous and fixed over
`[addr, addr + length)`, and returns 0 when that call succeeded and -1 when it failed. In both
cases the arena base and top words are unchanged. As a consequence, in any sequence of calls
to the wrappers from arena words with `base ≤ top`, whatever calls of `munmap` it contains, a
range handed out by a floating call never intersects a range handed out by an earlier floating
call; and a released range that starts at or above the arena top word at the time of the
release, as every range handed out by a floating call does, is never intersected by a range
that a later call hands out. -/
theorem wrap_munmap_frame (host : CompartmentHost) (g : CompartmentGlobals)
    (addr length : Nat) :
    (((__wrap_munmap host g addr length).2.real_calls = g.real_calls ∧
        (__wrap_munmap host g addr length).1 = -1) ∨
      ((__wrap_munmap host g addr length).2.real_calls = g.real_calls ++
          [⟨addr, length, PROT_NONE, MAP_PRIVATE ||| MAP_ANONYMOUS ||| MAP_FIXED, -1, 0⟩] ∧
        (__wrap_munmap host g addr length).1 =
          if host.real_mmap g.real_calls
              ⟨addr, length, PROT_NONE, MAP_PRIVATE ||| MAP_ANONYMOUS ||| MAP_FIXED, -1, 0⟩
              = MAP_FAILED then -1 else 0)) ∧
    (__wrap_munmap host g addr length).2.__compartment_mmap_range_base
      = g.__compartment_mmap_range_base ∧
    (__wrap_munmap host g addr length).2.__compartment_mmap_range_top
      = g.__compartment_mmap_range_top ∧
    (∀ (g0 : CompartmentGlobals) (calls : List WrapCall),
      g0.__compartment_mmap_range_base ≤ g0.__compartment_mmap_range_top →
      g0.__compartment_mmap_range_top < 2 ^ 64 →
      (∀ hist call, call.flags &&& MAP_FIXED ≠ 0 →
        host.real_mmap hist call = MAP_FAILED ∨ host.real_mmap hist call = call.addr) →
      (∀ c ∈ calls, c.length ≤ align_up c.length host.page_size) →
      ∀ i j ci cj resi resj ri rj, i < j → calls.get? i = some ci → calls.get? j = some cj →
        (WrapCall.runAll host g0 calls).1.get? i = some resi →
        (WrapCall.runAll host g0 calls).1.get? j = some resj →
        ci.handedOut resi = some ri → cj.handedOut resj = some rj →
        ri.Intersects rj = false) ∧
    (∀ (calls : List WrapCall),
      g.__compartment_mmap_range_base ≤ g.__compartment_mmap_range_top →
      g.__compartment_mmap_range_top < 2 ^ 64 →
      (∀ hist call, call.flags &&& MAP_FIXED ≠ 0 →
        host.real_mmap hist call = MAP_FAILED ∨ host.real_mmap hist call = call.addr) →
      (∀ c ∈ calls, c.length ≤ align_up c.length host.page_size) →
      g.__compartment_mmap_range_top ≤ addr →
      ∀ i c res r, calls.get? i = some c →
        (WrapCall.runAll host (__wrap_munmap host g addr length).2 calls).1.get? i = some res →
        c.handedOut res = some r →
        r.top ≤ addr ∧ r.Intersects ⟨addr, addr + length⟩ = false) := by
  refine ⟨?_, ?_, ?_, ?_, ?_⟩
  · have hfixed : (MAP_PRIVATE ||| MAP_ANONYMOUS ||| MAP_FIXED) &&& MAP_FIXED ≠ 0 := by decide
    by_cases hc : u64 (addr + length) ≥ addr ∧ archcap_c_base_get host.ddc < addr ∧
        u64 (addr + length) < archcap_c_limit_get host.ddc
    · right
      have e : __wrap_mmap host g addr length PROT_NONE
          (MAP_PRIVATE ||| MAP_ANONYMOUS ||| MAP_FIXED) (-1) 0 = __real_mmap host g
            ⟨addr, length, PROT_NONE, MAP_PRIVATE ||| MAP_ANONYMOUS ||| MAP_FIXED, -1, 0⟩ := by
        unfold __wrap_mmap
        simp only [if_pos hfixed, if_pos hc]
      unfold __wrap_munmap
      rw [e]
      simp only [__real_mmap, and_self]
    · left
      have e : __wrap_mmap host g addr length PROT_NONE
          (MAP_PRIVATE ||| MAP_ANONYMOUS ||| MAP_FIXED) (-1) 0
          = (MAP_FAILED, { g with errno := EINVAL }) := by
        unfold __wrap_mmap
        simp only [if_pos hfixed, if_neg hc]
      unfold __wrap_munmap
      rw [e]
      simp only [if_true, and_self]
  · exact (wrap_mmap_fixed_frame host g addr length PROT_NONE
      (MAP_PRIVATE ||| MAP_ANONYMOUS ||| MAP_FIXED) (-1) 0 (by decide)).1
  · exact (wrap_mmap_fixed_frame host g addr length PROT_NONE
      (MAP_PRIVATE ||| MAP_ANONYMOUS ||| MAP_FIXED) (-1) 0 (by decide)).2
  · intro g0 calls hbase htop hkernel hround i j ci cj resi resj ri rj hij hci hcj hresi hresj
      hri hrj
    have h5 := (WrapCall.runAll_spec host hkernel calls g0 hbase htop hround).2.2.2.2
      i j ci cj resi resj ri rj hij hci hcj hresi hresj hri hrj
    simp only [Range.Intersects, Bool.and_eq_false_imp, decide_eq_true_eq,
      decide_eq_false_iff_not]
    intro _
    omega
  · intro calls hbase htop hkernel hround hrel i c res r hc hres hr
    obtain ⟨h1, h2⟩ := wrap_mmap_fixed_frame host g addr length PROT_NONE
      (MAP_PRIVATE ||| MAP_ANONYMOUS ||| MAP_FIXED) (-1) 0 (by decide)
    have e : (__wrap_munmap host g addr length).2 =
        (__wrap_mmap host g addr length PROT_NONE (MAP_PRIVATE ||| MAP_ANONYMOUS ||| MAP_FIXED)
          (-1) 0).2 := rfl
    rw [← e] at h1 h2
    have h4 := ((WrapCall.runAll_spec host hkernel calls (__wrap_munmap host g addr length).2
      (by rw [h1, h2]; exact hbase) (by rw [h2]; exact htop) hround).2.2.2.1
      i c res r hc hres hr).2
    rw [h2] at h4
    have hle : r.top ≤ addr := le_trans h4 hrel
    refine ⟨hle, ?_⟩
    simp only [Range.Intersects, Bool.and_eq_false_imp, decide_eq_true_eq,
      decide_eq_false_iff_not]
    intro _
    omega

/-- Witness for C29: on the sample compartment, two pages are handed out, released, and the next
floating request is placed below them. -/
theorem wrap_munmap_frame_witness :
    (WrapCall.runAll Sample.compartmentHost Sample.globals
      [.mmap 0 5000 3 (MAP_PRIVATE ||| MAP_ANONYMOUS) (-1) 0,
       .munmap 0xFF0C000 5000,
       .mmap 0 4096 3 (MAP_PRIVATE ||| MAP_ANONYMOUS) (-1) 0]).1
      = [some 0xFF0C000, none, some 0xFF0B000] ∧
    (__wrap_munmap Sample.compartmentHost Sample.globals 0xFF0C000 5000).1 = 0 ∧
    Range.Intersects ⟨0xFF0C000, 0xFF0C000 + 5000⟩ ⟨0xFF0B000, 0xFF0B000 + 4096⟩ = false ∧
    (WrapCall.runAll Sample.compartmentHost
      (__wrap_munmap Sample.compartmentHost
        ⟨0x21000, 0xFF0C000, 0, [⟨0xFF0C000, 5000, 3, MAP_PRIVATE ||| MAP_ANONYMOUS ||| MAP_FIXED,
          -1, 0⟩]⟩ 0xFF0C000 5000).2
      [.mmap 0 4096 3 (MAP_PRIVATE ||| MAP_ANONYMOUS) (-1) 0]).1 = [some 0xFF0B000] ∧
    ((⟨0xFF0B000, 0xFF0B000 + 4096⟩ : Range).top ≤ 0xFF0C000 ∧
      Range.Intersects ⟨0xFF0B000, 0xFF0B000 + 4096⟩ ⟨0xFF0C000, 0xFF0C000 + 5000⟩ = false) :=
  ⟨by decide, by decide,
   (wrap_munmap_frame Sample.compartmentHost Sample.globals 0xFF0C000 5000).2.2.2.1
    Sample.globals
    [.mmap 0 5000 3 (MAP_PRIVATE ||| MAP_ANONYMOUS) (-1) 0,
     .munmap 0xFF0C000 5000,
     .mmap 0 4096 3 (MAP_PRIVATE ||| MAP_ANONYMOUS) (-1) 0]
    (by decide) (by decide)
    (fun hist call _ => Sample.compartmentHost_fixed hist call) (by decide)
    0 2 (.mmap 0 5000 3 (MAP_PRIVATE ||| MAP_ANONYMOUS) (-1) 0)
    (.mmap 0 4096 3 (MAP_PRIVATE ||| MAP_ANONYMOUS) (-1) 0) (some 0xFF0C000) (some 0xFF0B000)
    ⟨0xFF0C000, 0xFF0C000 + 5000⟩ ⟨0xFF0B000, 0xFF0B000 + 4096⟩
    (by decide) (by rfl) (by rfl) (by decide) (by decide) (by decide) (by decide),
   by decide,
   (wrap_munmap_frame Sample.compartmentHost
      ⟨0x21000, 0xFF0C000, 0, [⟨0xFF0C000, 5000, 3, MAP_PRIVATE ||| MAP_ANONYMOUS ||| MAP_FIXED,
        -1, 0⟩]⟩ 0xFF0C000 5000).2.2.2.2
    [.mmap 0 4096 3 (MAP_PRIVATE ||| MAP_ANONYMOUS) (-1) 0]
    (by decide) (by decide)
    (fun hist call _ => Sample.compartmentHost_fixed hist call) (by decide) (by decide)
    0 (.mmap 0 4096 3 (MAP_PRIVATE ||| MAP_ANONYMOUS) (-1) 0) (some 0xFF0B000)
    ⟨0xFF0B000, 0xFF0B000 + 4096⟩ (by rfl) (by decide) (by decide)⟩

/-! ## The memory a trace of copies leaves -/

theorem copied_snoc (evs : List Event) (ev : Event) :
    copied (evs ++ [ev]) = Event.store (copied evs) ev := by
  simp [copied, List.foldl_append]

theorem MemAt_nil (mem : Nat → Option Nat) (a : Nat) : MemAt mem a [] := by
  intro i hi
  simp at hi

theorem MemAt_append (mem : Nat → Option Nat) (a : Nat) (x y : List Nat) :
    MemAt mem a (x ++ y) ↔ MemAt mem a x ∧ MemAt mem (a + x.length) y := by
  constructor
  · intro h
    constructor
    · intro i hi
      have := h i (by rw [List.length_append]; omega)
      rw [this, List.get?_eq_getElem?, List.get?_eq_getElem?, List.getElem?_append_left hi]
    · intro i hi
      have := h (x.length + i) (by rw [List.length_append]; omega)
      rw [← Nat.add_assoc] at this
      rw [this, List.get?_eq_getElem?, List.get?_eq_getElem?,
        List.getElem?_append_right (by omega)]
      congr 1
      omega
  · rintro ⟨hx, hy⟩ i hi
    rw [List.length_append] at hi
    by_cases hlt : i < x.length
    · rw [hx i hlt, List.get?_eq_getElem?, List.get?_eq_getElem?, List.getElem?_append_left hlt]
    · have := hy (i - x.length) (by omega)
      have e : a + x.length + (i - x.length) = a + i := by omega
      rw [e] at this
      rw [this, List.get?_eq_getElem?, List.get?_eq_getElem?,
        List.getElem?_append_right (by omega)]

/-- A copy to `[a, a + src.length)` that does not wrap leaves its bytes there. -/
theorem MemAt_copy_new (evs : List Event) (a : Nat) (src : List Nat)
    (h : a + src.length ≤ 2 ^ 64) :
    MemAt (copied (evs ++ [Event.memcpy a src])) a src := by
  intro i hi
  rw [copied_snoc]
  have e : sub64 (a + i) a = i := by
    unfold sub64 u64
    have h64 : (2 : Nat) ^ 64 = 18446744073709551616 := by norm_num
    rw [h64] at h ⊢
    omega
  simp only [Event.store, e, if_pos hi]

/-- A copy to `[a, a + src.length)` leaves the bytes at and above `a + src.length` as they
were. -/
theorem MemAt_copy_old (evs : List Event) (a : Nat) (src : List Nat) (a' : Nat)
    (bytes : List Nat) (h1 : a + src.length ≤ a') (h2 : a' + bytes.length ≤ 2 ^ 64)
    (h : MemAt (copied evs) a' bytes) :
    MemAt (copied (evs ++ [Event.memcpy a src])) a' bytes := by
  intro i hi
  rw [copied_snoc]
  have e : ¬ sub64 (a' + i) a < src.length := by
    unfold sub64 u64
    have h64 : (2 : Nat) ^ 64 = 18446744073709551616 := by norm_num
    rw [h64] at h2 ⊢
    omega
  simp only [Event.store, if_neg e]
  exact h i hi

theorem readWord_of_MemAt (mem : Nat → Option Nat) (a v : Nat) (h : MemAt mem a (le64 v)) :
    readWord mem a = some (u64 v) := by
  have h0 := h 0 (by simp [le64])
  have h1 := h 1 (by simp [le64])
  have h2 := h 2 (by simp [le64])
  have h3 := h 3 (by simp [le64])
  have h4 := h 4 (by simp [le64])
  have h5 := h 5 (by simp [le64])
  have h6 := h 6 (by simp [le64])
  have h7 := h 7 (by simp [le64])
  simp only [le64, List.range, List.range.loop, List.map, List.get?, Nat.add_zero] at h0 h1 h2 h3 h4 h5 h6 h7
  unfold readWord
  rw [h0, h1, h2, h3, h4, h5, h6, h7]
  simp only [Option.bind, Option.some.injEq]
  unfold u64
  norm_num
  omega

theorem words_append (x y : List Nat) : words (x ++ y) = words x ++ words y := by
  induction x with
  | nil => rfl
  | cons w rest ih => simp [words, ih]

theorem words_length (ws : List Nat) : (words ws).length = 8 * ws.length := by
  induction ws with
  | nil => rfl
  | cons w rest ih =>
    simp only [words, List.length_append, ih, le64_length, List.length_cons]
    omega

theorem readWords_of_MemAt (mem : Nat → Option Nat) (ws : List Nat) :
    ∀ a, MemAt mem a (words ws) → readWords mem a ws.length = some (ws.map u64) := by
  induction ws with
  | nil => intro a _; rfl
  | cons w rest ih =>
    intro a h
    simp only [words] at h
    obtain ⟨hw, hr⟩ := (MemAt_append mem a _ _).mp h
    rw [le64_length] at hr
    simp only [List.length_cons, readWords, readWord_of_MemAt mem a w hw, ih (a + 8) hr,
      List.map_cons]

/-- The words in the middle of a block of words in memory. -/
theorem readWords_slice (mem : Nat → Option Nat) (a : Nat) (x y z : List Nat)
    (h : MemAt mem a (words (x ++ y ++ z))) :
    readWords mem (a + 8 * x.length) y.length = some (y.map u64) := by
  rw [words_append, words_append] at h
  have h1 := ((MemAt_append mem a _ _).mp h).1
  have h2 := ((MemAt_append mem a _ _).mp h1).2
  rw [words_length] at h2
  exact readWords_of_MemAt mem y _ h2

/-! ## Sequences of pushes -/

theorem push_exact (lower_limit : Nat) (b : StackBuilder) (src : List Nat)
    (hacc : (b.push lower_limit src).overflow = false) (hsp : b.sp < 2 ^ 64)
    (hlen : src.length ≤ b.sp) :
    b.overflow = false ∧
    b.push lower_limit src =
      ⟨b.sp - src.length, false, b.events ++ [Event.memcpy (b.sp - src.length) src]⟩ ∧
    lower_limit ≤ b.sp - src.length := by
  unfold StackBuilder.push at hacc ⊢
  rw [sub64_of_le hsp hlen] at hacc ⊢
  by_cases hlt : b.sp - src.length < lower_limit
  · rw [if_pos hlt] at hacc
    cases hacc
  · rw [if_neg hlt] at hacc ⊢
    simp only at hacc
    refine ⟨hacc, ?_, by omega⟩
    rw [← hacc]

theorem pushAll_overflow (lower_limit : Nat) (srcs : List (List Nat)) :
    ∀ b : StackBuilder, (StackBuilder.pushAll lower_limit srcs b).overflow = false →
      b.overflow = false := by
  induction srcs with
  | nil => intro b h; exact h
  | cons src rest ih =>
    intro b h
    exact (push_accepted _ _ _ (ih _ h)).1

theorem pushAll_append (lower_limit : Nat) (x y : List (List Nat)) :
    ∀ b : StackBuilder, StackBuilder.pushAll lower_limit (x ++ y) b =
      StackBuilder.pushAll lower_limit y (StackBuilder.pushAll lower_limit x b) := by
  induction x with
  | nil => intro b; rfl
  | cons src rest ih => intro b; exact ih _

theorem spAfter_append (lower_limit : Nat) (x y : List (List Nat)) :
    ∀ b : StackBuilder, StackBuilder.spAfter lower_limit (x ++ y) b =
      StackBuilder.spAfter lower_limit x b ++
        StackBuilder.spAfter lower_limit y (StackBuilder.pushAll lower_limit x b) := by
  induction x with
  | nil => intro b; rfl
  | cons src rest ih =>
    intro b
    show (b.push lower_limit src).sp ::
        StackBuilder.spAfter lower_limit (rest ++ y) (b.push lower_limit src) = _
    rw [ih]
    rfl

theorem spAfter_length (lower_limit : Nat) (srcs : List (List Nat)) :
    ∀ b : StackBuilder, (StackBuilder.spAfter lower_limit srcs b).length = srcs.length := by
  induction srcs with
  | nil => intro b; rfl
  | cons src rest ih => intro b; simp [StackBuilder.spAfter, ih]

theorem image_append (x y : List (List Nat)) :
    StackBuilder.image (x ++ y) = StackBuilder.image y ++ StackBuilder.image x := by
  induction x with
  | nil => simp [StackBuilder.image]
  | cons src rest ih => simp [StackBuilder.image, ih]

theorem image_length (srcs : List (List Nat)) :
    (StackBuilder.image srcs).length = (srcs.map List.length).sum := by
  induction srcs with
  | nil => rfl
  | cons src rest ih =>
    simp only [StackBuilder.image, List.length_append, ih, List.map_cons, List.sum_cons]
    omega

theorem image_words (ws : List Nat) : StackBuilder.image (ws.map le64) = words ws.reverse := by
  induction ws with
  | nil => rfl
  | cons w rest ih =>
    simp only [List.map_cons, StackBuilder.image, ih, List.reverse_cons, words_append, words,
      List.append_nil]

/-- What a sequence of pushes did when each one was accepted and none wrapped around (`m` is a
lower bound of `sp` that is at most the lower limit, and no pushed block is longer than `m`):
`sp` went down by the total size, the blocks lie in memory from the final `sp` on, last pushed
first, each at the `sp` recorded after its push, and the memory at and above the initial `sp`
is as it was. -/
theorem pushAll_spec (lower_limit m : Nat) (hm : m ≤ lower_limit) :
    ∀ (srcs : List (List Nat)) (b : StackBuilder), b.sp < 2 ^ 64 → m ≤ b.sp →
      (∀ src ∈ srcs, src.length ≤ m) →
      (StackBuilder.pushAll lower_limit srcs b).overflow = false →
      b.overflow = false ∧
      (StackBuilder.pushAll lower_limit srcs b).sp + (srcs.map List.length).sum = b.sp ∧
      (srcs ≠ [] → lower_limit ≤ (StackBuilder.pushAll lower_limit srcs b).sp) ∧
      (StackBuilder.pushAll lower_limit srcs b).events.length
        = b.events.length + srcs.length ∧
      MemAt (copied (StackBuilder.pushAll lower_limit srcs b).events)
        (StackBuilder.pushAll lower_limit srcs b).sp (StackBuilder.image srcs) ∧
      List.Forall₂ (fun p src =>
          MemAt (copied (StackBuilder.pushAll lower_limit srcs b).events) p src ∧
          (StackBuilder.pushAll lower_limit srcs b).sp ≤ p ∧ p + src.length ≤ b.sp)
        (StackBuilder.spAfter lower_limit srcs b) srcs ∧
      (∀ a bytes, b.sp ≤ a → a + bytes.length ≤ 2 ^ 64 → MemAt (copied b.events) a bytes →
        MemAt (copied (StackBuilder.pushAll lower_limit srcs b).events) a bytes) := by
  intro srcs
  induction srcs with
  | nil =>
    intro b _ _ _ h
    refine ⟨h, by simp [StackBuilder.pushAll], fun h => absurd rfl h, by simp [StackBuilder.pushAll],
      MemAt_nil _ _, List.Forall₂.nil, fun a bytes _ _ h => h⟩
  | cons src rest ih =>
    intro b hsp hmb hlen h
    have hsrc : src.length ≤ m := hlen src (List.mem_cons_self _ _)
    have hacc := pushAll_overflow lower_limit rest _ h
    obtain ⟨hb, hpush, hll⟩ := push_exact lower_limit b src hacc hsp (le_trans hsrc hmb)
    have hsp1 : (b.push lower_limit src).sp = b.sp - src.length := by rw [hpush]
    have hev1 : (b.push lower_limit src).events
        = b.events ++ [Event.memcpy (b.sp - src.length) src] := by rw [hpush]
    have hle : src.length ≤ b.sp := le_trans hsrc hmb
    obtain ⟨-, i2, i3, i4, i5, i6, i7⟩ := ih (b.push lower_limit src)
      (by rw [hsp1]; omega) (by rw [hsp1]; omega)
      (fun s hs => hlen s (List.mem_cons_of_mem _ hs)) h
    have hnew : MemAt (copied (StackBuilder.pushAll lower_limit rest
        (b.push lower_limit src)).events) (b.sp - src.length) src := by
      apply i7 _ _ (by rw [hsp1]) (by omega)
      rw [hev1]
      exact MemAt_copy_new _ _ _ (by omega)
    have hfin : StackBuilder.pushAll lower_limit (src :: rest) b
        = StackBuilder.pushAll lower_limit rest (b.push lower_limit src) := rfl
    rw [hfin]
    rw [hsp1] at i2 i6
    refine ⟨hb, ?_, ?_, ?_, ?_, ?_, ?_⟩
    · simp only [List.map_cons, List.sum_cons]
      omega
    · intro _
      by_cases hr : rest = []
      · subst hr
        simp only [StackBuilder.pushAll, hsp1]
        exact hll
      · exact i3 hr
    · rw [i4, hev1]
      simp only [List.length_append, List.length_cons, List.length_nil]
      omega
    · simp only [StackBuilder.image]
      rw [MemAt_append]
      refine ⟨i5, ?_⟩
      rw [image_length]
      have e : (StackBuilder.pushAll lower_limit rest (b.push lower_limit src)).sp
          + (rest.map List.length).sum = b.sp - src.length := i2
      rw [e]
      exact hnew
    · simp only [StackBuilder.spAfter]
      refine List.Forall₂.cons ⟨by rw [hsp1]; exact hnew, by rw [hsp1]; omega,
        by rw [hsp1]; omega⟩ ?_
      exact List.Forall₂.imp (fun p s hps => ⟨hps.1, hps.2.1, by have := hps.2.2; omega⟩) i6
    · intro a bytes ha hb' hmem
      apply i7 a bytes (by rw [hsp1]; omega) hb'
      rw [hev1]
      exact MemAt_copy_old _ _ _ _ _ (by omega) hb' hmem

/-! ## `SetupCompartmentStack` as sequences of pushes -/

theorem args_eq_pushAll (lower_limit : Nat) (args : List (List Nat)) :
    ∀ (b : StackBuilder) (argv_str : List Nat),
      SetupCompartmentStack.args lower_limit args b argv_str =
        (StackBuilder.pushAll lower_limit (args.map (fun arg => arg ++ [0])) b,
         argv_str ++ StackBuilder.spAfter lower_limit (args.map (fun arg => arg ++ [0])) b) := by
  induction args with
  | nil => intro b argv_str; simp [SetupCompartmentStack.args, StackBuilder.pushAll,
      StackBuilder.spAfter]
  | cons arg rest ih =>
    intro b argv_str
    simp only [SetupCompartmentStack.args, ih, List.map_cons, StackBuilder.pushAll,
      StackBuilder.spAfter, List.append_assoc, List.singleton_append]

theorem push_words_eq_pushAll (lower_limit : Nat) (ws : List Nat) :
    ∀ b : StackBuilder, StackBuilder.push_words lower_limit ws b =
      StackBuilder.pushAll lower_limit (ws.map le64) b := by
  induction ws with
  | nil => intro b; rfl
  | cons w rest ih =>
    intro b
    simp only [StackBuilder.push_words, ih, List.map_cons, StackBuilder.pushAll]

theorem envEntry_mem {environ : List (List Nat)} {name str : List Nat}
    (h : envEntry environ name = some str) :
    str ∈ environ ∧ (name ++ [0x3d]).isPrefixOf str = true := by
  unfold envEntry at h
  exact ⟨List.mem_of_find?_eq_some h, by simpa using List.find?_some h⟩

/-- A returning run of the environment loop found every name, and pushed the entries found in
the order of the names. -/
theorem envs_ok (lower_limit : Nat) (environ : List (List Nat)) (names : List (List Nat))
    (h0 : ∀ name ∈ names, ∀ c ∈ name, c ≠ 0) :
    ∀ (b b' : StackBuilder) (envp_str envp_str' : List Nat),
      SetupCompartmentStack.envs lower_limit environ names b envp_str = .ok (b', envp_str') →
      (names.filterMap (envEntry environ)).length = names.length ∧
      b' = StackBuilder.pushAll lower_limit
        ((names.filterMap (envEntry environ)).map cstring) b ∧
      envp_str' = envp_str ++ StackBuilder.spAfter lower_limit
        ((names.filterMap (envEntry environ)).map cstring) b := by
  induction names with
  | nil =>
    intro b b' envp_str envp_str' h
    simp only [SetupCompartmentStack.envs, Except.ok.injEq, Prod.mk.injEq] at h
    simp [StackBuilder.pushAll, StackBuilder.spAfter, h.1, h.2]
  | cons name rest ih =>
    intro b b' envp_str envp_str' h
    have hspec := GetFullEnvString_spec name (h0 name (List.mem_cons_self _ _)) environ
    have ih' := ih (fun n hn => h0 n (List.mem_cons_of_mem _ hn))
    unfold SetupCompartmentStack.envs at h
    rw [hspec] at h
    rcases hentry : envEntry environ name with _ | str
    · rw [hentry] at h
      simp at h
    · rw [hentry] at h
      simp only at h
      obtain ⟨i1, i2, i3⟩ := ih' _ _ _ _ h
      simp only [List.filterMap_cons, hentry, List.length_cons, i1, List.map_cons,
        StackBuilder.pushAll, StackBuilder.spAfter, true_and]
      refine ⟨?_, ?_⟩
      · rw [i2]; rfl
      · rw [i3]
        simp only [cstring, List.append_assoc, List.singleton_append]

theorem kCompartmentPropagatedEnv_no_nul :
    ∀ name ∈ kCompartmentPropagatedEnv, ∀ c ∈ name, c ≠ 0 := by decide

theorem blocks_pushAll (lower_limit : Nat) (host : Host) (exec : StaticElfExecutable)
    (args : List (List Nat)) (argv_str envp_str : List Nat) (at_random : Nat)
    (b : StackBuilder) :
    (StackBuilder.push_words lower_limit argv_str.reverse
      ((StackBuilder.push_words lower_limit envp_str
        ((((((((b.set_auxval lower_limit AT_NULL 0).set_auxval lower_limit AT_RANDOM
          at_random).set_auxval lower_limit AT_SECURE 0).set_auxval lower_limit AT_PHNUM
          (exec.GetAuxval AT_PHNUM)).set_auxval lower_limit AT_PHENT
          (exec.GetAuxval AT_PHENT)).set_auxval lower_limit AT_PHDR
          (exec.GetAuxval AT_PHDR)).set_auxval lower_limit AT_PAGESZ host.at_pagesz).push
          lower_limit (le64 0))).push lower_limit (le64 0))).push lower_limit
      (le64 args.length) =
    StackBuilder.pushAll lower_limit
      (SetupCompartmentStack.blocks host exec args argv_str envp_str at_random) b := by
  simp only [StackBuilder.set_auxval, push_words_eq_pushAll, SetupCompartmentStack.blocks,
    pushAll_append]
  rfl

/-- A returning run of `SetupCompartmentStack` as two sequences of pushes with the alignment of
`sp` between them. -/
theorem SetupCompartmentStack_ok_eq {host : Host} {stack_top stack_size : Nat}
    {args : List (List Nat)} {exec : StaticElfExecutable} {ok : Bool} {sp : Nat}
    {evs : List Event}
    (h : SetupCompartmentStack host stack_top stack_size args exec = .ok (ok, sp, evs)) :
    ∃ (buf : List Nat) (b1 b3 : StackBuilder) (argv_str envp_str : List Nat),
      host.getrandom = some buf ∧
      (kCompartmentPropagatedEnv.filterMap (envEntry host.environ)).length
        = kCompartmentPropagatedEnv.length ∧
      argv_str = StackBuilder.spAfter (sub64 stack_top (stack_size / 2))
        (args.map (fun arg => arg ++ [0])) ⟨stack_top, false, []⟩ ∧
      envp_str = StackBuilder.spAfter (sub64 stack_top (stack_size / 2))
        ((kCompartmentPropagatedEnv.filterMap (envEntry host.environ)).map cstring)
        (StackBuilder.pushAll (sub64 stack_top (stack_size / 2))
          (args.map (fun arg => arg ++ [0])) ⟨stack_top, false, []⟩) ∧
      b1 = StackBuilder.pushAll (sub64 stack_top (stack_size / 2))
        (args.map (fun arg => arg ++ [0]) ++
          (kCompartmentPropagatedEnv.filterMap (envEntry host.environ)).map cstring ++
          [(buf ++ List.replicate 16 0).take 16]) ⟨stack_top, false, []⟩ ∧
      b3 = StackBuilder.pushAll (sub64 stack_top (stack_size / 2))
        (SetupCompartmentStack.blocks host exec args argv_str envp_str b1.sp)
        ⟨sub64 b1.sp (sub64 b1.sp
            (u64 ((envp_str.length + 1 + argv_str.length + 1 + 1) * 8)) &&& 0xf),
          b1.overflow, b1.events⟩ ∧
      ok = !b3.overflow ∧ sp = b3.sp ∧ evs = b3.events := by
  unfold SetupCompartmentStack at h
  simp only at h
  rw [args_eq_pushAll] at h
  simp only [List.nil_append] at h
  rcases hE : SetupCompartmentStack.envs (sub64 stack_top (stack_size / 2)) host.environ
      kCompartmentPropagatedEnv
      (StackBuilder.pushAll (sub64 stack_top (stack_size / 2))
        (args.map (fun arg => arg ++ [0])) ⟨stack_top, false, []⟩) [] with evs' | ⟨bE, envp⟩
  · rw [hE] at h
    simp at h
  · rw [hE] at h
    simp only at h
    obtain ⟨e1, e2, e3⟩ := envs_ok _ _ _ kCompartmentPropagatedEnv_no_nul _ _ _ _ hE
    rw [List.nil_append] at e3
    rcases hg : host.getrandom with _ | buf
    · rw [hg] at h
      simp at h
    · rw [hg] at h
      simp only at h
      rw [blocks_pushAll] at h
      simp only [Except.ok.injEq, Prod.mk.injEq] at h
      obtain ⟨h1, h2, h3⟩ := h
      have hb1 : StackBuilder.pushAll (sub64 stack_top (stack_size / 2))
          (args.map (fun arg => arg ++ [0]) ++
            (kCompartmentPropagatedEnv.filterMap (envEntry host.environ)).map cstring ++
            [(buf ++ List.replicate 16 0).take 16]) ⟨stack_top, false, []⟩
          = bE.push (sub64 stack_top (stack_size / 2)) ((buf ++ List.replicate 16 0).take 16) := by
        rw [pushAll_append, pushAll_append, ← e2]
        rfl
      refine ⟨buf, _, _, _, _, rfl, e1, rfl, rfl, rfl, rfl, ?_, ?_, ?_⟩
      · rw [← h1, hb1, ← e3]
      · rw [← h2, hb1, ← e3]
      · rw [← h3, hb1, ← e3]

theorem image_blocks (host : Host) (exec : StaticElfExecutable) (args : List (List Nat))
    (argv_str envp_str : List Nat) (at_random : Nat) :
    StackBuilder.image (SetupCompartmentStack.blocks host exec args argv_str envp_str at_random)
      = words (SetupCompartmentStack.startupWords host exec args argv_str envp_str
          at_random) := by
  simp only [SetupCompartmentStack.blocks, SetupCompartmentStack.startupWords, image_append,
    image_words, List.reverse_reverse, words_append]
  simp only [words, StackBuilder.image, List.append_assoc, List.nil_append, List.append_nil]

theorem blocks_length (host : Host) (exec : StaticElfExecutable) (args : List (List Nat))
    (argv_str envp_str : List Nat) (at_random : Nat) :
    ∀ src ∈ SetupCompartmentStack.blocks host exec args argv_str envp_str at_random,
      src.length ≤ 16 := by
  intro src hsrc
  simp only [SetupCompartmentStack.blocks, List.mem_append, List.mem_cons, List.mem_map,
    List.mem_singleton, List.not_mem_nil, or_false] at hsrc
  rcases hsrc with (((h | h) | h) | h) | h
  · rcases h with h | h | h | h | h | h | h | h <;> subst h <;>
      simp [le64_length]
  · obtain ⟨w, -, rfl⟩ := h
    simp [le64_length]
  · subst h
    simp [le64_length]
  · obtain ⟨w, -, rfl⟩ := h
    simp [le64_length]
  · subst h
    simp [le64_length]

theorem sum_length_ge (args : List (List Nat)) :
    args.length ≤ ((args.map (fun arg => arg ++ [0])).map List.length).sum := by
  induction args with
  | nil => simp
  | cons arg rest ih =>
    simp only [List.map_cons, List.sum_cons, List.length_cons, List.length_append,
      List.length_nil]
    omega

theorem forall₂_append_split {α β : Type} {R : α → β → Prop} :
    ∀ (l1 l2 : List α) (r1 r2 : List β), l1.length = r1.length →
      List.Forall₂ R (l1 ++ l2) (r1 ++ r2) → List.Forall₂ R l1 r1 ∧ List.Forall₂ R l2 r2 := by
  intro l1
  induction l1 with
  | nil =>
    intro l2 r1 r2 hlen h
    rcases r1 with _ | ⟨y, ys⟩
    · exact ⟨List.Forall₂.nil, h⟩
    · simp at hlen
  | cons x xs ih =>
    intro l2 r1 r2 hlen h
    rcases r1 with _ | ⟨y, ys⟩
    · simp at hlen
    · simp only [List.cons_append, List.forall₂_cons] at h
      obtain ⟨i1, i2⟩ := ih l2 ys r2 (by simpa using hlen) h.2
      exact ⟨List.Forall₂.cons h.1 i1, i2⟩

theorem cstring_length_le (s : List Nat) : (cstring s).length ≤ s.length + 1 := by
  unfold cstring
  have := (List.takeWhile_prefix (fun c => decide (c ≠ 0)) (l := s)).length_le
  simp only [List.length_append, List.length_cons, List.length_nil]
  omega

/-- The start-up image a successful run of `SetupCompartmentStack` leaves in memory, when no
address wraps around: the words from the final `sp` on, and the strings and random bytes the
pointers among them refer to. -/
theorem SetupCompartmentStack_image {host : Host} {stack_top stack_size : Nat}
    {args : List (List Nat)} {exec : StaticElfExecutable} {sp : Nat} {evs : List Event}
    (hroom : StackRoom host stack_top stack_size args)
    (h : SetupCompartmentStack host stack_top stack_size args exec = .ok (true, sp, evs)) :
    ∃ (buf argv_str envp_str : List Nat) (at_random : Nat),
      host.getrandom = some buf ∧
      List.Forall₂ (fun p arg => MemAt (copied evs) p (arg ++ [0]) ∧ p < 2 ^ 64)
        argv_str args ∧
      List.Forall₂ (fun p str => MemAt (copied evs) p (cstring str) ∧ p < 2 ^ 64) envp_str
        (kCompartmentPropagatedEnv.filterMap (envEntry host.environ)) ∧
      MemAt (copied evs) at_random ((buf ++ List.replicate 16 0).take 16) ∧
      at_random < 2 ^ 64 ∧ args.length < 2 ^ 64 ∧
      MemAt (copied evs) sp
        (words (SetupCompartmentStack.startupWords host exec args argv_str envp_str
          at_random)) := by
  obtain ⟨buf, b1, b3, argv, envp, hg, -, hargv, henvp, hb1, hb3, hok, hsp, hevs⟩ :=
    SetupCompartmentStack_ok_eq h
  obtain ⟨htop, hhalf, hargs, henv⟩ := hroom
  have hL : sub64 stack_top (stack_size / 2) = stack_top - stack_size / 2 :=
    sub64_of_le htop (by omega)
  rw [hL] at hargv henvp hb1 hb3
  have hov3 : b3.overflow = false := by
    cases hb : b3.overflow
    · rfl
    · rw [hb] at hok
      cases hok
  have hov1 : b1.overflow = false := by
    rw [hb3] at hov3
    have := pushAll_overflow _ _ _ hov3
    exact this
  -- the strings and the random bytes
  have hlen1 : ∀ src ∈ args.map (fun arg => arg ++ [0]) ++
      (kCompartmentPropagatedEnv.filterMap (envEntry host.environ)).map cstring ++
      [(buf ++ List.replicate 16 0).take 16],
      src.length ≤ stack_top - stack_size / 2 - 15 := by
    intro src hsrc
    simp only [List.mem_append, List.mem_map, List.mem_filterMap, List.mem_singleton] at hsrc
    rcases hsrc with (⟨arg, harg, rfl⟩ | ⟨str, ⟨name, -, hname⟩, rfl⟩) | rfl
    · have := hargs arg harg
      simp only [List.length_append, List.length_cons, List.length_nil]
      omega
    · have := henv str (envEntry_mem hname).1
      have := cstring_length_le str
      omega
    · simp only [List.length_take, List.length_append, List.length_replicate]
      omega
  obtain ⟨-, p2, p3, -, -, p6, -⟩ := pushAll_spec (stack_top - stack_size / 2)
    (stack_top - stack_size / 2 - 15) (by omega) _ ⟨stack_top, false, []⟩ htop (by simp; omega)
    hlen1 (by rw [← hb1]; exact hov1)
  rw [← hb1] at p2 p3 p6
  simp only at p2 p6
  have hp3 : stack_top - stack_size / 2 ≤ b1.sp := p3 (by simp)
  have hb1sp : b1.sp < 2 ^ 64 := by omega
  -- the alignment
  have hk : sub64 b1.sp (u64 ((envp.length + 1 + argv.length + 1 + 1) * 8)) &&& 0xf ≤ 15 :=
    Nat.and_le_right
  have hadj : sub64 b1.sp
      (sub64 b1.sp (u64 ((envp.length + 1 + argv.length + 1 + 1) * 8)) &&& 0xf)
      = b1.sp - (sub64 b1.sp (u64 ((envp.length + 1 + argv.length + 1 + 1) * 8)) &&& 0xf) :=
    sub64_of_le hb1sp (by omega)
  rw [hadj] at hb3
  -- the words
  have hlen2 : ∀ src ∈ SetupCompartmentStack.blocks host exec args argv envp b1.sp,
      src.length ≤ stack_top - stack_size / 2 - 15 := by
    intro src hsrc
    have := blocks_length host exec args argv envp b1.sp src hsrc
    omega
  obtain ⟨-, -, -, -, q5, -, q7⟩ := pushAll_spec (stack_top - stack_size / 2)
    (stack_top - stack_size / 2 - 15) (by omega) _
    ⟨b1.sp - (sub64 b1.sp (u64 ((envp.length + 1 + argv.length + 1 + 1) * 8)) &&& 0xf),
      b1.overflow, b1.events⟩ (by simp only; omega) (by simp only; omega) hlen2
    (by rw [← hb3]; exact hov3)
  rw [← hb3, ← hevs] at q5 q7
  rw [← hsp, image_blocks] at q5
  simp only at q7
  -- the pointers recorded in the first phase
  have hsplit : StackBuilder.spAfter (stack_top - stack_size / 2)
      (args.map (fun arg => arg ++ [0]) ++
        (kCompartmentPropagatedEnv.filterMap (envEntry host.environ)).map cstring ++
        [(buf ++ List.replicate 16 0).take 16]) ⟨stack_top, false, []⟩
      = argv ++ envp ++ [b1.sp] := by
    rw [spAfter_append, spAfter_append, ← hargv, ← henvp, hb1]
    simp only [pushAll_append]
    rfl
  rw [hsplit] at p6
  have keep : ∀ (p : Nat) (src : List Nat),
      (MemAt (copied b1.events) p src ∧ b1.sp ≤ p ∧ p + src.length ≤ stack_top) →
      MemAt (copied evs) p src ∧ p < 2 ^ 64 := by
    intro p src ⟨m1, m2, m3⟩
    exact ⟨q7 p src (by omega) (by omega) m1, by omega⟩
  have p6' := List.Forall₂.imp (fun p src hps => keep p src hps) p6
  have lenA : argv.length = (args.map (fun arg => arg ++ [0])).length := by
    rw [hargv, spAfter_length]
  have lenE : envp.length
      = ((kCompartmentPropagatedEnv.filterMap (envEntry host.environ)).map cstring).length := by
    rw [henvp, spAfter_length]
  obtain ⟨hAE, hR⟩ := forall₂_append_split _ _ _ _
    (by rw [List.length_append, List.length_append, lenA, lenE]) p6'
  obtain ⟨hA, hE⟩ := forall₂_append_split _ _ _ _ lenA hAE
  have hR1 := (List.forall₂_cons.mp hR).1
  refine ⟨buf, argv, envp, b1.sp, hg, ?_, ?_, hR1.1, hb1sp, ?_, q5⟩
  · rw [List.forall₂_map_right_iff] at hA
    exact hA
  · rw [List.forall₂_map_right_iff] at hE
    exact hE
  · have := sum_length_ge args
    simp only [List.map_append, List.sum_append] at p2
    omega

theorem map_u64_of_lt (l : List Nat) (h : ∀ p ∈ l, p < 2 ^ 64) : l.map u64 = l := by
  induction l with
  | nil => rfl
  | cons p rest ih =>
    simp only [List.map_cons, u64_of_lt (h p (List.mem_cons_self _ _)),
      ih (fun q hq => h q (List.mem_cons_of_mem _ hq))]

theorem forall₂_left_all {α β : Type} {R : α → β → Prop} {P : α → Prop} :
    ∀ (l : List α) (r : List β), List.Forall₂ (fun a b => R a b ∧ P a) l r →
      (∀ a ∈ l, P a) ∧ List.Forall₂ R l r := by
  intro l r h
  induction h with
  | nil => exact ⟨fun a ha => by simp at ha, List.Forall₂.nil⟩
  | cons hab _ ih =>
    refine ⟨?_, List.Forall₂.cons hab.1 ih.2⟩
    intro a ha
    rcases List.mem_cons.mp ha with rfl | ha
    · exact hab.2
    · exact ih.1 a ha

/-- The start-up image of a successful run of `SetupCompartmentStack`, word by word: `argc`,
`argv` and its null pointer at the final `sp`; then `envp` (the pointers in the reverse of the
order of their pushes) and its null pointer; then the seven auxiliary entries. -/
theorem SetupCompartmentStack_words {host : Host} {stack_top stack_size : Nat}
    {args : List (List Nat)} {exec : StaticElfExecutable} {sp : Nat} {evs : List Event}
    (hroom : StackRoom host stack_top stack_size args)
    (h : SetupCompartmentStack host stack_top stack_size args exec = .ok (true, sp, evs)) :
    ∃ (buf argv_str envp_str : List Nat) (at_random : Nat),
      host.getrandom = some buf ∧
      List.Forall₂ (fun p arg => MemAt (copied evs) p (arg ++ [0])) argv_str args ∧
      List.Forall₂ (fun p str => MemAt (copied evs) p (cstring str)) envp_str
        (kCompartmentPropagatedEnv.filterMap (envEntry host.environ)) ∧
      MemAt (copied evs) at_random ((buf ++ List.replicate 16 0).take 16) ∧
      readWords (copied evs) sp (args.length + 2) = some (args.length :: argv_str ++ [0]) ∧
      readWords (copied evs) (sp + 8 * (args.length + 2)) (envp_str.length + 1)
        = some (envp_str.reverse ++ [0]) ∧
      readWords (copied evs) (sp + 8 * (args.length + 2 + (envp_str.length + 1))) 14
        = some [AT_PAGESZ, u64 host.at_pagesz, AT_PHDR, u64 (exec.GetAuxval AT_PHDR),
            AT_PHENT, u64 (exec.GetAuxval AT_PHENT), AT_PHNUM, u64 (exec.GetAuxval AT_PHNUM),
            AT_SECURE, 0, AT_RANDOM, at_random, AT_NULL, 0] := by
  obtain ⟨buf, argv, envp, at_random, hg, hA, hE, hR, hr, hN, hW⟩ :=
    SetupCompartmentStack_image hroom h
  obtain ⟨hAlt, hA'⟩ := forall₂_left_all _ _ hA
  obtain ⟨hElt, hE'⟩ := forall₂_left_all _ _ hE
  have lenA : argv.length = args.length := hA'.length_eq
  refine ⟨buf, argv, envp, at_random, hg, hA', hE', hR, ?_, ?_, ?_⟩
  · have := readWords_slice (copied evs) sp [] ([args.length] ++ argv ++ [0])
      ((envp.reverse ++ [0]) ++
        [AT_PAGESZ, host.at_pagesz, AT_PHDR, exec.GetAuxval AT_PHDR,
         AT_PHENT, exec.GetAuxval AT_PHENT, AT_PHNUM, exec.GetAuxval AT_PHNUM,
         AT_SECURE, 0, AT_RANDOM, at_random, AT_NULL, 0])
      (by simpa only [SetupCompartmentStack.startupWords, List.append_assoc, List.nil_append]
        using hW)
    simp only [List.length_nil, Nat.mul_zero, Nat.add_zero, List.length_append,
      List.length_cons, lenA, List.map_append, List.map_cons, List.map_nil,
      map_u64_of_lt argv hAlt, u64_of_lt hN] at this
    rw [show 0 + 1 + args.length + (0 + 1) = args.length + 2 by omega] at this
    rw [this]
    simp [u64]
  · have := readWords_slice (copied evs) sp ([args.length] ++ argv ++ [0]) (envp.reverse ++ [0])
      [AT_PAGESZ, host.at_pagesz, AT_PHDR, exec.GetAuxval AT_PHDR,
       AT_PHENT, exec.GetAuxval AT_PHENT, AT_PHNUM, exec.GetAuxval AT_PHNUM,
       AT_SECURE, 0, AT_RANDOM, at_random, AT_NULL, 0]
      (by simpa only [SetupCompartmentStack.startupWords] using hW)
    simp only [List.length_append, List.length_cons, List.length_nil, lenA,
      List.length_reverse, List.map_append, List.map_cons, List.map_nil,
      map_u64_of_lt envp.reverse (fun p hp => hElt p (List.mem_reverse.mp hp))] at this
    rw [show 0 + 1 + args.length + (0 + 1) = args.length + 2 by omega,
      show envp.length + (0 + 1) = envp.length + 1 by omega] at this
    rw [this]
    simp [u64]
  · have := readWords_slice (copied evs) sp (([args.length] ++ argv ++ [0]) ++
        (envp.reverse ++ [0]))
      [AT_PAGESZ, host.at_pagesz, AT_PHDR, exec.GetAuxval AT_PHDR,
       AT_PHENT, exec.GetAuxval AT_PHENT, AT_PHNUM, exec.GetAuxval AT_PHNUM,
       AT_SECURE, 0, AT_RANDOM, at_random, AT_NULL, 0] []
      (by simpa only [SetupCompartmentStack.startupWords, List.append_nil] using hW)
    simp only [List.length_append, List.length_cons, List.length_nil, lenA,
      List.length_reverse, List.map_cons, List.map_nil, u64_of_lt hr] at this
    rw [show 0 + 1 + args.length + (0 + 1) + (envp.length + (0 + 1))
        = args.length + 2 + (envp.length + 1) by omega] at this
    simp only [Nat.zero_add, Nat.reduceAdd] at this
    rw [this]
    simp [u64, AT_PAGESZ, AT_PHDR, AT_PHENT, AT_PHNUM, AT_SECURE, AT_RANDOM, AT_NULL]

/-! ## `SetupCompartmentStack`: the start-up image -/

theorem cstring_of_no_nul {s : List Nat} (h : ∀ c ∈ s, c ≠ 0) : cstring s = s ++ [0] := by
  unfold cstring
  rw [List.takeWhile_eq_self_iff.mpr]
  intro c hc
  simpa using h c hc

theorem forall₂_imp_mem {α β : Type} {R S : α → β → Prop} :
    ∀ (l : List α) (r : List β), List.Forall₂ R l r →
      (∀ a b, a ∈ l → b ∈ r → R a b → S a b) → List.Forall₂ S l r := by
  intro l r h
  induction h with
  | nil => intro _; exact List.Forall₂.nil
  | cons hab _ ih =>
    intro himp
    exact List.Forall₂.cons (himp _ _ (List.mem_cons_self _ _) (List.mem_cons_self _ _) hab)
      (ih (fun a b ha hb => himp a b (List.mem_cons_of_mem _ ha) (List.mem_cons_of_mem _ hb)))

/-- C21: whenever `SetupCompartmentStack` returns true for the arguments `args[0..N-1]` (and no
address wraps around while the image is built), the 64-bit word at the final stack pointer is
`N`, the next `N` words are pointers `argv[0..N-1]`, the word after them is 0, and `argv[i]`
points to a copy of `args[i]` followed by a NUL, for each `i` in the original order. Moreover a
call of `CompartmentAdd(id, path, args, ...)` that returns has run `SetupCompartmentStack` on
the stack top that `SetupMappings` reported, with the path followed by `args` as arguments;
that run returned true, its copies are in the trace right after the mappings, the compartment
was entered afterwards with the final stack pointer of that run as the address of its stack
pointer capability, and the image there has `argc = 1 + |args|`, `argv[0]` pointing to a copy
of the path and `argv[1..]` to copies of `args`, in order. -/
theorem SetupCompartmentStack_argv (host : Host) (stack_top stack_size : Nat)
    (args : List (List Nat)) (exec : StaticElfExecutable) (sp : Nat) (evs : List Event)
    (hroom : StackRoom host stack_top stack_size args)
    (h : SetupCompartmentStack host stack_top stack_size args exec = .ok (true, sp, evs)) :
    (∃ argv : List Nat,
      readWords (copied evs) sp (args.length + 2) = some (args.length :: argv ++ [0]) ∧
      List.Forall₂ (fun p arg => MemAt (copied evs) p (arg ++ [0])) argv args) ∧
    (∀ (m m' : Manager) (id : Nat) (path : List Nat) (cargs : List (List Nat))
        (memory_range_length : Nat),
      CompartmentAdd host m id path cargs memory_range_length = .ok m' →
      ∃ fd elf final_sp copies post registry desc,
        host.open_file path = some fd ∧
        (StaticElfExecutable.create fd host.page_size).Read = some (true, elf) ∧
        SetupCompartmentStack host
          (SetupMappings host m elf memory_range_length kCompartmentStackSize).stack_top
          kCompartmentStackSize (path :: cargs) elf = .ok (true, final_sp, copies) ∧
        m'.trace = m.trace ++
          (SetupMappings host m elf memory_range_length kCompartmentStackSize).events ++
          copies ++ post ∧
        Event.compartment_call id registry ∈ post ∧
        registry.get? id = some desc ∧
        desc.csp = archcap_c_address_set nullCap final_sp ∧
        (StackRoom host
            (SetupMappings host m elf memory_range_length kCompartmentStackSize).stack_top
            kCompartmentStackSize (path :: cargs) →
          ∃ argv : List Nat,
            readWords (copied copies) final_sp (cargs.length + 3)
              = some ((cargs.length + 1) :: argv ++ [0]) ∧
            List.Forall₂ (fun p arg => MemAt (copied copies) p (arg ++ [0])) argv
              (path :: cargs))) := by
  obtain ⟨buf, argv, envp, at_random, -, hA, -, -, hw, -, -⟩ :=
    SetupCompartmentStack_words hroom h
  refine ⟨⟨argv, hw, hA⟩, ?_⟩
  intro m m' id path cargs len hadd
  obtain ⟨fd, elf, e, c, r, b, t, -, hopen, hread, -, -, -, hsetup⟩ := CompartmentAdd_ok hadd
  obtain ⟨final_sp, copies, -, hstack, hfin⟩ := CompartmentAdd_setup_ok hsetup
  obtain ⟨csp, ctpidr, hid, -, -, rfl⟩ := CompartmentAdd_finish_ok hfin
  refine ⟨fd, elf, final_sp, copies,
    [Event.store_word b
        (SetupMappings host m elf len kCompartmentStackSize).mmap_range.base,
      Event.store_word t
        (SetupMappings host m elf len kCompartmentStackSize).mmap_range.top,
      Event.store_cap r (CompartmentAdd.manager_entry host host.CompartmentSwitchReturn),
      Event.compartment_call id (m.cm_compartments.set id
        { csp := archcap_c_address_set nullCap final_sp
          ddc := CompartmentAdd.ddc host elf len
          ctpidr := nullCap
          entry_point := CompartmentAdd.init_entry_point host elf e
          update_on_return := true }),
      Event.store_cap c (CompartmentAdd.manager_entry host host.CompartmentSwitch)],
    m.cm_compartments.set id
      { csp := archcap_c_address_set nullCap final_sp
        ddc := CompartmentAdd.ddc host elf len
        ctpidr := nullCap
        entry_point := CompartmentAdd.init_entry_point host elf e
        update_on_return := true },
    { csp := archcap_c_address_set nullCap final_sp
      ddc := CompartmentAdd.ddc host elf len
      ctpidr := nullCap
      entry_point := CompartmentAdd.init_entry_point host elf e
      update_on_return := true },
    hopen, hread, hstack, ?_, ?_, ?_, rfl, ?_⟩
  · simp only [List.append_assoc, List.cons_append, List.nil_append]
  · simp only [List.mem_cons, true_or, or_true]
  · simp only [List.get?_eq_getElem?, List.getElem?_set_self hid]
  · intro hroom2
    obtain ⟨-, argv2, -, -, -, hA2, -, -, hw2, -, -⟩ := SetupCompartmentStack_words hroom2 hstack
    exact ⟨argv2, hw2, hA2⟩

/-- Witness for C21: the sample host, the stack top 0x1000F000 and the arguments `"a"` and
`"bc"`; and the call `CompartmentAdd(0, "a", {}, ...)` of the sample run, whose compartment is
entered with `argc = 1` and `argv[0]` pointing to a copy of `"a"`. -/
theorem SetupCompartmentStack_argv_witness :
    (∃ sp evs,
      SetupCompartmentStack (Sample.host (Sample.run_below 512)) 0x1000F000
        kCompartmentStackSize [[0x61], [0x62, 0x63]] Sample.elfA = .ok (true, sp, evs) ∧
      ∃ argv : List Nat,
        readWords (copied evs) sp 4 = some (2 :: argv ++ [0]) ∧
        List.Forall₂ (fun p arg => MemAt (copied evs) p (arg ++ [0])) argv
          [[0x61], [0x62, 0x63]]) ∧
    (∃ final_sp copies post registry desc,
      CompartmentAdd (Sample.host (Sample.run_below 512)) Sample.manager0 0 [0x61] []
        kCompartmentMemoryRangeLength = .ok (Sample.manager1 (Sample.run_below 512)) ∧
      SetupCompartmentStack (Sample.host (Sample.run_below 512)) 0x1000F000
        kCompartmentStackSize [[0x61]] Sample.elfA = .ok (true, final_sp, copies) ∧
      (Sample.manager1 (Sample.run_below 512)).trace = Sample.manager0.trace ++
        (SetupMappings (Sample.host (Sample.run_below 512)) Sample.manager0 Sample.elfA
          kCompartmentMemoryRangeLength kCompartmentStackSize).events ++ copies ++ post ∧
      Event.compartment_call 0 registry ∈ post ∧
      registry.get? 0 = some desc ∧
      desc.csp = archcap_c_address_set nullCap final_sp ∧
      ∃ argv : List Nat,
        readWords (copied copies) final_sp 3 = some (1 :: argv ++ [0]) ∧
        List.Forall₂ (fun p arg => MemAt (copied copies) p (arg ++ [0])) argv [[0x61]]) := by
  refine ⟨⟨_, _, by rfl, (SetupCompartmentStack_argv (Sample.host (Sample.run_below 512))
      0x1000F000 kCompartmentStackSize [[0x61], [0x62, 0x63]] Sample.elfA _ _
      ⟨by decide, by decide, by decide, by decide⟩ (by rfl)).1⟩, ?_⟩
  obtain ⟨fd, elf, final_sp, copies, post, registry, desc, h1, h2, h3, h4, h5, h6, h7, h8⟩ :=
    (SetupCompartmentStack_argv (Sample.host (Sample.run_below 512)) 0x1000F000
      kCompartmentStackSize [[0x61], [0x62, 0x63]] Sample.elfA _ _
      ⟨by decide, by decide, by decide, by decide⟩ (by rfl)).2
      Sample.manager0 (Sample.manager1 (Sample.run_below 512)) 0 [0x61] []
      kCompartmentMemoryRangeLength (by rfl)
  have e1 : (Sample.host (Sample.run_below 512)).open_file [0x61]
      = some (Sample.file 0x10000 2) := by rfl
  rw [e1] at h1
  have hfd : fd = Sample.file 0x10000 2 := (Option.some.inj h1).symm
  subst hfd
  have e2 : (StaticElfExecutable.create (Sample.file 0x10000 2)
      (Sample.host (Sample.run_below 512)).page_size).Read = some (true, Sample.elfA) := by rfl
  rw [e2] at h2
  have helf : elf = Sample.elfA := (Prod.mk.inj (Option.some.inj h2)).2.symm
  subst helf
  have e3 : (SetupMappings (Sample.host (Sample.run_below 512)) Sample.manager0 Sample.elfA
      kCompartmentMemoryRangeLength kCompartmentStackSize).stack_top = 0x1000F000 := by rfl
  rw [e3] at h3 h8
  exact ⟨final_sp, copies, post, registry, desc, by rfl, h3, h4, h5, h6, h7,
    h8 ⟨by decide, by decide, by decide, by decide⟩⟩

/-- C22: whenever `SetupCompartmentStack` returns true (and no address wraps around while the
image is built; the entries of `environ` are C strings), the words that follow the null
pointer of `argv` are one pointer for each name of `kCompartmentPropagatedEnv` that has an
entry `name=value` in the host environment, and then a null pointer; each pointer points to a
copy of the first such entry of its name, followed by a NUL. A name without an entry would
contribute no pointer, but no run with such a name returns: on a true return every name of
the list has an entry. -/
theorem SetupCompartmentStack_envp (host : Host) (stack_top stack_size : Nat)
    (args : List (List Nat)) (exec : StaticElfExecutable) (sp : Nat) (evs : List Event)
    (hroom : StackRoom host stack_top stack_size args)
    (hC : ∀ str ∈ host.environ, ∀ c ∈ str, c ≠ 0)
    (h : SetupCompartmentStack host stack_top stack_size args exec = .ok (true, sp, evs)) :
    (∃ envp : List Nat,
      readWords (copied evs) (sp + 8 * (args.length + 2)) (envp.length + 1)
        = some (envp ++ [0]) ∧
      List.Forall₂ (fun p str => MemAt (copied evs) p (str ++ [0])) envp
        (kCompartmentPropagatedEnv.filterMap (envEntry host.environ)).reverse) ∧
    (kCompartmentPropagatedEnv.filterMap (envEntry host.environ)).length
      = kCompartmentPropagatedEnv.length := by
  obtain ⟨buf, argv, envp, at_random, -, -, hE, -, -, hw, -⟩ :=
    SetupCompartmentStack_words hroom h
  obtain ⟨-, -, -, -, -, -, hall, -⟩ := SetupCompartmentStack_ok_eq h
  refine ⟨⟨envp.reverse, ?_, ?_⟩, hall⟩
  · rw [List.length_reverse]
    exact hw
  · rw [List.forall₂_reverse_iff]
    refine forall₂_imp_mem _ _ hE ?_
    intro p str _ hstr hmem
    obtain ⟨name, -, hname⟩ := List.mem_filterMap.mp hstr
    rw [← cstring_of_no_nul (hC str (envEntry_mem hname).1)]
    exact hmem

/-- Witness for C22: the sample host, whose environment holds `HOME` and `PATH`. -/
theorem SetupCompartmentStack_envp_witness :
    ∃ sp evs,
      SetupCompartmentStack (Sample.host (Sample.run_below 512)) 0x1000F000
        kCompartmentStackSize [[0x61], [0x62, 0x63]] Sample.elfA = .ok (true, sp, evs) ∧
      ∃ envp : List Nat,
        readWords (copied evs) (sp + 8 * 4) (envp.length + 1) = some (envp ++ [0]) ∧
        List.Forall₂ (fun p str => MemAt (copied evs) p (str ++ [0])) envp
          (kCompartmentPropagatedEnv.filterMap
            (envEntry (Sample.host (Sample.run_below 512)).environ)).reverse :=
  ⟨_, _, by rfl, (SetupCompartmentStack_envp (Sample.host (Sample.run_below 512)) 0x1000F000
    kCompartmentStackSize [[0x61], [0x62, 0x63]] Sample.elfA _ _
    ⟨by decide, by decide, by decide, by decide⟩ (by decide) (by rfl)).1⟩

theorem readWords_drop (mem : Nat → Option Nat) (k : Nat) :
    ∀ (n a : Nat) (l : List Nat), readWords mem a (n + k) = some l →
      readWords mem (a + 8 * n) k = some (l.drop n) := by
  intro n
  induction n with
  | zero => intro a l h; simpa using h
  | succ n ih =>
    intro a l h
    rw [show n + 1 + k = (n + k) + 1 by omega] at h
    simp only [readWords] at h
    split at h
    · rename_i w ws hw hws
      simp only [Option.some.injEq] at h
      subst h
      have := ih (a + 8) ws hws
      rw [show a + 8 * (n + 1) = a + 8 + 8 * n by omega]
      simpa using this
    · simp at h

/-- C25: whenever `SetupCompartmentStack` returns true (and no address wraps around while the
image is built), the words that follow the null pointer of `envp` are, in increasing address
order, exactly the entries `AT_PAGESZ` (with `getauxval(AT_PAGESZ)`), `AT_PHDR`, `AT_PHENT` and
`AT_PHNUM` (each with the executable's `GetAuxval`), `AT_SECURE` with 0, `AT_RANDOM` with the
address of the 16 random bytes copied onto the stack, and `AT_NULL` with 0 as the last one. -/
theorem SetupCompartmentStack_auxv (host : Host) (stack_top stack_size : Nat)
    (args : List (List Nat)) (exec : StaticElfExecutable) (sp : Nat) (evs : List Event)
    (hroom : StackRoom host stack_top stack_size args)
    (h : SetupCompartmentStack host stack_top stack_size args exec = .ok (true, sp, evs)) :
    ∃ (buf : List Nat) (envc at_random : Nat),
      host.getrandom = some buf ∧
      envc = (kCompartmentPropagatedEnv.filterMap (envEntry host.environ)).length ∧
      readWords (copied evs) (sp + 8 * (args.length + 2 + envc)) 1 = some [0] ∧
      readWords (copied evs) (sp + 8 * (args.length + 2 + (envc + 1))) 14
        = some [AT_PAGESZ, u64 host.at_pagesz, AT_PHDR, u64 (exec.GetAuxval AT_PHDR),
            AT_PHENT, u64 (exec.GetAuxval AT_PHENT), AT_PHNUM, u64 (exec.GetAuxval AT_PHNUM),
            AT_SECURE, 0, AT_RANDOM, at_random, AT_NULL, 0] ∧
      MemAt (copied evs) at_random ((buf ++ List.replicate 16 0).take 16) := by
  obtain ⟨buf, argv, envp, at_random, hg, -, hE, hR, -, hw, ha⟩ :=
    SetupCompartmentStack_words hroom h
  have lenE : envp.length
      = (kCompartmentPropagatedEnv.filterMap (envEntry host.environ)).length := hE.length_eq
  rw [lenE] at hw ha
  refine ⟨buf, _, at_random, hg, rfl, ?_, ha, hR⟩
  have := readWords_drop (copied evs) 1 _ _ _ hw
  rw [← lenE, ← List.length_reverse envp, List.drop_left, List.length_reverse, lenE,
    Nat.add_assoc, ← Nat.mul_add] at this
  exact this

/-- Witness for C25: the sample host, whose `getrandom` yields sixteen bytes 0x2a. -/
theorem SetupCompartmentStack_auxv_witness :
    ∃ sp evs,
      SetupCompartmentStack (Sample.host (Sample.run_below 512)) 0x1000F000
        kCompartmentStackSize [[0x61], [0x62, 0x63]] Sample.elfA = .ok (true, sp, evs) ∧
      ∃ (buf : List Nat) (envc at_random : Nat),
        (Sample.host (Sample.run_below 512)).getrandom = some buf ∧
        envc = (kCompartmentPropagatedEnv.filterMap
          (envEntry (Sample.host (Sample.run_below 512)).environ)).length ∧
        readWords (copied evs) (sp + 8 * (2 + 2 + envc)) 1 = some [0] ∧
        readWords (copied evs) (sp + 8 * (2 + 2 + (envc + 1))) 14
          = some [AT_PAGESZ, u64 (Sample.host (Sample.run_below 512)).at_pagesz,
              AT_PHDR, u64 (Sample.elfA.GetAuxval AT_PHDR),
              AT_PHENT, u64 (Sample.elfA.GetAuxval AT_PHENT),
              AT_PHNUM, u64 (Sample.elfA.GetAuxval AT_PHNUM),
              AT_SECURE, 0, AT_RANDOM, at_random, AT_NULL, 0] ∧
        MemAt (copied evs) at_random ((buf ++ List.replicate 16 0).take 16) :=
  ⟨_, _, by rfl, SetupCompartmentStack_auxv (Sample.host (Sample.run_below 512)) 0x1000F000
    kCompartmentStackSize [[0x61], [0x62, 0x63]] Sample.elfA _ _
    ⟨by decide, by decide, by decide, by decide⟩ (by rfl)⟩

/-! ## `SetupCompartmentStack`: the lower bound -/

theorem pushAll_pres (lower_limit : Nat) (S : List Nat → Prop) (P : StackBuilder → Prop)
    (hP : ∀ b src, S src → P b → P (b.push lower_limit src)) (srcs : List (List Nat)) :
    ∀ b : StackBuilder, (∀ src ∈ srcs, S src) → P b →
      P (StackBuilder.pushAll lower_limit srcs b) := by
  induction srcs with
  | nil => intro b _ h; exact h
  | cons src rest ih =>
    intro b hS h
    exact ih _ (fun s hs => hS s (List.mem_cons_of_mem _ hs))
      (hP b src (hS src (List.mem_cons_self _ _)) h)

theorem GetFullEnvString_mem {name : List Nat} {environ : List (List Nat)} {env : List Nat}
    (h : GetFullEnvString name environ = some (some env)) : env ∈ environ := by
  induction environ with
  | nil => simp [GetFullEnvString] at h
  | cons str rest ih =>
    unfold GetFullEnvString at h
    split at h
    · simp only [Option.some.injEq] at h
      subst h
      exact List.mem_cons_self _ _
    · exact List.mem_cons_of_mem _ (ih h)

theorem envs_pres (lower_limit : Nat) (S : List Nat → Prop) (P : StackBuilder → Prop)
    (hP : ∀ b src, S src → P b → P (b.push lower_limit src)) (environ : List (List Nat))
    (hS : ∀ str ∈ environ, S (cstring str)) (names : List (List Nat)) :
    ∀ (b : StackBuilder) (envp_str : List Nat), P b →
      match SetupCompartmentStack.envs lower_limit environ names b envp_str with
      | .ok (b', _) => P b'
      | .error evs => ∃ b', P b' ∧ b'.events = evs := by
  induction names with
  | nil => intro b _ h; exact h
  | cons name rest ih =>
    intro b envp_str h
    rcases hg : GetFullEnvString name environ with _ | _ | env
    · simp only [SetupCompartmentStack.envs, hg]
      exact ⟨b, h, rfl⟩
    · simp only [SetupCompartmentStack.envs, hg]
      exact ih b envp_str h
    · simp only [SetupCompartmentStack.envs, hg]
      exact ih _ _ (hP b _ (hS env (GetFullEnvString_mem hg)) h)

/-- A property of the builder that every push preserves holds of the builder whose copies a
run of `SetupCompartmentStack` that does not return (a fault in `GetFullEnvString`, or `exit`
after `getrandom`) leaves behind. -/
theorem SetupCompartmentStack_error_pres (host : Host) (stack_top stack_size : Nat)
    (args : List (List Nat)) (exec : StaticElfExecutable) (S : List Nat → Prop)
    (P : StackBuilder → Prop)
    (hP : ∀ b src, S src → P b → P (b.push (sub64 stack_top (stack_size / 2)) src))
    (hargs : ∀ arg ∈ args, S (arg ++ [0])) (henv : ∀ str ∈ host.environ, S (cstring str))
    (h0 : P ⟨stack_top, false, []⟩) (evs : List Event)
    (h : SetupCompartmentStack host stack_top stack_size args exec = .error evs) :
    ∃ b, P b ∧ b.events = evs := by
  unfold SetupCompartmentStack at h
  simp only at h
  rw [args_eq_pushAll] at h
  simp only [List.nil_append] at h
  have hA : P (StackBuilder.pushAll (sub64 stack_top (stack_size / 2))
      (args.map (fun arg => arg ++ [0])) ⟨stack_top, false, []⟩) := by
    apply pushAll_pres _ S P hP _ _ _ h0
    intro src hsrc
    obtain ⟨arg, harg, rfl⟩ := List.mem_map.mp hsrc
    exact hargs arg harg
  have hE := envs_pres _ S P hP host.environ henv kCompartmentPropagatedEnv _ [] hA
  rcases hres : SetupCompartmentStack.envs (sub64 stack_top (stack_size / 2)) host.environ
      kCompartmentPropagatedEnv
      (StackBuilder.pushAll (sub64 stack_top (stack_size / 2))
        (args.map (fun arg => arg ++ [0])) ⟨stack_top, false, []⟩) [] with evs' | ⟨bE, envp⟩
  · rw [hres] at h hE
    simp only [Except.error.injEq] at h
    subst h
    exact hE
  · rw [hres] at h hE
    simp only at h hE
    rcases hg : host.getrandom with _ | buf
    · rw [hg] at h
      simp only [Except.error.injEq] at h
      exact ⟨bE, hE, h⟩
    · rw [hg] at h
      simp at h

/-- The count of the copies of a builder: at most `k` after `k` pushes, and exactly `k` when no
push was refused. -/
theorem push_count (lower_limit : Nat) (b : StackBuilder) (src : List Nat) (k : Nat)
    (h : b.events.length ≤ k ∧ (b.overflow = false ↔ b.events.length = k)) :
    (b.push lower_limit src).events.length ≤ k + 1 ∧
    ((b.push lower_limit src).overflow = false ↔
      (b.push lower_limit src).events.length = k + 1) := by
  unfold StackBuilder.push
  split
  · simp only
    refine ⟨by omega, ?_⟩
    constructor
    · intro hf; cases hf
    · intro hl; omega
  · simp only [List.length_append, List.length_cons, List.length_nil]
    refine ⟨by omega, ?_⟩
    rw [h.2]
    omega

theorem pushAll_count (lower_limit : Nat) (srcs : List (List Nat)) :
    ∀ (b : StackBuilder) (k : Nat),
      (b.events.length ≤ k ∧ (b.overflow = false ↔ b.events.length = k)) →
      (StackBuilder.pushAll lower_limit srcs b).events.length ≤ k + srcs.length ∧
      ((StackBuilder.pushAll lower_limit srcs b).overflow = false ↔
        (StackBuilder.pushAll lower_limit srcs b).events.length = k + srcs.length) := by
  induction srcs with
  | nil => intro b k h; simpa [StackBuilder.pushAll] using h
  | cons src rest ih =>
    intro b k h
    have := ih _ (k + 1) (push_count lower_limit b src k h)
    simp only [StackBuilder.pushAll, List.length_cons]
    rw [show k + (rest.length + 1) = k + 1 + rest.length by omega]
    exact this

/-- Every copy of an accepted push starts at or above the lower limit. -/
theorem push_above (lower_limit : Nat) (b : StackBuilder) (src : List Nat)
    (h : ∀ addr bytes, Event.memcpy addr bytes ∈ b.events → lower_limit ≤ addr) :
    ∀ addr bytes, Event.memcpy addr bytes ∈ (b.push lower_limit src).events →
      lower_limit ≤ addr := by
  unfold StackBuilder.push
  split
  · exact h
  · rename_i hlt
    intro addr bytes hmem
    simp only [List.mem_append, List.mem_singleton, Event.memcpy.injEq] at hmem
    rcases hmem with hmem | ⟨rfl, -⟩
    · exact h addr bytes hmem
    · omega

/-- When no address wraps around, every copy of an accepted push ends at or below the stack top:
`m` is a lower bound of `sp` that is at most the lower limit, and the block is no longer than
`m`. -/
theorem push_within (lower_limit m top : Nat) (hm : m ≤ lower_limit) (htop : top < 2 ^ 64)
    (b : StackBuilder) (src : List Nat) (hsrc : src.length ≤ m)
    (h : m ≤ b.sp ∧ b.sp ≤ top ∧
      ∀ addr bytes, Event.memcpy addr bytes ∈ b.events → addr + bytes.length ≤ top) :
    m ≤ (b.push lower_limit src).sp ∧ (b.push lower_limit src).sp ≤ top ∧
      ∀ addr bytes, Event.memcpy addr bytes ∈ (b.push lower_limit src).events →
        addr + bytes.length ≤ top := by
  obtain ⟨h1, h2, h3⟩ := h
  unfold StackBuilder.push
  rw [sub64_of_le (lt_of_le_of_lt h2 htop) (le_trans hsrc h1)]
  split
  · exact ⟨h1, h2, h3⟩
  · rename_i hlt
    refine ⟨by simp only; omega, by simp only; omega, ?_⟩
    intro addr bytes hmem
    simp only [List.mem_append, List.mem_singleton, Event.memcpy.injEq] at hmem
    rcases hmem with hmem | ⟨rfl, rfl⟩
    · exact h3 addr bytes hmem
    · omega

theorem push_sp_ge (lower_limit : Nat) (b : StackBuilder) (src : List Nat)
    (h : (b.push lower_limit src).overflow = false) :
    lower_limit ≤ (b.push lower_limit src).sp := by
  unfold StackBuilder.push at h ⊢
  split
  · rename_i hlt
    rw [if_pos hlt] at h
    cases h
  · rename_i hlt
    simp only
    omega

theorem blocks_count (host : Host) (exec : StaticElfExecutable) (args : List (List Nat))
    (argv_str envp_str : List Nat) (at_random : Nat) :
    (SetupCompartmentStack.blocks host exec args argv_str envp_str at_random).length
      = argv_str.length + envp_str.length + 10 := by
  simp only [SetupCompartmentStack.blocks, List.length_append, List.length_cons,
    List.length_nil, List.length_map, List.length_reverse]
  omega

/-- C24: `SetupCompartmentStack` never copies to an address below its lower bound, the initial
`*stack_top - stack_size / 2`: every copy it makes, whether it returns or not, starts at or
above the bound (and, when no address wraps around, ends at or below the initial stack top).
It returns true if and only if none of its pushes was refused, that is, the number of copies
made equals the number of pushes it attempts (two per argument, two per environment variable
found, and eleven more); and on a true result the final stack pointer is at or above the
bound. -/
theorem SetupCompartmentStack_lower_bound (host : Host) (stack_top stack_size : Nat)
    (args : List (List Nat)) (exec : StaticElfExecutable) :
    (∀ evs, (SetupCompartmentStack host stack_top stack_size args exec = .error evs ∨
        ∃ ok sp, SetupCompartmentStack host stack_top stack_size args exec
          = .ok (ok, sp, evs)) →
      ∀ addr bytes, Event.memcpy addr bytes ∈ evs →
        sub64 stack_top (stack_size / 2) ≤ addr ∧
        (StackRoom host stack_top stack_size args → addr + bytes.length ≤ stack_top)) ∧
    (∀ ok sp evs, SetupCompartmentStack host stack_top stack_size args exec
        = .ok (ok, sp, evs) →
      (ok = true ↔ evs.length = 2 * args.length +
        2 * (kCompartmentPropagatedEnv.filterMap (envEntry host.environ)).length + 11) ∧
      (ok = true → sub64 stack_top (stack_size / 2) ≤ sp)) := by
  have habove : ∀ (b : StackBuilder) (src : List Nat), True →
      (∀ addr bytes, Event.memcpy addr bytes ∈ b.events →
        sub64 stack_top (stack_size / 2) ≤ addr) →
      (∀ addr bytes, Event.memcpy addr bytes
          ∈ (b.push (sub64 stack_top (stack_size / 2)) src).events →
        sub64 stack_top (stack_size / 2) ≤ addr) :=
    fun b src _ h => push_above _ b src h
  refine ⟨?_, ?_⟩
  · intro evs hres addr bytes hmem
    rcases hres with herr | ⟨ok, sp, hok⟩
    · constructor
      · obtain ⟨b, hb, rfl⟩ := SetupCompartmentStack_error_pres host stack_top stack_size args
          exec (fun _ => True) _ habove (fun _ _ => trivial) (fun _ _ => trivial)
          (by intro a bs hm; simp at hm) evs herr
        exact hb addr bytes hmem
      · intro hroom
        obtain ⟨htop, hhalf, hargs, henv⟩ := hroom
        have hL : sub64 stack_top (stack_size / 2) = stack_top - stack_size / 2 :=
          sub64_of_le htop (by omega)
        obtain ⟨b, hb, rfl⟩ := SetupCompartmentStack_error_pres host stack_top stack_size args
          exec (fun src => src.length ≤ stack_top - stack_size / 2)
          (fun b => stack_top - stack_size / 2 ≤ b.sp ∧ b.sp ≤ stack_top ∧
            ∀ addr bytes, Event.memcpy addr bytes ∈ b.events → addr + bytes.length ≤ stack_top)
          (fun b src hsrc h => by
            rw [hL]
            exact push_within _ _ stack_top (le_refl _) htop b src hsrc h)
          (fun arg harg => by
            have := hargs arg harg
            simp only [List.length_append, List.length_cons, List.length_nil]
            omega)
          (fun str hstr => by
            have := henv str hstr
            have := cstring_length_le str
            omega)
          ⟨by simp, le_refl _, by intro a bs hm; simp at hm⟩ evs herr
        exact hb.2.2 addr bytes hmem
    · obtain ⟨buf, b1, b3, argv, envp, -, -, hargv, henvp, hb1, hb3, -, -, hevs⟩ :=
        SetupCompartmentStack_ok_eq hok
      constructor
      · have h1 : ∀ addr bytes, Event.memcpy addr bytes ∈ b1.events →
            sub64 stack_top (stack_size / 2) ≤ addr := by
          rw [hb1]
          exact pushAll_pres _ (fun _ => True) _ habove _ _ (fun _ _ => trivial)
            (by intro a bs hm; simp at hm)
        have h3 := pushAll_pres _ (fun _ => True) _ habove
          (SetupCompartmentStack.blocks host exec args argv envp b1.sp)
          ⟨sub64 b1.sp (sub64 b1.sp
              (u64 ((envp.length + 1 + argv.length + 1 + 1) * 8)) &&& 0xf),
            b1.overflow, b1.events⟩ (fun _ _ => trivial) h1
        rw [← hb3, ← hevs] at h3
        exact h3 addr bytes hmem
      · intro hroom
        obtain ⟨htop, hhalf, hargs, henv⟩ := hroom
        have hL : sub64 stack_top (stack_size / 2) = stack_top - stack_size / 2 :=
          sub64_of_le htop (by omega)
        rw [hL] at hb1 hb3
        have h1 : stack_top - stack_size / 2 ≤ b1.sp ∧ b1.sp ≤ stack_top ∧
            ∀ addr bytes, Event.memcpy addr bytes ∈ b1.events →
              addr + bytes.length ≤ stack_top := by
          rw [hb1]
          refine pushAll_pres _ (fun src => src.length ≤ stack_top - stack_size / 2)
            (fun b => stack_top - stack_size / 2 ≤ b.sp ∧ b.sp ≤ stack_top ∧
              ∀ addr bytes, Event.memcpy addr bytes ∈ b.events →
                addr + bytes.length ≤ stack_top)
            (fun b src hsrc h => push_within _ _ stack_top (le_refl _) htop b src hsrc h)
            _ _ ?_ ⟨by simp, le_refl _, by intro a bs hm; simp at hm⟩
          intro src hsrc
          simp only [List.mem_append, List.mem_map, List.mem_filterMap,
            List.mem_singleton] at hsrc
          rcases hsrc with (⟨arg, harg, rfl⟩ | ⟨str, ⟨name, -, hname⟩, rfl⟩) | rfl
          · have := hargs arg harg
            simp only [List.length_append, List.length_cons, List.length_nil]
            omega
          · have := henv str (envEntry_mem hname).1
            have := cstring_length_le str
            omega
          · simp only [List.length_take, List.length_append, List.length_replicate]
            omega
        have hk : sub64 b1.sp (u64 ((envp.length + 1 + argv.length + 1 + 1) * 8)) &&& 0xf
            ≤ 15 := Nat.and_le_right
        have hadj : sub64 b1.sp
            (sub64 b1.sp (u64 ((envp.length + 1 + argv.length + 1 + 1) * 8)) &&& 0xf)
            = b1.sp - (sub64 b1.sp (u64 ((envp.length + 1 + argv.length + 1 + 1) * 8))
                &&& 0xf) :=
          sub64_of_le (by omega) (by omega)
        rw [hadj] at hb3
        have h3 := pushAll_pres (stack_top - stack_size / 2)
          (fun src => src.length ≤ stack_top - stack_size / 2 - 15)
          (fun b => stack_top - stack_size / 2 - 15 ≤ b.sp ∧ b.sp ≤ stack_top ∧
            ∀ addr bytes, Event.memcpy addr bytes ∈ b.events →
              addr + bytes.length ≤ stack_top)
          (fun b src hsrc h => push_within _ _ stack_top (by omega) htop b src hsrc h)
          (SetupCompartmentStack.blocks host exec args argv envp b1.sp)
          ⟨b1.sp - (sub64 b1.sp (u64 ((envp.length + 1 + argv.length + 1 + 1) * 8)) &&& 0xf),
            b1.overflow, b1.events⟩
          (fun src hsrc => by
            have := blocks_length host exec args argv envp b1.sp src hsrc
            omega)
          ⟨by simp only; omega, by simp only; omega, h1.2.2⟩
        rw [← hb3, ← hevs] at h3
        exact h3.2.2 addr bytes hmem
  · intro ok sp evs hok
    obtain ⟨buf, b1, b3, argv, envp, -, -, hargv, henvp, hb1, hb3, hokeq, hsp, hevs⟩ :=
      SetupCompartmentStack_ok_eq hok
    have lenA : argv.length = args.length := by
      rw [hargv, spAfter_length, List.length_map]
    have lenE : envp.length
        = (kCompartmentPropagatedEnv.filterMap (envEntry host.environ)).length := by
      rw [henvp, spAfter_length, List.length_map]
    have c1 := pushAll_count (sub64 stack_top (stack_size / 2))
      (args.map (fun arg => arg ++ [0]) ++
        (kCompartmentPropagatedEnv.filterMap (envEntry host.environ)).map cstring ++
        [(buf ++ List.replicate 16 0).take 16]) ⟨stack_top, false, []⟩ 0 (by simp)
    rw [← hb1] at c1
    have c3 := pushAll_count (sub64 stack_top (stack_size / 2))
      (SetupCompartmentStack.blocks host exec args argv envp b1.sp)
      ⟨sub64 b1.sp (sub64 b1.sp
          (u64 ((envp.length + 1 + argv.length + 1 + 1) * 8)) &&& 0xf),
        b1.overflow, b1.events⟩ _ c1
    rw [← hb3, blocks_count, ← hevs] at c3
    simp only [List.length_append, List.length_map, List.length_cons, List.length_nil,
      lenA, lenE] at c3
    constructor
    · rw [hokeq]
      have : (!b3.overflow) = true ↔ b3.overflow = false := by
        cases b3.overflow <;> simp
      rw [this, c3.2]
      omega
    · intro ht
      rw [hokeq] at ht
      have hov : b3.overflow = false := by
        cases hb : b3.overflow
        · rfl
        · rw [hb] at ht
          cases ht
      rw [hsp]
      rw [hb3] at hov ⊢
      simp only [SetupCompartmentStack.blocks, pushAll_append] at hov ⊢
      exact push_sp_ge _ _ _ hov

/-- Witness for C24: on the sample host a stack of 64 bytes leaves a lower bound that the
image crosses; the function returns false, having made fewer copies than it has pushes. -/
theorem SetupCompartmentStack_lower_bound_witness :
    ∃ sp evs,
      SetupCompartmentStack (Sample.host (Sample.run_below 512)) 0x1000F000 64
        [[0x61], [0x62, 0x63]] Sample.elfA = .ok (false, sp, evs) ∧
      ¬ evs.length = 2 * 2 + 2 * (kCompartmentPropagatedEnv.filterMap
          (envEntry (Sample.host (Sample.run_below 512)).environ)).length + 11 :=
  ⟨_, _, by rfl, fun hlen => Bool.false_ne_true
    (((SetupCompartmentStack_lower_bound (Sample.host (Sample.run_below 512)) 0x1000F000 64
      [[0x61], [0x62, 0x63]] Sample.elfA).2 false _ _ (by rfl)).1.mpr hlen)⟩

/-! ## `struct Range`: the algebra of the operations -/

/-- C33: for ranges `a` and `b` that are not empty (`base < top`), `a.Intersects(b)` is true if and
only if some address is contained in both; and two ranges of which one ends where the other
starts do not intersect. -/
theorem Range.Intersects_iff_common_address (a b : Range) (ha : a.base < a.top)
    (hb : b.base < b.top) :
    (a.Intersects b = true ↔ ∃ x, a.ContainsAddr x = true ∧ b.ContainsAddr x = true) ∧
    (a.top = b.base → a.Intersects b = false) := by
  simp only [Range.Intersects, Range.ContainsAddr, Bool.and_eq_true, decide_eq_true_eq]
  refine ⟨⟨?_, ?_⟩, ?_⟩
  · rintro ⟨h1, h2⟩
    exact ⟨max a.base b.base, ⟨le_max_left _ _, max_lt ha h2⟩,
      ⟨le_max_right _ _, max_lt h1 hb⟩⟩
  · rintro ⟨x, ⟨h1, h2⟩, ⟨h3, h4⟩⟩
    exact ⟨lt_of_le_of_lt h1 h4, lt_of_le_of_lt h3 h2⟩
  · intro h
    simp [h]

/-- Witness for C33: the ranges `[0x1000, 0x3000)` and `[0x2000, 0x4000)`. -/
theorem Range.Intersects_iff_common_address_witness :
    ((⟨0x1000, 0x3000⟩ : Range).Intersects ⟨0x2000, 0x4000⟩ = true ↔
      ∃ x, (⟨0x1000, 0x3000⟩ : Range).ContainsAddr x = true ∧
        (⟨0x2000, 0x4000⟩ : Range).ContainsAddr x = true) ∧
    ((⟨0x1000, 0x3000⟩ : Range).top = (⟨0x2000, 0x4000⟩ : Range).base →
      (⟨0x1000, 0x3000⟩ : Range).Intersects ⟨0x2000, 0x4000⟩ = false) :=
  Range.Intersects_iff_common_address ⟨0x1000, 0x3000⟩ ⟨0x2000, 0x4000⟩ (by decide) (by decide)

/-- C34: the sentinel `Range::kEmpty` intersects no range, on either side of `Intersects`. -/
theorem Range.kEmpty_Intersects (r : Range) :
    Range.kEmpty.Intersects r = false ∧ r.Intersects Range.kEmpty = false := by
  simp [Range.Intersects, Range.kEmpty]

/-- C35 fails on the code: `Range::kEmpty.Contains(Range::kEmpty)` is true, since `Contains` only
compares `base <= other.base` and `other.top <= top`, where the comment of `kEmpty` says that it
contains no range. The sentinel is the only range (of 64-bit addresses) it contains, and it
contains no address. -/
theorem Range.kEmpty_Contains_kEmpty :
    Range.kEmpty.Contains Range.kEmpty = true ∧
    (∀ r : Range, r.base < 2 ^ 64 → Range.kEmpty.Contains r = true → r = Range.kEmpty) ∧
    (∀ x : Nat, Range.kEmpty.ContainsAddr x = false) := by
  refine ⟨by decide, ?_, ?_⟩
  · intro r hr h
    simp only [Range.Contains, Range.kEmpty, Bool.and_eq_true, decide_eq_true_eq] at h
    rcases r with ⟨b, t⟩
    simp only [Range.kEmpty, Range.mk.injEq]
    simp only at hr h
    have h64 : (2 : Nat) ^ 64 = 18446744073709551616 := by norm_num
    rw [h64] at hr h ⊢
    omega
  · intro x
    simp [Range.ContainsAddr, Range.kEmpty]

/-- C36: `a.Enlarge(b)` leaves in `a` the bounding box of the old `a` and `b`: it contains both,
and every range that contains both contains it. -/
theorem Range.Enlarge_bounding_box (a b : Range) :
    (a.Enlarge b).Contains a = true ∧ (a.Enlarge b).Contains b = true ∧
    ∀ c : Range, c.Contains a = true → c.Contains b = true →
      c.Contains (a.Enlarge b) = true := by
  simp only [Range.Contains, Range.Enlarge, Bool.and_eq_true, decide_eq_true_eq]
  refine ⟨⟨min_le_left _ _, le_max_left _ _⟩, ⟨min_le_right _ _, le_max_right _ _⟩, ?_⟩
  rintro c ⟨h1, h2⟩ ⟨h3, h4⟩
  exact ⟨le_min h1 h3, max_le h2 h4⟩

/-! ## The capability builder -/

theorem Capability.Op.apply_narrows (c : Cap) (op : Capability.Op) :
    (op.apply c).perms ⊆ c.perms ∧
    ((op.apply c).tag = true →
      c.tag = true ∧ c.base ≤ (op.apply c).base ∧ (op.apply c).limit ≤ c.limit) := by
  rcases op with addr | ⟨base, length⟩ | perms
  · exact ⟨Finset.Subset.refl _, fun h => ⟨h, le_refl _, le_refl _⟩⟩
  · refine ⟨Finset.Subset.refl _, ?_⟩
    intro h
    simp only [Capability.Op.apply, Capability.SetBounds, archcap_c_bounds_set,
      archcap_c_address_set, Bool.and_eq_true, decide_eq_true_eq] at h ⊢
    exact ⟨h.1.1, h.1.2, h.2⟩
  · exact ⟨Finset.inter_subset_left, fun h => ⟨h, le_refl _, le_refl _⟩⟩

/-- C31: for every root capability and every chain of builder operations, the permissions of
the result are a subset of the root's and, when the result is a valid (tagged) capability, the
root is valid and the result's bounds lie within the root's; `SetPerms(p)` leaves the
intersection of the current permissions with `p`. (A `SetBounds` outside the current bounds
yields an untagged value, which is no capability.) -/
theorem Capability.chain_narrows (root : Cap) (ops : List Capability.Op) :
    (Capability.chain root ops).perms ⊆ root.perms ∧
    ((Capability.chain root ops).tag = true →
      root.tag = true ∧ root.base ≤ (Capability.chain root ops).base ∧
      (Capability.chain root ops).limit ≤ root.limit) ∧
    (∀ (c : Cap) (p : Finset Perm), (Capability.SetPerms c p).perms = c.perms ∩ p) := by
  have key : ∀ (ops : List Capability.Op) (root : Cap),
      (Capability.chain root ops).perms ⊆ root.perms ∧
      ((Capability.chain root ops).tag = true →
        root.tag = true ∧ root.base ≤ (Capability.chain root ops).base ∧
        (Capability.chain root ops).limit ≤ root.limit) := by
    intro ops
    induction ops with
    | nil => intro root; exact ⟨Finset.Subset.refl _, fun h => ⟨h, le_refl _, le_refl _⟩⟩
    | cons op rest ih =>
      intro root
      obtain ⟨i1, i2⟩ := ih (op.apply root)
      obtain ⟨s1, s2⟩ := Capability.Op.apply_narrows root op
      have e : Capability.chain root (op :: rest) = Capability.chain (op.apply root) rest := rfl
      rw [e]
      refine ⟨Finset.Subset.trans i1 s1, ?_⟩
      intro h
      obtain ⟨t1, t2, t3⟩ := i2 h
      obtain ⟨u1, u2, u3⟩ := s2 t1
      exact ⟨u1, le_trans u2 t2, le_trans t3 u3⟩
  exact ⟨(key ops root).1, (key ops root).2, fun c p => rfl⟩

/-- Witness for C31: the chain that builds a compartment's entry capability, from a root that
spans the address space. -/
theorem Capability.chain_narrows_witness :
    (Capability.chain Sample.rootCap
      [.SetBounds 0x10000 0x1000, .SetAddress 0x10100, .SetPerms kCompartmentExecPerms]).tag
        = true ∧
    Sample.rootCap.tag = true ∧
    Sample.rootCap.base ≤ (Capability.chain Sample.rootCap
      [.SetBounds 0x10000 0x1000, .SetAddress 0x10100, .SetPerms kCompartmentExecPerms]).base ∧
    (Capability.chain Sample.rootCap
      [.SetBounds 0x10000 0x1000, .SetAddress 0x10100, .SetPerms kCompartmentExecPerms]).limit
        ≤ Sample.rootCap.limit :=
  ⟨by decide, (Capability.chain_narrows Sample.rootCap
    [.SetBounds 0x10000 0x1000, .SetAddress 0x10100, .SetPerms kCompartmentExecPerms]).2.1
    (by decide)⟩

/-! ## `GetAuxval` -/

theorem off_t_of_lt {x : Nat} (h : x < 2 ^ 63) : off_t x = (x : Int) := by
  unfold off_t u64
  have h63 : (2 : Nat) ^ 63 = 9223372036854775808 := by norm_num
  have h64 : (2 : Nat) ^ 64 = 18446744073709551616 := by norm_num
  rw [h63] at h
  have e : x % 2 ^ 64 = x := Nat.mod_eq_of_lt (by rw [h64]; omega)
  rw [e, if_pos (by rw [h63]; exact h)]

theorem sub64_u64_add (b p f : Nat) (hf : f ≤ p) :
    sub64 (u64 (b + p)) f = u64 (b + (p - f)) := by
  unfold sub64 u64
  have h64 : (2 : Nat) ^ 64 = 18446744073709551616 := by norm_num
  rw [h64]
  omega

theorem GetAuxval_phdr_spec (e_phoff size : Nat) :
    ∀ segs : List LoadSegmentInfo,
      (∀ seg ∈ segs, seg.file_offset + seg.file_mapped_size < 2 ^ 63) →
      StaticElfExecutable.GetAuxval.phdr e_phoff (e_phoff : Int)
        ((e_phoff : Int) + ((size : Nat) : Int)) segs =
      match segs.find? (fun segment =>
        decide (segment.file_offset ≤ e_phoff ∧
          e_phoff + size ≤ segment.file_offset + segment.file_mapped_size)) with
      | some segment => u64 (segment.mem_range.base + (e_phoff - segment.file_offset))
      | none => 0 := by
  intro segs
  induction segs with
  | nil => intro _; rfl
  | cons seg rest ih =>
    intro hsegs
    have hseg := hsegs seg (List.mem_cons_self _ _)
    have h63 : (2 : Nat) ^ 63 = 9223372036854775808 := by norm_num
    have e1 : off_t seg.file_offset = (seg.file_offset : Int) :=
      off_t_of_lt (by rw [h63] at hseg ⊢; omega)
    have e2 : off_t (seg.file_offset + seg.file_mapped_size)
        = ((seg.file_offset + seg.file_mapped_size : Nat) : Int) := off_t_of_lt hseg
    unfold StaticElfExecutable.GetAuxval.phdr
    simp only [e1, e2]
    by_cases hc : seg.file_offset ≤ e_phoff ∧
        e_phoff + size ≤ seg.file_offset + seg.file_mapped_size
    · have hc' : (seg.file_offset : Int) ≤ (e_phoff : Int) ∧
          (e_phoff : Int) + ((size : Nat) : Int)
            ≤ ((seg.file_offset + seg.file_mapped_size : Nat) : Int) := by
        constructor
        · exact_mod_cast hc.1
        · exact_mod_cast hc.2
      rw [if_pos hc', List.find?_cons_of_pos _ (by simpa using hc)]
      exact sub64_u64_add _ _ _ hc.1
    · have hc' : ¬ ((seg.file_offset : Int) ≤ (e_phoff : Int) ∧
          (e_phoff : Int) + ((size : Nat) : Int)
            ≤ ((seg.file_offset + seg.file_mapped_size : Nat) : Int)) := by
        intro h
        apply hc
        constructor
        · exact_mod_cast h.1
        · exact_mod_cast h.2
      rw [if_neg hc', List.find?_cons_of_neg _ (by simpa using hc)]
      exact ih (fun s hs => hsegs s (List.mem_cons_of_mem _ hs))

namespace StaticElfExecutable

/-- C32: `GetAuxval(AT_PHENT)` is `e_phentsize` and `GetAuxval(AT_PHNUM)` is `e_phnum`; every type
other than `AT_PHDR`, `AT_PHENT` and `AT_PHNUM` gives 0; and, when the file offsets involved are
offsets an `off_t` can hold (below `2 ^ 63`), `GetAuxval(AT_PHDR)` is
`mem_range.base + (e_phoff - file_offset)`, as an `unsigned long`, for the first load segment
whose file-backed region contains the whole program header table, and 0 when there is no such
segment. -/
theorem GetAuxval_spec (s : StaticElfExecutable) :
    s.GetAuxval AT_PHENT = s.ehdr_.e_phentsize ∧
    s.GetAuxval AT_PHNUM = s.ehdr_.e_phnum ∧
    (∀ type, type ≠ AT_PHDR → type ≠ AT_PHENT → type ≠ AT_PHNUM → s.GetAuxval type = 0) ∧
    (s.ehdr_.e_phoff < 2 ^ 63 →
      (∀ seg ∈ s.load_segments_, seg.file_offset + seg.file_mapped_size < 2 ^ 63) →
      s.GetAuxval AT_PHDR =
        match s.phdrSegment with
        | some segment => u64 (segment.mem_range.base + (s.ehdr_.e_phoff - segment.file_offset))
        | none => 0) := by
  refine ⟨by simp [GetAuxval, AT_PHENT, AT_PHDR], by simp [GetAuxval, AT_PHNUM, AT_PHENT, AT_PHDR],
    ?_, ?_⟩
  · intro type h1 h2 h3
    simp [GetAuxval, h1, h2, h3]
  · intro hoff hsegs
    have := GetAuxval_phdr_spec s.ehdr_.e_phoff (s.ehdr_.e_phnum * s.ehdr_.e_phentsize)
      s.load_segments_ hsegs
    simp only [GetAuxval, if_true, phdrSegment, off_t_of_lt hoff]
    exact this

/-- Witness for C32: the sample executable `"a"`, whose program header table lies in the file
region of its text segment. -/
theorem GetAuxval_spec_witness :
    Sample.elfA.phdrSegment = some ⟨⟨0x10000, 0x11000⟩, 0, 0x1000, PROT_READ ||| PROT_EXEC⟩ ∧
    Sample.elfA.GetAuxval AT_PHDR = 0x10040 ∧
    Sample.elfA.GetAuxval AT_PHDR =
      match Sample.elfA.phdrSegment with
      | some segment =>
        u64 (segment.mem_range.base + (Sample.elfA.ehdr_.e_phoff - segment.file_offset))
      | none => 0 :=
  ⟨by decide, by decide,
    (GetAuxval_spec Sample.elfA).2.2.2 (by decide) (by decide)⟩

end StaticElfExecutable

/-! ## Rounding up to a page boundary -/

/-- C39 fails on the code: `FindSymbol` accepts a symbol of size 0 whose value is the top of an
executable segment, and `CompartmentAdd` uses that value as the address of the finalised entry
capability. With `edgeSymbolFile` behind the path, whose `__compartment_entry` has size 0 and
value 0x11000 while the executable range is `[0x10000, 0x11000)`, `CompartmentAdd` returns and
the registered entry capability has address 0x11000, equal to the top of the executable range
and to its own limit. -/
theorem CompartmentAdd_entry_at_executable_top :
    ∃ m' d, CompartmentAdd (Sample.edgeHost (Sample.run_below 512)) Sample.manager0 0 [0x61] []
        kCompartmentMemoryRangeLength = .ok m' ∧
      m'.cm_compartments.get? 0 = some d ∧
      Sample.elfEdge.executable_range = ⟨0x10000, 0x11000⟩ ∧
      d.entry_point.tag = true ∧
      archcap_c_address_get d.entry_point = 0x11000 ∧
      archcap_c_limit_get d.entry_point = 0x11000 ∧
      ¬ (Sample.elfEdge.executable_range.base ≤ archcap_c_address_get d.entry_point ∧
          archcap_c_address_get d.entry_point < Sample.elfEdge.executable_range.top) :=
  ⟨_, _, by rfl, by rfl, by rfl, by rfl, by rfl, by rfl, by decide⟩

/-! ## The bounds test of a fixed request -/

/-- C40: a `MAP_FIXED` request `[addr, addr + length)` goes to `__real_mmap` (unchanged) exactly
when `addr + length` does not wrap, `ddc_base < addr` and `addr + length < ddc_limit`;
otherwise no call is made and the result is `MAP_FAILED` with `errno = EINVAL`, in particular
when the request starts exactly at `ddc_base` or ends exactly at `ddc_limit`. The same test
decides the fixed mapping of `__wrap_munmap`, which then returns -1. -/
theorem wrap_mmap_fixed_forwarded_iff (host : CompartmentHost) (g : CompartmentGlobals)
    (addr length prot flags : Nat) (fd offset : Int)
    (hfixed : flags &&& MAP_FIXED ≠ 0) (haddr : addr < 2 ^ 64) (hlen : length < 2 ^ 64) :
    ((addr + length < 2 ^ 64 ∧ archcap_c_base_get host.ddc < addr ∧
        addr + length < archcap_c_limit_get host.ddc) →
      __wrap_mmap host g addr length prot flags fd offset
        = __real_mmap host g ⟨addr, length, prot, flags, fd, offset⟩) ∧
    (¬ (addr + length < 2 ^ 64 ∧ archcap_c_base_get host.ddc < addr ∧
        addr + length < archcap_c_limit_get host.ddc) →
      __wrap_mmap host g addr length prot flags fd offset
        = (MAP_FAILED, { g with errno := EINVAL })) ∧
    ((__wrap_mmap host g addr length prot flags fd offset).2.real_calls
        = g.real_calls ++ [⟨addr, length, prot, flags, fd, offset⟩] ↔
      (addr + length < 2 ^ 64 ∧ archcap_c_base_get host.ddc < addr ∧
        addr + length < archcap_c_limit_get host.ddc)) ∧
    ((addr = archcap_c_base_get host.ddc ∨ addr + length = archcap_c_limit_get host.ddc) →
      (__wrap_mmap host g addr length prot flags fd offset).1 = MAP_FAILED ∧
      (__wrap_mmap host g addr length prot flags fd offset).2.errno = EINVAL ∧
      (__wrap_mmap host g addr length prot flags fd offset).2.real_calls = g.real_calls) ∧
    ((__wrap_munmap host g addr length).2.real_calls
        = g.real_calls ++
          [⟨addr, length, PROT_NONE, MAP_PRIVATE ||| MAP_ANONYMOUS ||| MAP_FIXED, -1, 0⟩] ↔
      (addr + length < 2 ^ 64 ∧ archcap_c_base_get host.ddc < addr ∧
        addr + length < archcap_c_limit_get host.ddc)) ∧
    (¬ (addr + length < 2 ^ 64 ∧ archcap_c_base_get host.ddc < addr ∧
        addr + length < archcap_c_limit_get host.ddc) →
      __wrap_munmap host g addr length = (-1, { g with errno := EINVAL })) := by
  have hcond : (u64 (addr + length) ≥ addr ∧ archcap_c_base_get host.ddc < addr ∧
      u64 (addr + length) < archcap_c_limit_get host.ddc) ↔
      (addr + length < 2 ^ 64 ∧ archcap_c_base_get host.ddc < addr ∧
        addr + length < archcap_c_limit_get host.ddc) := by
    unfold u64
    have h64 : (2 : Nat) ^ 64 = 18446744073709551616 := by norm_num
    rw [h64] at haddr hlen ⊢
    constructor
    · rintro ⟨h1, h2, h3⟩
      have : addr + length < 18446744073709551616 := by omega
      refine ⟨this, h2, ?_⟩
      omega
    · rintro ⟨h1, h2, h3⟩
      refine ⟨?_, h2, ?_⟩ <;> omega
  have hyes : ∀ (prot flags : Nat) (fd offset : Int), flags &&& MAP_FIXED ≠ 0 →
      (addr + length < 2 ^ 64 ∧ archcap_c_base_get host.ddc < addr ∧
        addr + length < archcap_c_limit_get host.ddc) →
      __wrap_mmap host g addr length prot flags fd offset
        = __real_mmap host g ⟨addr, length, prot, flags, fd, offset⟩ := by
    intro prot flags fd offset hf h
    unfold __wrap_mmap
    simp only [if_pos hf, if_pos (hcond.2 h)]
  have hno : ∀ (prot flags : Nat) (fd offset : Int), flags &&& MAP_FIXED ≠ 0 →
      ¬ (addr + length < 2 ^ 64 ∧ archcap_c_base_get host.ddc < addr ∧
        addr + length < archcap_c_limit_get host.ddc) →
      __wrap_mmap host g addr length prot flags fd offset
        = (MAP_FAILED, { g with errno := EINVAL }) := by
    intro prot flags fd offset hf h
    unfold __wrap_mmap
    simp only [if_pos hf, if_neg (fun hc => h (hcond.1 hc))]
  have hcalls : ∀ (prot flags : Nat) (fd offset : Int), flags &&& MAP_FIXED ≠ 0 →
      ((__wrap_mmap host g addr length prot flags fd offset).2.real_calls
        = g.real_calls ++ [⟨addr, length, prot, flags, fd, offset⟩] ↔
      (addr + length < 2 ^ 64 ∧ archcap_c_base_get host.ddc < addr ∧
        addr + length < archcap_c_limit_get host.ddc)) := by
    intro prot flags fd offset hf
    constructor
    · intro h
      by_contra hc
      rw [hno prot flags fd offset hf hc] at h
      have := congrArg List.length h
      simp at this
    · intro h
      rw [hyes prot flags fd offset hf h]
      rfl
  refine ⟨hyes prot flags fd offset hfixed, hno prot flags fd offset hfixed,
    hcalls prot flags fd offset hfixed, ?_, ?_, ?_⟩
  · intro h
    have hc : ¬ (addr + length < 2 ^ 64 ∧ archcap_c_base_get host.ddc < addr ∧
        addr + length < archcap_c_limit_get host.ddc) := by
      rintro ⟨-, h2, h3⟩
      rcases h with h | h <;> omega
    rw [hno prot flags fd offset hfixed hc]
    exact ⟨rfl, rfl, rfl⟩
  · have e : (__wrap_munmap host g addr length).2 =
        (__wrap_mmap host g addr length PROT_NONE (MAP_PRIVATE ||| MAP_ANONYMOUS ||| MAP_FIXED)
          (-1) 0).2 := rfl
    rw [e]
    exact hcalls _ _ _ _ (or_MAP_FIXED _)
  · intro hc
    unfold __wrap_munmap
    rw [hno _ _ _ _ (or_MAP_FIXED _) hc]
    simp only [if_true]

/-- Witness for C40: on the sample compartment, whose DDC is `[0x10000, 0x10010000)`, a fixed
request for one page at 0x10000, the base of the DDC. -/
theorem wrap_mmap_fixed_forwarded_iff_witness :
    (__wrap_mmap Sample.compartmentHost Sample.globals 0x10000 4096 3
        (MAP_PRIVATE ||| MAP_ANONYMOUS ||| MAP_FIXED) (-1) 0).1 = MAP_FAILED ∧
    (__wrap_mmap Sample.compartmentHost Sample.globals 0x10000 4096 3
        (MAP_PRIVATE ||| MAP_ANONYMOUS ||| MAP_FIXED) (-1) 0).2.errno = EINVAL ∧
    (__wrap_mmap Sample.compartmentHost Sample.globals 0x10000 4096 3
        (MAP_PRIVATE ||| MAP_ANONYMOUS ||| MAP_FIXED) (-1) 0).2.real_calls
      = Sample.globals.real_calls :=
  (wrap_mmap_fixed_forwarded_iff Sample.compartmentHost Sample.globals 0x10000 4096 3
    (MAP_PRIVATE ||| MAP_ANONYMOUS ||| MAP_FIXED) (-1) 0 (by decide) (by decide)
    (by decide)).2.2.2.1 (Or.inl (by rfl))

/-! ## The entry window, the zero-fill tail and malformed program headers -/

namespace StaticElfExecutable

/-- C9 fails on the code: `CheckEntryPoint` builds the window as
`Range{e_entry, e_entry + 4}` without an overflow check. In `wrapEntryFile` the header declares
`e_entry = 2 ^ 64 - 2`, so the window is the inverted range `{2 ^ 64 - 2, 2}`, which
`Range::Contains` finds inside the text segment `[0x10000, 0x11000)`: `Read` succeeds, although
none of the four addresses `e_entry, ..., e_entry + 3` lies in any load segment, in
`executable_range` or in `total_range`. -/
theorem Read_accepts_wrapping_entry_window :
    (create Sample.wrapEntryFile 4096).Read = some (true, Sample.elfWrapEntry) ∧
    Sample.elfWrapEntry.ehdr_.e_entry = 2 ^ 64 - 2 ∧
    Sample.elfWrapEntry.entry_point_range = ⟨2 ^ 64 - 2, 2⟩ ∧
    (∃ seg ∈ Sample.elfWrapEntry.load_segments_, seg.prot &&& PROT_EXEC ≠ 0 ∧
      seg.mem_range = ⟨0x10000, 0x11000⟩ ∧
      seg.mem_range.Contains Sample.elfWrapEntry.entry_point_range = true) ∧
    (∀ seg ∈ Sample.elfWrapEntry.load_segments_, ∀ i < 4,
      seg.mem_range.ContainsAddr (u64 (Sample.elfWrapEntry.ehdr_.e_entry + i)) = false) ∧
    (∀ i < 4, Sample.elfWrapEntry.executable_range.ContainsAddr
      (u64 (Sample.elfWrapEntry.ehdr_.e_entry + i)) = false) ∧
    (∀ i < 4, Sample.elfWrapEntry.total_range.ContainsAddr
      (u64 (Sample.elfWrapEntry.ehdr_.e_entry + i)) = false) :=
  ⟨by rfl, by rfl, by decide, by decide, by decide, by decide, by decide⟩

/-- A load segment that is not writable and has bytes to zero in place: in `readOnlyTailFile`
the text segment (`p_offset = 0x10`, `p_vaddr = 0x10020`, `p_filesz = p_memsz`) passes the
checks of `Read` and is recorded with size 0x1020 and `file_mapped_size = 0x1010`; `Map` maps
it read-only and is killed in `memset(0x11010, 0, 0x10)`. -/
theorem Map_faults_on_read_only_tail :
    ∃ elf, (create Sample.readOnlyTailFile 4096).Read = some (true, elf) ∧
      elf.load_segments_.head? = some ⟨⟨0x10000, 0x11020⟩, 0, 0x1010, PROT_READ ||| PROT_EXEC⟩ ∧
      elf.Map (Sample.host (Sample.run_below 512)) =
        (none,
          [Event.mmap ⟨0x10000, 0x1010, PROT_READ ||| PROT_EXEC, MAP_PRIVATE ||| MAP_FIXED,
              true, 0⟩,
            Event.memset 0x11010 0x10]) :=
  ⟨_, by rfl, by rfl, by rfl⟩

/-- C38 fails on the code: `ReadProgramHeaders` checks `p_filesz <= p_memsz` only, never that
`p_offset` and `p_vaddr` are congruent modulo the page size. In `incongruentFile` the text
segment has `p_offset = 0x10`, `p_vaddr = 0x10000` and `p_filesz = p_memsz = 0x1000`: `Read`
succeeds and records the segment `[0x10000, 0x11000)` with `file_mapped_size = 0x1010`, larger
than its size 0x1000. In `Map` the unsigned `zero_fill_size` wraps to `2 ^ 64 - 0x10`: the
read-only segment is taken to need zero-fill and `memset` is called on `[0x11010, 0x12000)`,
above the segment and inside the mapping just made without `PROT_WRITE`, where the process is
killed: `Map` does not return. -/
theorem Read_records_oversized_file_mapping :
    (create Sample.incongruentFile 4096).Read = some (true, Sample.elfIncongruent) ∧
    (∃ seg ∈ Sample.elfIncongruent.load_segments_,
      seg = ⟨⟨0x10000, 0x11000⟩, 0, 0x1010, PROT_READ ||| PROT_EXEC⟩ ∧
      ¬ seg.file_mapped_size ≤ seg.mem_range.Size ∧
      sub64 seg.mem_range.Size seg.file_mapped_size = 2 ^ 64 - 0x10 ∧
      Map.segment (Sample.host (Sample.run_below 512)) 4096 seg =
        (none,
          [Event.mmap ⟨0x10000, 0x1010, PROT_READ ||| PROT_EXEC, MAP_PRIVATE ||| MAP_FIXED,
              true, 0⟩,
            Event.memset 0x11010 0xFF0])) ∧
    Sample.elfIncongruent.Map (Sample.host (Sample.run_below 512)) =
      (none,
        [Event.mmap ⟨0x10000, 0x1010, PROT_READ ||| PROT_EXEC, MAP_PRIVATE ||| MAP_FIXED,
            true, 0⟩,
          Event.memset 0x11010 0xFF0]) :=
  ⟨by rfl, ⟨_, List.mem_cons_self _ _, by rfl, by decide, by decide, by rfl⟩, by rfl⟩

end StaticElfExecutable

end Mcc
